import Mathlib

/-!
# Intel 8042 keyboard/mouse controller (hw/pckbd.c) and device lifecycle (hw/qdev.c)

A shallow embedding of the controller's register state machine and of the
device lifecycle functions, with proofs of their contracts.  Byte-wide C fields
are natural numbers; every store into a `uint8_t` field is truncated with `u8`,
and the C complement `~m` of an `int` mask is `cnot m`.  The definitions of
both parts come first, the theorems after them.
-/

namespace Pckbd

/-! ## Constants of hw/pckbd.c -/

def KBD_CCMD_READ_MODE : Nat := 0x20
def KBD_CCMD_WRITE_MODE : Nat := 0x60
def KBD_CCMD_GET_VERSION : Nat := 0xA1
def KBD_CCMD_MOUSE_DISABLE : Nat := 0xA7
def KBD_CCMD_MOUSE_ENABLE : Nat := 0xA8
def KBD_CCMD_TEST_MOUSE : Nat := 0xA9
def KBD_CCMD_SELF_TEST : Nat := 0xAA
def KBD_CCMD_KBD_TEST : Nat := 0xAB
def KBD_CCMD_KBD_DISABLE : Nat := 0xAD
def KBD_CCMD_KBD_ENABLE : Nat := 0xAE
def KBD_CCMD_READ_INPORT : Nat := 0xC0
def KBD_CCMD_READ_OUTPORT : Nat := 0xD0
def KBD_CCMD_WRITE_OUTPORT : Nat := 0xD1
def KBD_CCMD_WRITE_OBUF : Nat := 0xD2
def KBD_CCMD_WRITE_AUX_OBUF : Nat := 0xD3
def KBD_CCMD_WRITE_MOUSE : Nat := 0xD4
def KBD_CCMD_DISABLE_A20 : Nat := 0xDD
def KBD_CCMD_ENABLE_A20 : Nat := 0xDF
def KBD_CCMD_PULSE_BITS_3_0 : Nat := 0xF0
def KBD_CCMD_RESET : Nat := 0xFE
def KBD_CCMD_NO_OP : Nat := 0xFF

def KBD_STAT_OBF : Nat := 0x01
def KBD_STAT_IBF : Nat := 0x02
def KBD_STAT_SELFTEST : Nat := 0x04
def KBD_STAT_CMD : Nat := 0x08
def KBD_STAT_UNLOCKED : Nat := 0x10
def KBD_STAT_MOUSE_OBF : Nat := 0x20
def KBD_STAT_GTO : Nat := 0x40
def KBD_STAT_PERR : Nat := 0x80

def KBD_MODE_KBD_INT : Nat := 0x01
def KBD_MODE_MOUSE_INT : Nat := 0x02
def KBD_MODE_SYS : Nat := 0x04
def KBD_MODE_NO_KEYLOCK : Nat := 0x08
def KBD_MODE_DISABLE_KBD : Nat := 0x10
def KBD_MODE_DISABLE_MOUSE : Nat := 0x20
def KBD_MODE_KCC : Nat := 0x40
def KBD_MODE_RFU : Nat := 0x80

def KBD_OUT_RESET : Nat := 0x01
def KBD_OUT_A20 : Nat := 0x02
def KBD_OUT_OBF : Nat := 0x10
def KBD_OUT_MOUSE_OBF : Nat := 0x20

def KBD_PENDING_KBD : Nat := 1
def KBD_PENDING_AUX : Nat := 2

/-- Truncation of a C value stored into a `uint8_t` field. -/
def u8 (x : Nat) : Nat := x % 256

/-- The C complement `~m` of a non-negative `int` mask, as a 32-bit pattern. -/
def cnot (m : Nat) : Nat := 0xFFFFFFFF - m

/-! ## State -/

/-- Modelled from the spec: the interrupt pin object (pin.c is not part of the
sources).  Only its observable level (0/1) is kept; the sinks a controller pin
is connected to lie outside the controller. -/
structure Pin where
  level : Nat
deriving DecidableEq, Repr

/-- Modelled from the spec: `set_level(p, v)` writes the new level.  The
notifier list of the three controller pins is empty in this model; the
notifiers of the sub-device pins are fired by `sub_irq_set_level`. -/
def pin_set_level (_p : Pin) (v : Nat) : Pin := { level := v }

/-- Modelled from the spec: `get_level(p)`. -/
def pin_get_level (p : Pin) : Nat := p.level

/-- Modelled from the spec: `raise(p)` is shorthand for `set_level(p, 1)`. -/
def pin_raise (p : Pin) : Pin := pin_set_level p 1

/-- Modelled from the spec: `lower(p)` is shorthand for `set_level(p, 0)`. -/
def pin_lower (p : Pin) : Pin := pin_set_level p 0

/-- Modelled from the spec: the part shared by both PS/2 sub-devices (ps2.c is
not part of the sources): the FIFO of bytes queued for readback, the outbound
interrupt pin `common.irq`, and the byte a read yields when the FIFO is empty,
which the spec leaves open and is therefore a parameter of the state. -/
structure PS2State where
  queue : List Nat
  irq : Pin
  empty_data : Nat
deriving DecidableEq, Repr

/-- Modelled from the spec: the PS/2 keyboard: the common part, the translation
mode and the log of bytes received through `write_keyboard`. -/
structure PS2KbdState where
  common : PS2State
  translate : Bool
  written : List Nat
deriving DecidableEq, Repr

/-- Modelled from the spec: the PS/2 mouse: the common part and the log of
bytes received through `write_mouse`. -/
structure PS2MouseState where
  common : PS2State
  written : List Nat
deriving DecidableEq, Repr

/-- The controller state `KBDState`.  `reset_requests` is not a C field: it
counts the calls of `qemu_system_reset_request()` made so far, so that the
requests become observable. -/
structure KBDState where
  write_cmd : Nat
  status : Nat
  mode : Nat
  outport : Nat
  pending : Nat
  it_shift : Int
  addr_size : Nat
  irq_kbd : Pin
  irq_mouse : Pin
  a20_out : Pin
  kbd : PS2KbdState
  mouse : PS2MouseState
  reset_requests : Nat
deriving DecidableEq, Repr

/-- Which of the two PS/2 sub-devices a call addresses. -/
inductive PS2Dev where
  | kbd
  | mouse
deriving DecidableEq, Repr

/-- The common part `PS2_DEVICE(&s->kbd)` or `PS2_DEVICE(&s->mouse)`. -/
def ps2_device (s : KBDState) : PS2Dev → PS2State
  | .kbd => s.kbd.common
  | .mouse => s.mouse.common

/-- Store back the common part of a sub-device. -/
def set_ps2_device (s : KBDState) (d : PS2Dev) (c : PS2State) : KBDState :=
  match d with
  | .kbd => { s with kbd := { s.kbd with common := c } }
  | .mouse => { s with mouse := { s.mouse with common := c } }

/-! ## hw/pckbd.c -/

/-- The function `kbd_update_irq`: update irq and KBD_STAT_[MOUSE_]OBF. -/
def kbd_update_irq (s : KBDState) : KBDState :=
  let s1 := { s with
    status := u8 (s.status &&& cnot (KBD_STAT_OBF ||| KBD_STAT_MOUSE_OBF)),
    outport := u8 (s.outport &&& cnot (KBD_OUT_OBF ||| KBD_OUT_MOUSE_OBF)) }
  if s1.pending ≠ 0 then
    let s2 := { s1 with
      status := u8 (s1.status ||| KBD_STAT_OBF),
      outport := u8 (s1.outport ||| KBD_OUT_OBF) }
    if s2.pending = KBD_PENDING_AUX then
      let s3 := { s2 with
        status := u8 (s2.status ||| KBD_STAT_MOUSE_OBF),
        outport := u8 (s2.outport ||| KBD_OUT_MOUSE_OBF) }
      let irq_mouse_level := if s3.mode &&& KBD_MODE_MOUSE_INT ≠ 0 then 1 else 0
      { s3 with
        irq_kbd := pin_set_level s3.irq_kbd 0,
        irq_mouse := pin_set_level s3.irq_mouse irq_mouse_level }
    else
      let irq_kbd_level :=
        if s2.mode &&& KBD_MODE_KBD_INT ≠ 0 ∧ ¬ (s2.mode &&& KBD_MODE_DISABLE_KBD ≠ 0)
        then 1 else 0
      { s2 with
        irq_kbd := pin_set_level s2.irq_kbd irq_kbd_level,
        irq_mouse := pin_set_level s2.irq_mouse 0 }
  else
    { s1 with
      irq_kbd := pin_set_level s1.irq_kbd 0,
      irq_mouse := pin_set_level s1.irq_mouse 0 }

/-- The notifier `kbd_update_kbd_irq` of the keyboard sub-device's pin. -/
def kbd_update_kbd_irq (s : KBDState) : KBDState :=
  if pin_get_level s.kbd.common.irq ≠ 0 then
    kbd_update_irq { s with pending := u8 (s.pending ||| KBD_PENDING_KBD) }
  else
    kbd_update_irq { s with pending := u8 (s.pending &&& cnot KBD_PENDING_KBD) }

/-- The notifier `kbd_update_aux_irq` of the mouse sub-device's pin. -/
def kbd_update_aux_irq (s : KBDState) : KBDState :=
  if pin_get_level s.mouse.common.irq ≠ 0 then
    kbd_update_irq { s with pending := u8 (s.pending ||| KBD_PENDING_AUX) }
  else
    kbd_update_irq { s with pending := u8 (s.pending &&& cnot KBD_PENDING_AUX) }

/-- The function `kbd_read_status`. -/
def kbd_read_status (s : KBDState) : Nat := s.status

/-- The level-change notifier that `i8042_realize` subscribes to the pin of
sub-device `d`. -/
def sub_notifier (d : PS2Dev) (s : KBDState) : KBDState :=
  match d with
  | .kbd => kbd_update_kbd_irq s
  | .mouse => kbd_update_aux_irq s

/-- Modelled from the spec: `set_level` on the interrupt pin of sub-device `d`
(pin.c is not part of the sources): it writes the new level and, if the level
changed, fires the registered notifier synchronously; setting the same level
is a no-op. -/
def sub_irq_set_level (s : KBDState) (d : PS2Dev) (v : Nat) : KBDState :=
  let c := ps2_device s d
  if c.irq.level = v then s
  else sub_notifier d (set_ps2_device s d { c with irq := pin_set_level c.irq v })

/-- Modelled from the spec: `queue(byte)` of a PS/2 sub-device (ps2.c is not
part of the sources): the byte is appended to the FIFO, in insertion order, and
the sub-device holds its interrupt pin high while the FIFO is non-empty. -/
def ps2_queue (s : KBDState) (d : PS2Dev) (b : Nat) : KBDState :=
  let c := ps2_device s d
  sub_irq_set_level (set_ps2_device s d { c with queue := c.queue ++ [u8 b] }) d 1

/-- Modelled from the spec: `read_data() -> byte` of a PS/2 sub-device (ps2.c
is not part of the sources): it drains the oldest byte of the FIFO and leaves
the interrupt pin high exactly when bytes remain; on an empty FIFO it yields
the state's `empty_data` and changes nothing. -/
def ps2_read_data (s : KBDState) (d : PS2Dev) : Nat × KBDState :=
  let c := ps2_device s d
  match c.queue with
  | [] => (c.empty_data, s)
  | b :: rest =>
    (b, sub_irq_set_level (set_ps2_device s d { c with queue := rest }) d
          (if rest = [] then 0 else 1))

/-- Modelled from the spec: `write_keyboard(byte)` (ps2.c is not part of the
sources): the keyboard accepts the byte; what it does with it is out of the
spec's scope. -/
def ps2_write_keyboard (s : KBDState) (val : Nat) : KBDState :=
  { s with kbd := { s.kbd with written := s.kbd.written ++ [val] } }

/-- Modelled from the spec: `write_mouse(byte)` (ps2.c is not part of the
sources): the mouse accepts the byte. -/
def ps2_write_mouse (s : KBDState) (val : Nat) : KBDState :=
  { s with mouse := { s.mouse with written := s.mouse.written ++ [val] } }

/-- Modelled from the spec: `keyboard_set_translation(bool)` (ps2.c is not part
of the sources): flips the keyboard's translation mode on request. -/
def ps2_keyboard_set_translation (s : KBDState) (b : Bool) : KBDState :=
  { s with kbd := { s.kbd with translate := b } }

/-- Modelled from the spec: `request_system_reset()` of the machine schedules a
guest reset; the model counts the requests. -/
def qemu_system_reset_request (s : KBDState) : KBDState :=
  { s with reset_requests := s.reset_requests + 1 }

/-- The function `kbd_queue`. -/
def kbd_queue (s : KBDState) (b : Nat) (aux : Nat) : KBDState :=
  if aux ≠ 0 then ps2_queue s .mouse b else ps2_queue s .kbd b

/-- The function `outport_write`. -/
def outport_write (s : KBDState) (val : Nat) : KBDState :=
  let s1 := { s with outport := u8 val }
  let s2 := { s1 with a20_out := pin_set_level s1.a20_out ((val >>> 1) &&& 1) }
  if val &&& 1 = 0 then qemu_system_reset_request s2 else s2

/-- The function `kbd_write_command`; `val` is the `uint32_t` argument. -/
def kbd_write_command (s : KBDState) (val : Nat) : KBDState :=
  let val :=
    if val &&& KBD_CCMD_PULSE_BITS_3_0 = KBD_CCMD_PULSE_BITS_3_0 then
      if val &&& 1 = 0 then KBD_CCMD_RESET else KBD_CCMD_NO_OP
    else val
  if val = KBD_CCMD_READ_MODE then kbd_queue s s.mode 0
  else if val = KBD_CCMD_WRITE_MODE ∨ val = KBD_CCMD_WRITE_OBUF
      ∨ val = KBD_CCMD_WRITE_AUX_OBUF ∨ val = KBD_CCMD_WRITE_MOUSE
      ∨ val = KBD_CCMD_WRITE_OUTPORT then
    { s with write_cmd := u8 val }
  else if val = KBD_CCMD_MOUSE_DISABLE then
    { s with mode := u8 (s.mode ||| KBD_MODE_DISABLE_MOUSE) }
  else if val = KBD_CCMD_MOUSE_ENABLE then
    { s with mode := u8 (s.mode &&& cnot KBD_MODE_DISABLE_MOUSE) }
  else if val = KBD_CCMD_TEST_MOUSE then kbd_queue s 0x00 0
  else if val = KBD_CCMD_SELF_TEST then
    kbd_queue { s with status := u8 (s.status ||| KBD_STAT_SELFTEST) } 0x55 0
  else if val = KBD_CCMD_KBD_TEST then kbd_queue s 0x00 0
  else if val = KBD_CCMD_KBD_DISABLE then
    kbd_update_irq { s with mode := u8 (s.mode ||| KBD_MODE_DISABLE_KBD) }
  else if val = KBD_CCMD_KBD_ENABLE then
    kbd_update_irq { s with mode := u8 (s.mode &&& cnot KBD_MODE_DISABLE_KBD) }
  else if val = KBD_CCMD_READ_INPORT then kbd_queue s 0x00 0
  else if val = KBD_CCMD_READ_OUTPORT then kbd_queue s s.outport 0
  else if val = KBD_CCMD_ENABLE_A20 then
    let s1 := { s with a20_out := pin_raise s.a20_out }
    { s1 with outport := u8 (s1.outport ||| KBD_OUT_A20) }
  else if val = KBD_CCMD_DISABLE_A20 then
    let s1 := { s with a20_out := pin_lower s.a20_out }
    { s1 with outport := u8 (s1.outport &&& cnot KBD_OUT_A20) }
  else if val = KBD_CCMD_RESET then qemu_system_reset_request s
  else if val = KBD_CCMD_NO_OP then s
  else s

/-- The function `kbd_read_data`: the byte read and the state afterwards. -/
def kbd_read_data (s : KBDState) : Nat × KBDState :=
  if s.pending = KBD_PENDING_AUX then ps2_read_data s .mouse
  else ps2_read_data s .kbd

/-- The function `kbd_write_data`; `val` is the `uint32_t` argument. -/
def kbd_write_data (s : KBDState) (val : Nat) : KBDState :=
  let s1 :=
    if s.write_cmd = 0 then ps2_write_keyboard s val
    else if s.write_cmd = KBD_CCMD_WRITE_MODE then
      let s1 := { s with mode := u8 val }
      let s2 := ps2_keyboard_set_translation s1 (s1.mode &&& KBD_MODE_KCC != 0)
      kbd_update_irq s2
    else if s.write_cmd = KBD_CCMD_WRITE_OBUF then kbd_queue s val 0
    else if s.write_cmd = KBD_CCMD_WRITE_AUX_OBUF then kbd_queue s val 1
    else if s.write_cmd = KBD_CCMD_WRITE_OUTPORT then outport_write s val
    else if s.write_cmd = KBD_CCMD_WRITE_MOUSE then ps2_write_mouse s val
    else s
  { s1 with write_cmd := 0 }

/-- The function `i8042_reset`. -/
def i8042_reset (s : KBDState) : KBDState :=
  { s with
    mode := u8 (KBD_MODE_KBD_INT ||| KBD_MODE_MOUSE_INT),
    status := u8 (KBD_STAT_CMD ||| KBD_STAT_UNLOCKED),
    outport := u8 (KBD_OUT_RESET ||| KBD_OUT_A20) }

/-- The selector `(addr >> s->it_shift) & 0x01` of `i8042_read` and
`i8042_write`.  The address is a 64-bit `target_phys_addr_t` and `it_shift` an
`int32_t`; the C shift is undefined for a negative count and for a count of 64
or more, which is `none` here. -/
def addr_select (s : KBDState) (addr : Nat) : Option Nat :=
  if 0 ≤ s.it_shift ∧ s.it_shift < 64 then
    some ((addr >>> s.it_shift.toNat) &&& 0x01)
  else none

/-- The function `i8042_read`: the value returned and the state afterwards;
`none` when the shift of the selector is undefined. -/
def i8042_read (s : KBDState) (addr : Nat) : Option (Nat × KBDState) :=
  match addr_select s addr with
  | none => none
  | some sel =>
    if sel ≠ 0 then
      some (kbd_read_status s &&& 0xff, s)
    else
      let r := kbd_read_data s
      some (r.1 &&& 0xff, r.2)

/-- The function `i8042_write`; `none` when the shift of the selector is
undefined. -/
def i8042_write (s : KBDState) (addr : Nat) (value : Nat) : Option KBDState :=
  match addr_select s addr with
  | none => none
  | some sel =>
    if sel ≠ 0 then
      some (kbd_write_command s (value &&& 0xff))
    else
      some (kbd_write_data s (value &&& 0xff))

/-- A freshly created controller: the object storage is zero-initialised, the
FIFOs are empty, all pins are low and the properties hold their declared
defaults (`it_shift = 2`, `addr_size = 8`). -/
def i8042_new : KBDState :=
  { write_cmd := 0, status := 0, mode := 0, outport := 0, pending := 0,
    it_shift := 2, addr_size := 8,
    irq_kbd := { level := 0 }, irq_mouse := { level := 0 }, a20_out := { level := 0 },
    kbd := { common := { queue := [], irq := { level := 0 }, empty_data := 0 },
             translate := false, written := [] },
    mouse := { common := { queue := [], irq := { level := 0 }, empty_data := 0 },
               written := [] },
    reset_requests := 0 }

/-- The post-reset state of the scenarios: a fresh controller after reset. -/
def post_reset : KBDState := i8042_reset i8042_new

/-- A post-reset controller whose `pending` field records the mouse only. -/
def aux_pending : KBDState := { post_reset with pending := KBD_PENDING_AUX }


/-! ## Runs of the controller -/

/-- One interaction with the controller: a register read, a register write, or
a level change of a sub-device interrupt pin (which runs the subscribed
notifier). -/
inductive Op where
  | read (addr : Nat)
  | write (addr : Nat) (value : Nat)
  | pin (d : PS2Dev) (v : Nat)
deriving DecidableEq, Repr

/-- The state after one interaction; `none` when a register access is
undefined. -/
def step (s : KBDState) : Op → Option KBDState
  | .read addr => (i8042_read s addr).map (fun r => r.2)
  | .write addr value => i8042_write s addr value
  | .pin d v => some (sub_irq_set_level s d v)

/-- The state after a sequence of interactions; `none` when one of them is
undefined. -/
def run : KBDState → List Op → Option KBDState
  | s, [] => some s
  | s, op :: ops =>
    match step s op with
    | none => none
    | some t => run t ops

/-- The `pending` bits mirror the sub-device pins: bit KBD is set iff the
keyboard pin is high and bit AUX iff the mouse pin is high. -/
def pending_synced (s : KBDState) : Prop :=
  (s.pending &&& KBD_PENDING_KBD ≠ 0 ↔ s.kbd.common.irq.level ≠ 0) ∧
  (s.pending &&& KBD_PENDING_AUX ≠ 0 ↔ s.mouse.common.irq.level ≠ 0)

/-- The status OBF bits are derived from `pending`. -/
def status_derived (s : KBDState) : Prop :=
  (s.status &&& KBD_STAT_OBF ≠ 0 ↔ s.pending ≠ 0) ∧
  (s.status &&& KBD_STAT_MOUSE_OBF ≠ 0 ↔ s.pending = KBD_PENDING_AUX)

/-- The outport OBF bits are derived from `pending`. -/
def outport_derived (s : KBDState) : Prop :=
  (s.outport &&& KBD_OUT_OBF ≠ 0 ↔ s.pending ≠ 0) ∧
  (s.outport &&& KBD_OUT_MOUSE_OBF ≠ 0 ↔ s.pending = KBD_PENDING_AUX)

/-- Whether the interaction is a data write that `kbd_write_data` hands to
`outport_write`: a write on the data path while WRITE_OUTPORT is latched. -/
def writes_outport (s : KBDState) : Op → Bool
  | .write addr _ =>
    decide (addr_select s addr = some 0) && decide (s.write_cmd = KBD_CCMD_WRITE_OUTPORT)
  | _ => false

/-- No interaction of the sequence, started in `s`, reaches `outport_write`. -/
def outport_untouched (s : KBDState) : List Op → Prop
  | [] => True
  | op :: ops =>
    writes_outport s op = false ∧
    match step s op with
    | none => True
    | some t => outport_untouched t ops

/-- A property of the controller state that every primitive state change made
by the register handlers keeps: changes of a sub-device FIFO, level changes of a
sub-device pin, the latch, the mode bits, the self-test flag, the A20 gate, the
reset request and the bytes handed to the sub-devices.  `outport_write` is not
among them. -/
structure Preserved (I : KBDState → Prop) : Prop where
  fifo : ∀ s d c, c.irq = (ps2_device s d).irq → I s → I (set_ps2_device s d c)
  pin : ∀ s d v, I s → I (sub_irq_set_level s d v)
  latch : ∀ s w, I s → I { s with write_cmd := w }
  mouse_disable : ∀ s, I s → I { s with mode := u8 (s.mode ||| KBD_MODE_DISABLE_MOUSE) }
  mouse_enable : ∀ s, I s → I { s with mode := u8 (s.mode &&& cnot KBD_MODE_DISABLE_MOUSE) }
  update_mode : ∀ s m, I s → I (kbd_update_irq { s with mode := m })
  update_translation : ∀ s m b,
    I s → I (kbd_update_irq (ps2_keyboard_set_translation { s with mode := m } b))
  self_test : ∀ s, I s → I { s with status := u8 (s.status ||| KBD_STAT_SELFTEST) }
  a20_on : ∀ s, I s →
    I { s with a20_out := { level := 1 }, outport := u8 (s.outport ||| KBD_OUT_A20) }
  a20_off : ∀ s, I s →
    I { s with a20_out := { level := 0 }, outport := u8 (s.outport &&& cnot KBD_OUT_A20) }
  reset_request : ∀ s, I s → I (qemu_system_reset_request s)
  write_keyboard : ∀ s v, I s → I (ps2_write_keyboard s v)
  write_mouse : ∀ s v, I s → I (ps2_write_mouse s v)

/-! ## Device properties -/

/-- The value type of a static property; the table uses DEFINE_PROP_INT32 only. -/
inductive PropertyType where
  | int32
deriving DecidableEq, Repr

/-- The `KBDState` field a static property is bound to. -/
inductive KBDField where
  | it_shift
  | addr_size
deriving DecidableEq, Repr

/-- One entry of a static property table: the arguments of DEFINE_PROP_INT32
(name, field of the state, default value). -/
structure Property where
  name : String
  type : PropertyType
  field : KBDField
  defval : Int
deriving DecidableEq, Repr

/-- The table `i8042_properties`. -/
def i8042_properties : List Property :=
  [ { name := "it_shift", type := .int32, field := .it_shift, defval := 2 },
    { name := "addr_shift", type := .int32, field := .addr_size, defval := 8 } ]

/-- Modelled from the spec: `find(name)` of the property system
(qdev-properties.c is not part of the sources): the declared property of that
name, if any. -/
def qdev_prop_find (props : List Property) (name : String) : Option Property :=
  props.find? (fun p => p.name == name)

/-- Store an `int32_t` value into the field a property is bound to (`addr_size`
is a natural number here, a negative value is stored as 0). -/
def set_field (s : KBDState) (f : KBDField) (value : Int) : KBDState :=
  match f with
  | .it_shift => { s with it_shift := value }
  | .addr_size => { s with addr_size := value.toNat }

/-- Modelled from the spec: setting an int32 property by name
(qdev-properties.c is not part of the sources): the value is stored through
the declared property of that name; a name that is not declared is an
`UnknownProperty` error, rendered as `none`. -/
def qdev_prop_set_int32 (s : KBDState) (name : String) (value : Int) : Option KBDState :=
  match qdev_prop_find i8042_properties name with
  | some p => some (set_field s p.field value)
  | none => none

/-- The property names `i8042_mm_init` assigns, in order. -/
def i8042_mm_init_property_names : List String := ["it_shift", "addr_size"]

/-- The property assignments of `i8042_mm_init`, up to `qdev_init_nofail`: a
new controller gets `it_shift` and then `addr_size` set by name. -/
def i8042_mm_init (size : Int) (it_shift : Int) : Option KBDState :=
  match qdev_prop_set_int32 i8042_new "it_shift" it_shift with
  | none => none
  | some s => qdev_prop_set_int32 s "addr_size" size

end Pckbd

/-! # Device lifecycle (hw/qdev.c)

`qdev_init` and `qdev_unplug` over a device, its class hooks and the
process-wide flags of qdev.c.  Calls into collaborators are recorded in a
trace, so that "is called", "is not called" and "exactly once" can be stated.
-/

namespace QdevLife

/-- The lifecycle state `dev->state`. -/
inductive DevState where
  | DEV_STATE_CREATED
  | DEV_STATE_INITIALIZED
deriving DecidableEq, Repr

/-- The fields of `BusState` that `qdev_unplug` reads. -/
structure BusState where
  name : String
  allow_hotplug : Nat
deriving DecidableEq, Repr

/-- The fields of `DeviceState` that `qdev_init` and `qdev_unplug` use.  The
parent bus is held by value. -/
structure DeviceState where
  state : DevState
  hotplugged : Nat
  parent_bus : BusState
  instance_id_alias : Int
  alias_required_for_version : Int
deriving DecidableEq, Repr

/-- The class of a device: the hooks of `DeviceClass` and its snapshot
descriptor (by name).  A hook is given by the `int` it returns on a device; the
`reset` hook returns nothing, so only its presence matters. -/
structure DeviceClass where
  init : DeviceState → Int
  unplug : Option (DeviceState → Int)
  reset : Bool
  vmsd : Option String

/-- A call that leaves qdev.c or runs a class hook. -/
inductive Event where
  | init_hook
  | qdev_free
  | vmstate_register (vmsd : String) (alias_id : Int) (required_for_version : Int)
  | device_reset
  | reset_hook
  | unplug_hook
  | qerror_bus_no_hotplug (bus : String)
deriving DecidableEq, Repr

/-- The process-wide state of qdev.c: the flags `qdev_hotplug`,
`qdev_hot_added`, `qdev_hot_removed`, and the trace of calls made so far. -/
structure World where
  qdev_hotplug : Nat
  qdev_hot_added : Bool
  qdev_hot_removed : Bool
  trace : List Event
deriving DecidableEq, Repr

/-- Append a call to the trace. -/
def emit (w : World) (e : Event) : World := { w with trace := w.trace ++ [e] }

/-- How a function ends: it returns a value, or a C assertion fails and the
process aborts.  Both carry the process-wide state reached. -/
inductive Result (α : Type) where
  | returned (a : α) (w : World)
  | aborted (w : World)

/-- The function `qdev_get_vmsd`. -/
def qdev_get_vmsd (dc : DeviceClass) : Option String := dc.vmsd

/-- The function `device_reset`: the class reset hook runs if the class has one. -/
def device_reset (w : World) (dc : DeviceClass) : World :=
  let w1 := emit w .device_reset
  if dc.reset then emit w1 .reset_hook else w1

/-- The function `qdev_free`: the device is deleted. -/
def qdev_free (w : World) : World := emit w .qdev_free

/-- The function `qdev_init`: the `int` returned, the device afterwards (`none`
once it has been freed) and the process-wide state. -/
def qdev_init (w : World) (dc : DeviceClass) (dev : DeviceState) :
    Result (Int × Option DeviceState) :=
  if dev.state ≠ .DEV_STATE_CREATED then .aborted w
  else
    let rc := dc.init dev
    let w1 := emit w .init_hook
    if rc < 0 then
      .returned (rc, none) (qdev_free w1)
    else
      let w2 :=
        match qdev_get_vmsd dc with
        | some v =>
          emit w1 (.vmstate_register v dev.instance_id_alias dev.alias_required_for_version)
        | none => w1
      let dev1 := { dev with state := .DEV_STATE_INITIALIZED }
      let w3 := if dev1.hotplugged ≠ 0 then device_reset w2 dc else w2
      .returned (0, some dev1) w3

/-- The function `qdev_unplug`. -/
def qdev_unplug (w : World) (dc : DeviceClass) (dev : DeviceState) : Result Int :=
  if dev.parent_bus.allow_hotplug = 0 then
    .returned (-1) (emit w (.qerror_bus_no_hotplug dev.parent_bus.name))
  else
    match dc.unplug with
    | none => .aborted w
    | some hook =>
      let w1 := { w with qdev_hot_removed := true }
      .returned (hook dev) (emit w1 .unplug_hook)

/-- The function `qdev_machine_modified`. -/
def qdev_machine_modified (w : World) : Bool := w.qdev_hot_added || w.qdev_hot_removed

/-- The value a function returned, if it returned. -/
def Result.value {α : Type} : Result α → Option α
  | .returned a _ => some a
  | .aborted _ => none

/-- The process-wide state a function ended in. -/
def Result.world {α : Type} : Result α → World
  | .returned _ w => w
  | .aborted w => w

/-- A hot-plugged device of a class with a snapshot descriptor and a reset
hook, whose init hook succeeds. -/
def sample_class : DeviceClass :=
  { init := fun _ => 0, unplug := some (fun _ => 0), reset := true, vmsd := some "pckbd" }

/-- A class whose init hook fails with -1. -/
def failing_class : DeviceClass :=
  { init := fun _ => -1, unplug := none, reset := true, vmsd := some "pckbd" }

/-- A freshly created hot-plugged device on a bus that allows hot-plug. -/
def sample_device : DeviceState :=
  { state := .DEV_STATE_CREATED, hotplugged := 1,
    parent_bus := { name := "isa.0", allow_hotplug := 1 },
    instance_id_alias := -1, alias_required_for_version := 0 }

/-- The process-wide state after machine creation, with an empty trace. -/
def sample_world : World :=
  { qdev_hotplug := 1, qdev_hot_added := false, qdev_hot_removed := false, trace := [] }

end QdevLife

/-! # Device tree: buses, properties, links and paths (hw/qdev.c)

Devices, buses and link slots live in a heap addressed by natural numbers; a C
pointer is such an address and `none` is NULL.  C strings are lists of
characters.  Functions that recurse through the heap take a fuel argument and
return `none` when it runs out.
-/

namespace Qdev

/-- A C string. -/
abbrev Str := List Char

/-- The test `strstart(str, val, NULL)`: `val` starts `str`. -/
def strstart : Str → Str → Bool
  | _, [] => true
  | [], _ :: _ => false
  | c :: cs, v :: vs => c == v && strstart cs vs

/-- The release hooks that qdev.c installs in a property:
`qdev_release_child_property`, `qdev_property_release_str` and
`qdev_release_legacy_property`. -/
inductive Release where
  | child
  | str
  | legacy
deriving DecidableEq, Repr

/-- An entry of a device's property list (`DeviceProperty`): the name, the type
tag (the C field `type`), the release hook (`none` is NULL) and the pointer (the
C field `opaque`), which is a device for a `child<` tag and a link slot for a
`link<` tag. -/
structure DeviceProperty where
  name : Str
  type_ : Str
  release : Option Release
  ptr : Nat
deriving DecidableEq, Repr

/-- The fields of `DeviceState` used by the tree functions. -/
structure DeviceState where
  typename : Str
  id : Option Str
  state : QdevLife.DevState
  hotplugged : Nat
  parent_bus : Option Nat
  parent : Option Nat
  properties : List DeviceProperty
  ref : Int
  child_bus : List Nat
  num_child_bus : Int
deriving DecidableEq, Repr

/-- An entry of a bus's child list (`BusChild`). -/
structure BusChild where
  index : Int
  child : Nat
deriving DecidableEq, Repr

/-- The fields of `BusState` used by the tree functions; `children` is the
QTAILQ, head first. -/
structure BusState where
  name : Str
  parent : Option Nat
  children : List BusChild
  max_index : Int
  allow_hotplug : Nat
  qdev_allocated : Nat
deriving DecidableEq, Repr

/-- The heap and the globals of qdev.c: live devices, live buses, the link
slots, the root device, the allocator, `qdev_hotplug`, `qdev_hot_added`,
`main_system_bus`, and the registered device types with the static properties
a new instance starts with. -/
structure Heap where
  devs : Nat → Option DeviceState
  buses : Nat → Option BusState
  slots : Nat → Option Nat
  root : Nat
  next_dev : Nat
  next_bus : Nat
  qdev_hotplug : Nat
  qdev_hot_added : Bool
  main_system_bus : Option Nat
  types : Str → Option (List DeviceProperty)

/-- Store (or, with `none`, free) the device at an address. -/
def set_dev (h : Heap) (i : Nat) (d : Option DeviceState) : Heap :=
  { h with devs := fun j => if j = i then d else h.devs j }

/-- Store (or, with `none`, free) the bus at an address. -/
def set_bus (h : Heap) (i : Nat) (b : Option BusState) : Heap :=
  { h with buses := fun j => if j = i then b else h.buses j }

/-- Store a pointer into a link slot. -/
def set_slot (h : Heap) (i : Nat) (v : Option Nat) : Heap :=
  { h with slots := fun j => if j = i then v else h.slots j }

/-- The loop of `bus_remove_child`: drop the first entry whose child is `child`. -/
def remove_kid : List BusChild → Nat → List BusChild
  | [], _ => []
  | kid :: kids, child => if kid.child = child then kids else kid :: remove_kid kids child

/-- The function `bus_remove_child` (the `child[n]` object property of the bus
is not part of the model). -/
def bus_remove_child (h : Heap) (bus : Nat) (child : Nat) : Heap :=
  match h.buses bus with
  | none => h
  | some B => set_bus h bus (some { B with children := remove_kid B.children child })

/-- The function `bus_add_child`; `none` when the hot-plug assertion fails or
the bus pointer is invalid. -/
def bus_add_child (h : Heap) (bus : Nat) (child : Nat) : Option Heap :=
  match h.buses bus with
  | none => none
  | some B =>
    if h.qdev_hotplug ≠ 0 ∧ B.allow_hotplug = 0 then none
    else
      some (set_bus h bus (some { B with
        max_index := B.max_index + 1,
        children := { index := B.max_index, child := child } :: B.children }))

/-- The function `qdev_set_parent_bus`. -/
def qdev_set_parent_bus (h : Heap) (dev : Nat) (bus : Nat) : Option Heap :=
  match h.devs dev with
  | none => none
  | some D => bus_add_child (set_dev h dev (some { D with parent_bus := some bus })) bus dev

/-- The errors that the tree functions set through `errp`. -/
inductive QError where
  | PERMISSION_DENIED
  | INVALID_PARAMETER_TYPE (name : Str) (type_ : Str)
  | DEVICE_NOT_FOUND (path : Str)
  | DUPLICATE_PROPERTY (name : Str)
  | VISITOR (code : Nat)
  | PROPERTY (ret : Int)
deriving DecidableEq, Repr

/-- Modelled from the spec: `qdev_ref` is not in src/hw/qdev.c; the spec says a
reference is acquired by incrementing the device's refcount. -/
def qdev_ref (h : Heap) (dev : Nat) : Heap :=
  match h.devs dev with
  | none => h
  | some D => set_dev h dev (some { D with ref := D.ref + 1 })

/-- Modelled from the spec: `qdev_unref` is not in src/hw/qdev.c; the spec says
a release decrements the device's refcount. -/
def qdev_unref (h : Heap) (dev : Nat) : Heap :=
  match h.devs dev with
  | none => h
  | some D => set_dev h dev (some { D with ref := D.ref - 1 })

/-- Modelled from the spec: `qdev_property_find` is not in src/hw/qdev.c; the
spec's `find(name)` looks a property up by name, and here the first entry of
the list with that name is returned. -/
def qdev_property_find (D : DeviceState) (name : Str) : Option DeviceProperty :=
  D.properties.find? (fun p => p.name = name)

/-- Modelled from the spec: `qdev_property_get_type` is not in src/hw/qdev.c;
it gives the type tag of the property of that name, NULL when there is none. -/
def qdev_property_get_type (h : Heap) (dev : Nat) (name : Str) : Option Str :=
  match h.devs dev with
  | none => none
  | some D => (qdev_property_find D name).map (fun p => p.type_)

/-- Modelled from the spec: `qdev_property_add` is not in src/hw/qdev.c; the
spec's `add(name, type_tag, get, set, release, opaque)` errors on a duplicate
name and otherwise records the property, here at the tail of the list. -/
def qdev_property_add (h : Heap) (dev : Nat) (name : Str) (type_ : Str)
    (release : Option Release) (ptr : Nat) : Option (Heap × Option QError) :=
  match h.devs dev with
  | none => none
  | some D =>
    match qdev_property_find D name with
    | some _ => some (h, some (.DUPLICATE_PROPERTY name))
    | none =>
      some (set_dev h dev (some { D with
        properties := D.properties ++
          [{ name := name, type_ := type_, release := release, ptr := ptr }] }), none)

/-- The call `prop->release(dev, prop->name, prop->opaque)` for the hooks of
qdev.c: `qdev_release_child_property` is `qdev_unref(child)`; the other two
free C storage that the model does not hold. -/
def run_release (h : Heap) (release : Option Release) (ptr : Nat) : Heap :=
  match release with
  | some .child => qdev_unref h ptr
  | _ => h

/-- The string `"child<%s>"` of `qdev_property_add_child`. -/
def child_type (typename : Str) : Str := "child<".toList ++ typename ++ ">".toList

/-- The string `"link<%s>"` of `qdev_set_link_property`. -/
def link_type (typename : Str) : Str := "link<".toList ++ typename ++ ">".toList

/-- The function `qdev_property_add_child`; `none` when `g_assert(child->parent
== NULL)` fails or a pointer is invalid, otherwise the heap and what was stored
through `errp`. -/
def qdev_property_add_child (h : Heap) (dev : Nat) (name : Str) (child : Nat) :
    Option (Heap × Option QError) :=
  match h.devs child with
  | none => none
  | some C =>
    match qdev_property_add h dev name (child_type C.typename) (some .child) child with
    | none => none
    | some (h1, err) =>
      let h2 := qdev_ref h1 child
      match h2.devs child with
      | none => none
      | some C2 =>
        if C2.parent ≠ none then none
        else some (set_dev h2 child (some { C2 with parent := some dev }), err)

/-- The loop of `qdev_property_del_child`: the first property with a `child<`
tag whose pointer is `child`. -/
def find_child_property (props : List DeviceProperty) (child : Nat) : Option DeviceProperty :=
  props.find? (fun p => strstart p.type_ "child<".toList && p.ptr == child)

/-- The function `qdev_property_del_child`; `none` when `g_assert(prop != NULL)`
fails. -/
def qdev_property_del_child (h : Heap) (dev : Nat) (child : Nat) : Option Heap :=
  match h.devs dev with
  | none => none
  | some D =>
    match find_child_property D.properties child with
    | none => none
    | some prop =>
      let h1 := set_dev h dev (some { D with properties := D.properties.erase prop })
      some (run_release h1 prop.release prop.ptr)

/-- Modelled from the spec: `object_new` is not in src/hw/qdev.c; the spec's
`new(name)` allocates zero-initialised storage and runs the instance-init
hooks.  Here `DEVICE(object_new(name))` is NULL (`none`) for an unregistered
type name and otherwise a fresh address holding what `device_initfn` leaves: a
device in state CREATED with the static properties of its type and
`hotplugged` set when `qdev_hotplug` is. -/
def object_new (h : Heap) (name : Str) : Option (Nat × Heap) :=
  match h.types name with
  | none => none
  | some props =>
    let dev := h.next_dev
    let D : DeviceState :=
      { typename := name, id := none, state := QdevLife.DevState.DEV_STATE_CREATED,
        hotplugged := (if h.qdev_hotplug ≠ 0 then 1 else 0),
        parent_bus := none, parent := none, properties := props, ref := 0,
        child_bus := [], num_child_bus := 0 }
    some (dev, { set_dev h dev (some D) with
      next_dev := dev + 1,
      qdev_hot_added := (if h.qdev_hotplug ≠ 0 then true else h.qdev_hot_added) })

/-- The function `sysbus_get_default` with `main_system_bus_create`: the main
system bus, created by `qbus_create(TYPE_SYSTEM_BUS, NULL, "main-system-bus")`
on first use. -/
def sysbus_get_default (h : Heap) : Nat × Heap :=
  match h.main_system_bus with
  | some b => (b, h)
  | none =>
    let b := h.next_bus
    let B : BusState :=
      { name := "main-system-bus".toList, parent := none, children := [],
        max_index := 0, allow_hotplug := 0, qdev_allocated := 1 }
    (b, { set_bus h b (some B) with next_bus := b + 1, main_system_bus := some b })

/-- The function `qdev_try_create`: the new device or NULL, and the heap;
`none` when the hot-plug assertion of `bus_add_child` fails.  The global
property values of `qdev_prop_set_globals` are not part of the model. -/
def qdev_try_create (h : Heap) (bus : Option Nat) (name : Str) : Option (Option Nat × Heap) :=
  match object_new h name with
  | none => some (none, h)
  | some (dev, h1) =>
    let bh : Nat × Heap :=
      match bus with
      | some b => (b, h1)
      | none => sysbus_get_default h1
    match qdev_set_parent_bus bh.2 dev bh.1 with
    | none => none
    | some h3 => some (some dev, h3)

mutual
/-- The function `device_finalize`; the class's `exit` hook, the vmstate and
the options are not part of the model.  The result is `none` when the fuel
runs out, a pointer is invalid or an assertion fails. -/
def device_finalize : Nat → Heap → Nat → Option Heap
  | 0, _, _ => none
  | fuel + 1, h, dev =>
    match h.devs dev with
    | none => none
    | some D =>
      let r1 : Option Heap :=
        if D.state = QdevLife.DevState.DEV_STATE_INITIALIZED then free_child_buses fuel h dev
        else some h
      match r1 with
      | none => none
      | some h1 =>
        match h1.devs dev with
        | none => none
        | some D1 =>
          let h2 : Heap :=
            match D1.parent_bus with
            | some bus => bus_remove_child h1 bus dev
            | none => h1
          match h2.devs dev with
          | none => none
          | some D2 =>
            match D2.parent with
            | some parent => qdev_property_del_child h2 parent dev
            | none => some h2
termination_by structural fuel _ _ => fuel
/-- The loop `while (dev->num_child_bus) qbus_free(QLIST_FIRST(&dev->child_bus))`
of `device_finalize`. -/
def free_child_buses : Nat → Heap → Nat → Option Heap
  | 0, _, _ => none
  | fuel + 1, h, dev =>
    match h.devs dev with
    | none => none
    | some D =>
      if D.num_child_bus = 0 then some h
      else
        match D.child_bus with
        | [] => none
        | bus :: _ =>
          match qbus_free fuel h bus with
          | none => none
          | some h1 => free_child_buses fuel h1 dev
termination_by structural fuel _ _ => fuel
/-- The function `qdev_free`: `object_delete` runs `device_finalize` and frees
the storage. -/
def qdev_free : Nat → Heap → Nat → Option Heap
  | 0, _, _ => none
  | fuel + 1, h, dev =>
    match device_finalize fuel h dev with
    | none => none
    | some h1 => some (set_dev h1 dev none)
termination_by structural fuel _ _ => fuel
/-- The function `qbus_free`: free every child, unlink the bus from its parent
device, and free the storage when the bus was allocated by `qbus_create`. -/
def qbus_free : Nat → Heap → Nat → Option Heap
  | 0, _, _ => none
  | fuel + 1, h, bus =>
    match h.buses bus with
    | none => none
    | some B =>
      match B.children with
      | kid :: _ =>
        match qdev_free fuel h kid.child with
        | none => none
        | some h1 => qbus_free fuel h1 bus
      | [] =>
        let r : Option Heap :=
          match B.parent with
          | some parent =>
            match h.devs parent with
            | none => none
            | some P =>
              some (set_dev h parent (some { P with
                child_bus := P.child_bus.erase bus,
                num_child_bus := P.num_child_bus - 1 }))
          | none => if h.main_system_bus = some bus then none else some h
        match r with
        | none => none
        | some h1 => some (if B.qdev_allocated ≠ 0 then set_bus h1 bus none else h1)
termination_by structural fuel _ _ => fuel
end

/-- The operations of the bus-membership claim: `qdev_try_create`,
`qdev_set_parent_bus` and the finalization of a device by `qdev_free`. -/
inductive BusOp where
  | create (bus : Option Nat) (name : Str)
  | set_parent_bus (dev : Nat) (bus : Nat)
  | free (fuel : Nat) (dev : Nat)
deriving DecidableEq, Repr

/-- One operation on the heap; `none` when it does not return normally. -/
def bus_step (h : Heap) : BusOp → Option Heap
  | .create bus name => (qdev_try_create h bus name).map (fun r => r.2)
  | .set_parent_bus dev bus => qdev_set_parent_bus h dev bus
  | .free fuel dev => qdev_free fuel h dev

/-- A sequence of operations, left to right. -/
def bus_run : Heap → List BusOp → Option Heap
  | h, [] => some h
  | h, op :: ops =>
    match bus_step h op with
    | none => none
    | some h1 => bus_run h1 ops

/-- The bus-membership property: every entry of a bus's child list is a live
device whose `parent_bus` is that bus, and no device is listed twice in one
list. -/
def bus_membership (h : Heap) : Prop :=
  ∀ b B, h.buses b = some B →
    (∀ kid ∈ B.children, ∃ D, h.devs kid.child = some D ∧ D.parent_bus = some b) ∧
    (B.children.map (fun kid => kid.child)).Nodup

/-- The allocator is ahead of every live address. -/
def alloc_ok (h : Heap) : Prop :=
  (∀ d, h.next_dev ≤ d → h.devs d = none) ∧ (∀ b, h.next_bus ≤ b → h.buses b = none)

/-- An operation attaches only a device that is on no bus: `qdev_set_parent_bus`
is applied to a live device whose `parent_bus` is NULL. -/
def attaches_detached (h : Heap) : BusOp → Bool
  | .set_parent_bus dev _ =>
    match h.devs dev with
    | some D => D.parent_bus == none
    | none => false
  | _ => true

/-- Every `qdev_set_parent_bus` of the run is applied to a detached device. -/
def detached_run : Heap → List BusOp → Bool
  | _, [] => true
  | h, op :: ops =>
    attaches_detached h op &&
    match bus_step h op with
    | none => true
    | some h1 => detached_run h1 ops

/-- The heap before any device or bus exists, with one registered type
`container` that has no static properties. -/
def empty_heap : Heap :=
  { devs := fun _ => none, buses := fun _ => none, slots := fun _ => none,
    root := 0, next_dev := 0, next_bus := 0, qdev_hotplug := 0, qdev_hot_added := false,
    main_system_bus := none,
    types := fun n => if n = "container".toList then some [] else none }

/-- Create a device on the default bus, then attach it to that bus again. -/
def double_attach : Option Heap :=
  bus_run empty_heap [.create none "container".toList, .set_parent_bus 0 0]

/-- A heap with the main system bus, empty, and one detached device. -/
def detached_heap : Heap :=
  { empty_heap with
    devs := fun i =>
      if i = 0 then
        some { typename := "container".toList, id := none,
               state := QdevLife.DevState.DEV_STATE_CREATED, hotplugged := 0,
               parent_bus := none, parent := none, properties := [], ref := 0,
               child_bus := [], num_child_bus := 0 }
      else none,
    buses := fun b =>
      if b = 0 then
        some { name := "main-system-bus".toList, parent := none, children := [],
               max_index := 0, allow_hotplug := 0, qdev_allocated := 1 }
      else none,
    next_dev := 1, next_bus := 1, main_system_bus := some 0 }

/-- Attach the detached device, create a second one, free the first. -/
def detached_ops : List BusOp :=
  [.set_parent_bus 0 0, .create none "container".toList, .free 3 0]

/-- The device is in no bus's child list. -/
def unlisted (h : Heap) (dev : Nat) : Prop :=
  ∀ b B, h.buses b = some B → ∀ kid ∈ B.children, kid.child ≠ dev

/-- Two heaps with the same buses, the same allocator and, at every address,
the same liveness and `parent_bus` of the device. -/
def same_membership (h h' : Heap) : Prop :=
  h'.buses = h.buses ∧ h'.next_dev = h.next_dev ∧ h'.next_bus = h.next_bus ∧
  ∀ i, (h'.devs i).map (fun D => D.parent_bus) = (h.devs i).map (fun D => D.parent_bus)

/-- A device in state CREATED with no parent, no bus and no properties. -/
def plain_device (typename : Str) : DeviceState :=
  { typename := typename, id := none, state := QdevLife.DevState.DEV_STATE_CREATED,
    hotplugged := 0, parent_bus := none, parent := none, properties := [], ref := 0,
    child_bus := [], num_child_bus := 0 }

/-- A heap with the root container at address 0 and an orphan `i8042` device at
address 1. -/
def pair_heap : Heap :=
  { empty_heap with
    devs := fun i =>
      if i = 0 then some (plain_device "container".toList)
      else if i = 1 then some (plain_device "i8042".toList)
      else none,
    next_dev := 2 }

/-- A heap with the root container at address 0, which already has a property
called `kbd` (a string property), and an orphan `i8042` device at address 1. -/
def dup_heap : Heap :=
  { empty_heap with
    devs := fun i =>
      if i = 0 then
        some { plain_device "container".toList with
          properties :=
            [{ name := "kbd".toList, type_ := "string".toList, release := none, ptr := 0 }] }
      else if i = 1 then some (plain_device "i8042".toList)
      else none,
    next_dev := 2 }

/-- Split a string at every `/`; the result always has at least one piece. -/
def split_slash : Str → List Str
  | [] => [[]]
  | c :: cs =>
    if c = '/' then [] :: split_slash cs
    else
      match split_slash cs with
      | [] => [[c]]
      | p :: ps => (c :: p) :: ps

/-- The glib call `g_strsplit(path, "/", 0)`: the empty string gives the empty
vector, any other string is cut at every `/`. -/
def g_strsplit (path : Str) : List Str :=
  if path = [] then [] else split_slash path

/-- Join path segments with `/`. -/
def join_path : List Str → Str
  | [] => []
  | [n] => n
  | n :: m :: ns => n ++ '/' :: join_path (m :: ns)

/-- The loop of `qdev_get_canonical_path` from device `dev` with the path built
so far (`none` is the NULL `path`); the result is `none` when an assertion
fails, a pointer is invalid or the fuel runs out. -/
def canonical_loop : Nat → Heap → Nat → Option Str → Option (Option Str)
  | 0, _, _, _ => none
  | fuel + 1, h, dev, path =>
    if dev = h.root then some path
    else
      match h.devs dev with
      | none => none
      | some D =>
        match D.parent with
        | none => none
        | some parent =>
          match h.devs parent with
          | none => none
          | some P =>
            match find_child_property P.properties dev with
            | none => none
            | some prop =>
              canonical_loop fuel h parent
                (some (match path with
                  | some p => prop.name ++ '/' :: p
                  | none => prop.name))

/-- The function `qdev_get_canonical_path`; the root is `h.root`, the value
`qdev_get_root()` returns once the root container exists.  A NULL `path` is
printed by `"/%s"` the way glibc does. -/
def qdev_get_canonical_path (fuel : Nat) (h : Heap) (dev : Nat) : Option Str :=
  (canonical_loop fuel h dev none).map (fun path => '/' :: path.getD "(null)".toList)

/-- The recursion of `qdev_resolve_abs_path` over the parts from `index` on. -/
def resolve_abs_parts (h : Heap) : Nat → List Str → Option Nat
  | parent, [] => some parent
  | parent, part :: rest =>
    if part = [] then resolve_abs_parts h parent rest
    else
      match h.devs parent with
      | none => none
      | some P =>
        match qdev_property_find P part with
        | none => none
        | some prop =>
          let child : Option Nat :=
            if strstart prop.type_ "link<".toList then h.slots prop.ptr
            else if strstart prop.type_ "child<".toList then some prop.ptr
            else none
          match child with
          | none => none
          | some c => resolve_abs_parts h c rest

/-- The function `qdev_resolve_abs_path(parent, parts, index)`; `none` is NULL. -/
def qdev_resolve_abs_path (h : Heap) (parent : Nat) (parts : List Str) (index : Nat) :
    Option Nat :=
  resolve_abs_parts h parent (parts.drop index)

/-- The loop of `qdev_resolve_partial_path` over the remaining properties of
`parent`: `dev` is the match so far and `amb` the flag (`none` when the
`ambiguous` pointer is NULL); `rec child amb` is the recursive call. -/
def partial_loop (rec : Nat → Option Bool → Option (Option Nat × Option Bool)) :
    List DeviceProperty → Option Nat → Option Bool → Option (Option Nat × Option Bool)
  | [], dev, amb => some (dev, amb)
  | prop :: props, dev, amb =>
    if ¬ strstart prop.type_ "child<".toList then partial_loop rec props dev amb
    else
      match rec prop.ptr amb with
      | none => none
      | some (found, amb1) =>
        match found with
        | some f =>
          if dev.isSome then some (none, amb1.map (fun _ => true))
          else if amb1 = some true then some (none, amb1)
          else partial_loop rec props (some f) amb1
        | none =>
          if amb1 = some true then some (none, amb1)
          else partial_loop rec props dev amb1

/-- The function `qdev_resolve_partial_path(parent, parts, ambiguous)`: the
returned pointer and the flag afterwards; `none` when the fuel runs out or a
pointer is invalid. -/
def qdev_resolve_partial_path : Nat → Heap → Nat → List Str → Option Bool →
    Option (Option Nat × Option Bool)
  | 0, _, _, _, _ => none
  | fuel + 1, h, parent, parts, amb =>
    match h.devs parent with
    | none => none
    | some P =>
      partial_loop (fun child a => qdev_resolve_partial_path fuel h child parts a)
        P.properties (qdev_resolve_abs_path h parent parts 0) amb

/-- The function `qdev_resolve_path(path, ambiguous)`: the returned pointer and
the flag afterwards. -/
def qdev_resolve_path (fuel : Nat) (h : Heap) (path : Str) (amb : Option Bool) :
    Option (Option Nat × Option Bool) :=
  match g_strsplit path with
  | [] => some (some h.root, amb)
  | part :: parts =>
    if part = [] then some (qdev_resolve_abs_path h h.root (part :: parts) 1, amb)
    else qdev_resolve_partial_path fuel h h.root (part :: parts) (amb.map (fun _ => false))

/-- The composition-tree invariant of the spec: the root is live and has no
parent; the target of every `child<` property is a live device whose parent
pointer is the owner; and a device is the target of at most one `child<`
property of its parent. -/
def child_tree_ok (h : Heap) : Prop :=
  (∃ R, h.devs h.root = some R ∧ R.parent = none) ∧
  ∀ p P, h.devs p = some P →
    (∀ prop ∈ P.properties, strstart prop.type_ "child<".toList = true →
      (h.devs prop.ptr).map (fun C => C.parent) = some (some p)) ∧
    (∀ p1 ∈ P.properties, ∀ p2 ∈ P.properties,
      strstart p1.type_ "child<".toList = true → strstart p2.type_ "child<".toList = true →
      p1.ptr = p2.ptr → p1 = p2)

/-- A chain of `child<` properties from device `a` down to device `d` with the
given property names: every name is non-empty, has no `/`, and the names of an
owner's properties are unique. -/
def child_chain (h : Heap) : Nat → List Str → Nat → Prop
  | a, [], d => a = d
  | a, n :: ns, d =>
    ∃ A p, h.devs a = some A ∧ p ∈ A.properties ∧ p.name = n ∧
      strstart p.type_ "child<".toList = true ∧
      (A.properties.map (fun q => q.name)).Nodup ∧ n ≠ [] ∧ '/' ∉ n ∧
      child_chain h p.ptr ns d

/-- The path that the canonical-path loop has built after climbing through the
properties `names` (outermost first) above an earlier path. -/
def prepend_path (names : List Str) (path : Option Str) : Option Str :=
  names.foldr (fun n acc => some (match acc with
    | some p => n ++ '/' :: p
    | none => n)) path

/-- The `child<` tree is finite: a rank decreases along every `child<` property
and every target is live. -/
def child_ranked (h : Heap) (rank : Nat → Nat) : Prop :=
  ∀ p P, h.devs p = some P → ∀ prop ∈ P.properties,
    strstart prop.type_ "child<".toList = true →
    (h.devs prop.ptr).isSome = true ∧ rank prop.ptr < rank p

/-- The matches below the remaining `child<` properties of a node, given the
matches `rec child` of each subtree. -/
def matches_props (rec : Nat → Option (List Nat)) : List DeviceProperty → Option (List Nat)
  | [] => some []
  | prop :: props =>
    if strstart prop.type_ "child<".toList then
      match rec prop.ptr, matches_props rec props with
      | some a, some b => some (a ++ b)
      | _, _ => none
    else matches_props rec props

/-- The matches of a partial path in the subtree of `node`: for the node and
then for every node below it through `child<` properties, the device that the
path resolves to by absolute resolution from there, when it does.  The length
of the list is the number of nodes from which the path resolves. -/
def resolve_matches : Nat → Heap → Nat → List Str → Option (List Nat)
  | 0, _, _, _ => none
  | fuel + 1, h, node, parts =>
    match h.devs node with
    | none => none
    | some N =>
      match matches_props (fun child => resolve_matches fuel h child parts) N.properties with
      | none => none
      | some ms => some ((qdev_resolve_abs_path h node parts 0).toList ++ ms)

/-- What partial resolution answers for a list of matches: no match gives null,
one match gives it, two or more give null with the ambiguous flag set. -/
def ambiguity_verdict : List Nat → Option Nat × Option Bool
  | [] => (none, some false)
  | [m] => (some m, some false)
  | _ :: _ :: _ => (none, some true)

/-- Two heaps with the same link slots, the same root and, at every address, the
same liveness, type name and property list of the device. -/
def same_tree (h h' : Heap) : Prop :=
  h'.slots = h.slots ∧ h'.root = h.root ∧
  ∀ i, (h'.devs i).map (fun D => (D.typename, D.properties)) =
    (h.devs i).map (fun D => (D.typename, D.properties))

/-- A `child<` property. -/
def child_prop (name : Str) (typename : Str) (child : Nat) : DeviceProperty :=
  { name := name, type_ := child_type typename, release := some Release.child, ptr := child }

/-- A tree with the root container at 0, its child `a` (an `i8042` at 1), that
device's child `a` (an `i8042` at 2) and a root child `b` (a `serial` at 3)
with a child `c` (a `serial` at 4); the root also has a `link<i8042>` property
`kbd` with slot 0, which holds device 2. -/
def tree_heap : Heap :=
  { empty_heap with
    devs := fun i =>
      if i = 0 then
        some { plain_device "container".toList with
          properties := [child_prop "a".toList "i8042".toList 1,
                         child_prop "b".toList "serial".toList 3,
                         { name := "kbd".toList, type_ := link_type "i8042".toList,
                           release := none, ptr := 0 }] }
      else if i = 1 then
        some { plain_device "i8042".toList with
          parent := some 0, ref := 1,
          properties := [child_prop "a".toList "i8042".toList 2] }
      else if i = 2 then
        some { plain_device "i8042".toList with parent := some 1, ref := 2 }
      else if i = 3 then
        some { plain_device "serial".toList with
          parent := some 0, ref := 1,
          properties := [child_prop "c".toList "serial".toList 4] }
      else if i = 4 then
        some { plain_device "serial".toList with parent := some 3, ref := 1 }
      else none,
    slots := fun i => if i = 0 then some 2 else none,
    next_dev := 5 }

/-- The rank of the devices of `tree_heap`: the height above the leaves. -/
def tree_rank (i : Nat) : Nat :=
  if i = 0 then 2 else if i = 1 then 1 else if i = 3 then 1 else 0

/-- The function `qdev_set_link_property` for the link slot `slot` of the
property `name` of `dev`, with `path` the string that the visitor delivers:
the heap afterwards and what was stored through `errp`; `none` when the
resolution runs out of fuel or a NULL or invalid pointer is used. -/
def qdev_set_link_property (fuel : Nat) (h : Heap) (dev : Nat) (path : Str) (slot : Nat)
    (name : Str) : Option (Heap × Option QError) :=
  let type_ := qdev_property_get_type h dev name
  let h1 : Heap :=
    match h.slots slot with
    | some old => qdev_unref h old
    | none => h
  if path ≠ [] then
    match qdev_resolve_path fuel h1 path (some false) with
    | none => none
    | some (target, _) =>
      match target with
      | some t =>
        match h1.devs t, type_ with
        | some T, some ty =>
          if link_type T.typename = ty then some (qdev_ref (set_slot h1 slot (some t)) t, none)
          else some (h1, some (.INVALID_PARAMETER_TYPE name ty))
        | _, _ => none
      | none => some (h1, some (.DEVICE_NOT_FOUND path))
  else some (set_slot h1 slot none, none)

/-- The reference count of the device at an address. -/
def ref_of (h : Heap) (dev : Nat) : Option Int :=
  (h.devs dev).map (fun D => D.ref)

/-- What `qdev_set_legacy_property` does with its environment: a read of the
value from the visitor and a call of the property's parse function. -/
inductive LegacyEvent where
  | visit_type_str (name : Str)
  | parse (value : Str)
deriving DecidableEq, Repr

/-- The function `qdev_set_legacy_property` on a device whose legacy property
stores a scalar of type `σ`.  The visitor (`visit_type_str`), the property's
`parse` hook and the mapping `error_set_from_qdev_prop_error` from its return
value to an error are parameters.  The result is the scalar afterwards, what
was stored through `errp`, and the calls made, in order. -/
def qdev_set_legacy_property {σ : Type} (visit_type_str : Str → Except QError Str)
    (parse : σ → Str → Int × σ) (error_set_from_qdev_prop_error : Int → Option QError)
    (dev : DeviceState) (scalar : σ) (name : Str) : σ × Option QError × List LegacyEvent :=
  if dev.state ≠ QdevLife.DevState.DEV_STATE_CREATED then
    (scalar, some QError.PERMISSION_DENIED, [])
  else
    match visit_type_str name with
    | .error local_err => (scalar, some local_err, [.visit_type_str name])
    | .ok ptr =>
      let ret := parse scalar ptr
      (ret.2, error_set_from_qdev_prop_error ret.1, [.visit_type_str name, .parse ptr])

/-- The spec's invariant of `child<` properties: the target of every `child<`
property of a live device P is a live device whose parent pointer is P and
whose refcount is at least 1. -/
def child_refs_ok (h : Heap) : Prop :=
  ∀ p P, h.devs p = some P → ∀ prop ∈ P.properties,
    strstart prop.type_ "child<".toList = true →
    ∃ C, h.devs prop.ptr = some C ∧ C.parent = some p ∧ 1 ≤ C.ref

/-- The function `qdev_property_add_link`: a property with tag `link<type>`, no
release hook, and the slot as its pointer. -/
def qdev_property_add_link (h : Heap) (dev : Nat) (name : Str) (type_ : Str) (child : Nat) :
    Option (Heap × Option QError) :=
  qdev_property_add h dev name (link_type type_) none child

/-- The output of the format `"%s.%d"`; an `int` prints in at most 11
characters, so the buffers of `strlen + 16` bytes never truncate it. -/
def dot_name (s : Str) (n : Int) : Str :=
  s ++ '.' :: (toString n).toList

/-- The function `qemu_tolower` on every character of a buffer. -/
def lowercase (buf : Str) : Str :=
  buf.map Char.toLower

/-- The function `do_qbus_create_inplace` on the storage `bus`, already
initialised as an object: the parent pointer, the name, the empty child list
and the insertion at the head of the parent's child-bus list.  The QOM child
property and the reset handler that are registered at the end are not part of
the model.  The result is `none` when a pointer is invalid. -/
def do_qbus_create_inplace (h : Heap) (bus : Nat) (typename : Str) (parent : Option Nat)
    (name : Option Str) : Option Heap :=
  match h.buses bus with
  | none => none
  | some B =>
    match parent with
    | none =>
      let bus_name : Str :=
        match name with
        | some n => n
        | none => lowercase (dot_name typename 0)
      some (set_bus h bus (some { B with parent := none, name := bus_name, children := [] }))
    | some p =>
      match h.devs p with
      | none => none
      | some P =>
        let bus_name : Str :=
          match name with
          | some n => n
          | none =>
            match P.id with
            | some id => dot_name id P.num_child_bus
            | none => lowercase (dot_name typename P.num_child_bus)
        let h1 := set_bus h bus (some { B with parent := some p, name := bus_name, children := [] })
        some (set_dev h1 p (some { P with
          child_bus := bus :: P.child_bus,
          num_child_bus := P.num_child_bus + 1 }))

/-- A heap with a device at address 0 that has the id `pci` and two child
buses (1 and 2), a device at address 1 without an id and without child buses,
and fresh bus storage at address 5. -/
def naming_heap : Heap :=
  { empty_heap with
    devs := fun i =>
      if i = 0 then
        some { plain_device "PCI-Host".toList with
          id := some "pci".toList, child_bus := [2, 1], num_child_bus := 2 }
      else if i = 1 then some (plain_device "ISA-Bridge".toList)
      else none,
    buses := fun b =>
      if b = 5 then
        some { name := [], parent := none, children := [], max_index := 0, allow_hotplug := 0,
               qdev_allocated := 1 }
      else none,
    next_dev := 2, next_bus := 6 }

/-- An operation on a bus's child list: `bus_add_child` or `bus_remove_child`
with the given device. -/
inductive IndexOp where
  | add (child : Nat)
  | remove (child : Nat)
deriving DecidableEq, Repr

/-- The index of the entry at the head of the bus's child list. -/
def head_index (h : Heap) (bus : Nat) : Option Int :=
  match h.buses bus with
  | none => none
  | some B => B.children.head?.map (fun kid => kid.index)

/-- A sequence of `bus_add_child` and `bus_remove_child` calls on one bus: the
heap afterwards and the indices that the added entries received, in order;
`none` when a call does not return. -/
def index_run (bus : Nat) : Heap → List IndexOp → Option (Heap × List Int)
  | h, [] => some (h, [])
  | h, .add child :: ops =>
    match bus_add_child h bus child with
    | none => none
    | some h1 =>
      match head_index h1 bus, index_run bus h1 ops with
      | some i, some r => some (r.1, i :: r.2)
      | _, _ => none
  | h, .remove child :: ops => index_run bus (bus_remove_child h bus child) ops

/-- Add devices 0, 1 and 2, remove device 1, add devices 1 and 3, remove
devices 0 and 3. -/
def index_ops : List IndexOp :=
  [.add 0, .add 1, .add 2, .remove 1, .add 1, .add 3, .remove 0, .remove 3]

end Qdev

/-! # Tree walks and reset (hw/qdev.c)

The device/bus tree as a finite tree: a device owns its child buses and a bus
its child devices.  The walkers return the C return value together with the
events that the callbacks produced, in order.
-/

namespace QdevTree

mutual
/-- A device: an identity, whether its class has a `reset` hook, and its child
buses in list order. -/
inductive DeviceState where
  | mk (id : Nat) (reset : Bool) (child_bus : List BusState)
/-- A bus: an identity, the value its class `reset` hook returns when the class
has one, and its children in list order. -/
inductive BusState where
  | mk (id : Nat) (reset : Option Int) (children : List DeviceState)
end

/-- A node of the tree. -/
inductive Visit where
  | dev (id : Nat)
  | bus (id : Nat)
deriving DecidableEq, Repr

/-- A device callback (`qdev_walkerfn`): the return value and the events. -/
abbrev qdev_walkerfn (ε : Type) := DeviceState → Int × List ε

/-- A bus callback (`qbus_walkerfn`): the return value and the events. -/
abbrev qbus_walkerfn (ε : Type) := BusState → Int × List ε

mutual
/-- The function `qdev_walk_children`. -/
def qdev_walk_children {ε : Type} (devfn : Option (qdev_walkerfn ε))
    (busfn : Option (qbus_walkerfn ε)) : DeviceState → Int × List ε
  | .mk id reset child_bus =>
    let r : Int × List ε :=
      match devfn with
      | some f => f (.mk id reset child_bus)
      | none => (0, [])
    if r.1 ≠ 0 then r
    else
      let w := walk_child_bus devfn busfn child_bus
      (w.1, r.2 ++ w.2)
/-- The loop of `qdev_walk_children` over the child buses: a negative result of
a bus ends the loop and is returned, otherwise the result is 0. -/
def walk_child_bus {ε : Type} (devfn : Option (qdev_walkerfn ε))
    (busfn : Option (qbus_walkerfn ε)) : List BusState → Int × List ε
  | [] => (0, [])
  | bus :: rest =>
    let r := qbus_walk_children devfn busfn bus
    if r.1 < 0 then r
    else
      let w := walk_child_bus devfn busfn rest
      (w.1, r.2 ++ w.2)
/-- The function `qbus_walk_children`. -/
def qbus_walk_children {ε : Type} (devfn : Option (qdev_walkerfn ε))
    (busfn : Option (qbus_walkerfn ε)) : BusState → Int × List ε
  | .mk id reset children =>
    let r : Int × List ε :=
      match busfn with
      | some f => f (.mk id reset children)
      | none => (0, [])
    if r.1 ≠ 0 then r
    else
      let w := walk_children devfn busfn children
      (w.1, r.2 ++ w.2)
/-- The loop of `qbus_walk_children` over the children. -/
def walk_children {ε : Type} (devfn : Option (qdev_walkerfn ε))
    (busfn : Option (qbus_walkerfn ε)) : List DeviceState → Int × List ε
  | [] => (0, [])
  | dev :: rest =>
    let r := qdev_walk_children devfn busfn dev
    if r.1 < 0 then r
    else
      let w := walk_children devfn busfn rest
      (w.1, r.2 ++ w.2)
end

/-- The function `device_reset`: the class's `reset` hook is invoked when the
class has one. -/
def device_reset : DeviceState → List Visit
  | .mk id reset _ => if reset then [.dev id] else []

/-- The function `qdev_reset_one`. -/
def qdev_reset_one (dev : DeviceState) : Int × List Visit :=
  (0, device_reset dev)

/-- The function `qbus_reset_one`: the bus class's `reset` hook is invoked when
the class has one, and its value returned. -/
def qbus_reset_one : BusState → Int × List Visit
  | .mk id reset _ =>
    match reset with
    | some ret => (ret, [.bus id])
    | none => (0, [])

/-- The function `qdev_reset_all`: the class resets invoked, in order. -/
def qdev_reset_all (dev : DeviceState) : List Visit :=
  (qdev_walk_children (some qdev_reset_one) (some qbus_reset_one) dev).2

mutual
/-- The nodes of the subtree of a device, each node before its descendants,
each with whether its class has a reset hook. -/
def dev_nodes : DeviceState → List (Visit × Bool)
  | .mk id reset child_bus => (.dev id, reset) :: child_bus_nodes child_bus
/-- The nodes below a list of buses. -/
def child_bus_nodes : List BusState → List (Visit × Bool)
  | [] => []
  | bus :: rest => bus_nodes bus ++ child_bus_nodes rest
/-- The nodes of the subtree of a bus, each node before its descendants. -/
def bus_nodes : BusState → List (Visit × Bool)
  | .mk id reset children => (.bus id, reset.isSome) :: children_nodes children
/-- The nodes below a list of devices. -/
def children_nodes : List DeviceState → List (Visit × Bool)
  | [] => []
  | dev :: rest => dev_nodes dev ++ children_nodes rest
end

/-- The nodes of a listing whose class has a reset hook. -/
def with_reset (nodes : List (Visit × Bool)) : List Visit :=
  (nodes.filter (fun n => n.2)).map (fun n => n.1)

mutual
/-- Every bus reset hook in the subtree of the device returns 0. -/
def dev_bus_resets_zero : DeviceState → Bool
  | .mk _ _ child_bus => child_bus_resets_zero child_bus
/-- Every bus reset hook below the buses returns 0. -/
def child_bus_resets_zero : List BusState → Bool
  | [] => true
  | bus :: rest => bus_resets_zero bus && child_bus_resets_zero rest
/-- Every bus reset hook in the subtree of the bus returns 0. -/
def bus_resets_zero : BusState → Bool
  | .mk _ reset children => (reset = none || reset = some 0) && children_resets_zero children
/-- Every bus reset hook below the devices returns 0. -/
def children_resets_zero : List DeviceState → Bool
  | [] => true
  | dev :: rest => dev_bus_resets_zero dev && children_resets_zero rest
end

/-- A device with a reset hook, on a bus whose reset hook returns 1, under a
device with a reset hook. -/
def skip_tree : DeviceState :=
  .mk 0 true [.mk 1 (some 1) [.mk 2 true []]]

/-- A device with two child buses, one with a reset hook that returns 0 and one
without a hook, and three more devices, one of them without a reset hook. -/
def reset_tree : DeviceState :=
  .mk 0 true [.mk 1 (some 0) [.mk 2 true [], .mk 3 false []], .mk 4 none [.mk 5 true []]]

/-- The identity of a device. -/
def DeviceState.ident : DeviceState → Nat
  | .mk id _ _ => id

/-- The identity of a bus. -/
def BusState.ident : BusState → Nat
  | .mk id _ _ => id

/-- A device visitor that returns `f` of the device's identity; the event is the
visit. -/
def visit_dev (f : Nat → Int) : qdev_walkerfn Visit :=
  fun dev => (f dev.ident, [.dev dev.ident])

/-- A bus visitor that returns `g` of the bus's identity; the event is the
visit. -/
def visit_bus (g : Nat → Int) : qbus_walkerfn Visit :=
  fun bus => (g bus.ident, [.bus bus.ident])

/-- The value that the visitors return on a node. -/
def visit_code (f g : Nat → Int) : Visit → Int
  | .dev id => f id
  | .bus id => g id

mutual
/-- The nodes of the subtree of a device, each node before its descendants,
without the descendants of a node on which the visitor returns non-zero. -/
def dev_visits (f g : Nat → Int) : DeviceState → List Visit
  | .mk id _ child_bus =>
    .dev id :: (if f id = 0 then child_bus_visits f g child_bus else [])
/-- The same for a list of buses. -/
def child_bus_visits (f g : Nat → Int) : List BusState → List Visit
  | [] => []
  | bus :: rest => bus_visits f g bus ++ child_bus_visits f g rest
/-- The same for the subtree of a bus. -/
def bus_visits (f g : Nat → Int) : BusState → List Visit
  | .mk id _ children =>
    .bus id :: (if g id = 0 then children_visits f g children else [])
/-- The same for a list of devices. -/
def children_visits (f g : Nat → Int) : List DeviceState → List Visit
  | [] => []
  | dev :: rest => dev_visits f g dev ++ children_visits f g rest
end

/-- A list of nodes up to and including the first one on which the visitor
returns a negative value. -/
def until_negative (f g : Nat → Int) : List Visit → List Visit
  | [] => []
  | v :: vs => if visit_code f g v < 0 then [v] else v :: until_negative f g vs

/-- The first negative value that the visitor returns on a list of nodes, 0 when
there is none. -/
def first_negative (f g : Nat → Int) : List Visit → Int
  | [] => 0
  | v :: vs => if visit_code f g v < 0 then visit_code f g v else first_negative f g vs

/-- A device with two buses: bus 1 holds devices 2 (with bus 3 and device 4)
and 5, bus 6 holds device 7. -/
def walk_tree : DeviceState :=
  .mk 0 false
    [.mk 1 none [.mk 2 false [.mk 3 none [.mk 4 false []]], .mk 5 false []],
     .mk 6 none [.mk 7 false []]]

end QdevTree

/-! # Find by id (hw/qdev.c)

The device/bus tree as a finite tree whose devices carry the user id.
-/

namespace QdevFind

/-- A C string. -/
abbrev Str := List Char

mutual
/-- A device: the user id (`none` is NULL) and the child buses in list order. -/
inductive DeviceState where
  | mk (id : Option Str) (child_bus : List BusState)
/-- A bus: its name and its children in list order. -/
inductive BusState where
  | mk (name : Str) (children : List DeviceState)
end

/-- The field `dev->id`. -/
def DeviceState.id : DeviceState → Option Str
  | .mk id _ => id

mutual
/-- The function `qdev_find_recursive(bus, id)`; `none` is NULL. -/
def qdev_find_recursive : BusState → Str → Option DeviceState
  | .mk _ children, id => find_children children id
/-- The loop of `qdev_find_recursive` over the remaining children of the bus:
the child itself when its id is `id`, else the first hit in its child buses,
else the remaining children. -/
def find_children : List DeviceState → Str → Option DeviceState
  | [], _ => none
  | .mk dev_id child_bus :: rest, id =>
    if dev_id = some id then some (.mk dev_id child_bus)
    else
      match find_child_bus child_bus id with
      | some ret => some ret
      | none => find_children rest id
/-- The inner loop over the remaining child buses of a device. -/
def find_child_bus : List BusState → Str → Option DeviceState
  | [], _ => none
  | child :: rest, id =>
    match qdev_find_recursive child id with
    | some ret => some ret
    | none => find_child_bus rest id
end

mutual
/-- The devices in the subtree below a bus: its children and, recursively, the
children of their child buses, each device before the devices below it. -/
def bus_devices : BusState → List DeviceState
  | .mk _ children => children_devices children
/-- The devices at and below a list of devices. -/
def children_devices : List DeviceState → List DeviceState
  | [] => []
  | .mk dev_id child_bus :: rest =>
    .mk dev_id child_bus :: (child_bus_devices child_bus ++ children_devices rest)
/-- The devices below a list of buses. -/
def child_bus_devices : List BusState → List DeviceState
  | [] => []
  | child :: rest => bus_devices child ++ child_bus_devices rest
end

/-- A bus with a device `a` that has a child bus holding a device without id and
a device `b`, followed by a second device `b` with no child bus. -/
def find_tree : BusState :=
  .mk "main".toList
    [.mk (some "a".toList) [.mk "a.0".toList [.mk none [], .mk (some "b".toList) [.mk "x".toList []]]],
     .mk (some "b".toList) []]

end QdevFind

namespace Pckbd

/-- The two interrupt pins carry the levels that `kbd_update_irq` computes from
`pending` and `mode`. -/
def irq_consistent (s : KBDState) : Prop :=
  s.irq_kbd.level = (kbd_update_irq s).irq_kbd.level ∧
  s.irq_mouse.level = (kbd_update_irq s).irq_mouse.level

/-! ## Byte arithmetic -/

theorem forall_byte {P : Nat → Prop} (h : ∀ i : Fin 256, P i.val) (x : Nat) (hx : x < 256) :
    P x :=
  h ⟨x, hx⟩

theorem u8_lt (x : Nat) : u8 x < 256 := Nat.mod_lt _ (by decide)

theorem u8_of_lt {x : Nat} (hx : x < 256) : u8 x = x := Nat.mod_eq_of_lt hx

theorem testBit_byte_high {x i : Nat} (hx : x < 256) (hi : 8 ≤ i) : x.testBit i = false :=
  Nat.testBit_lt_two_pow (lt_of_lt_of_le hx (by
    calc 256 = 2 ^ 8 := rfl
      _ ≤ 2 ^ i := Nat.pow_le_pow_right (by decide) hi))

set_option maxRecDepth 100000 in
theorem u8_or_one_and_one (x : Nat) : u8 (u8 x ||| 1) &&& 1 = 1 := by
  have h : ∀ y < 256, u8 (y ||| 1) &&& 1 = 1 := by
    apply forall_byte
    decide
  exact h _ (u8_lt x)

/-! ## kbd_update_irq -/

theorem kbd_update_irq_irq_mouse (s : KBDState) :
    (kbd_update_irq s).irq_mouse.level =
      if s.pending = KBD_PENDING_AUX ∧ s.mode &&& KBD_MODE_MOUSE_INT ≠ 0 then 1 else 0 := by
  unfold kbd_update_irq
  simp only [pin_set_level]
  split_ifs <;> simp_all [KBD_PENDING_AUX]

theorem kbd_update_irq_irq_kbd (s : KBDState) :
    (kbd_update_irq s).irq_kbd.level =
      if s.pending ≠ 0 ∧ s.pending ≠ KBD_PENDING_AUX ∧ s.mode &&& KBD_MODE_KBD_INT ≠ 0
          ∧ s.mode &&& KBD_MODE_DISABLE_KBD = 0 then 1 else 0 := by
  unfold kbd_update_irq
  simp only [pin_set_level]
  split_ifs <;> simp_all [KBD_PENDING_AUX]

/-- Claim C1: after `kbd_update_irq` the mouse IRQ pin is 1 exactly when
`pending == KBD_PENDING_AUX` and the mode has MOUSE_INT, the keyboard IRQ pin is
1 exactly when `pending` is non-zero and not `KBD_PENDING_AUX` and the mode has
KBD_INT without DISABLE_KBD, and each pin is 0 otherwise; with DISABLE_KBD set
and the keyboard pending, status OBF is set while `irq_kbd` is 0. -/
theorem kbd_update_irq_pin_levels (s : KBDState) :
    ((kbd_update_irq s).irq_mouse.level =
      if s.pending = KBD_PENDING_AUX ∧ s.mode &&& KBD_MODE_MOUSE_INT ≠ 0 then 1 else 0) ∧
    ((kbd_update_irq s).irq_kbd.level =
      if s.pending ≠ 0 ∧ s.pending ≠ KBD_PENDING_AUX ∧ s.mode &&& KBD_MODE_KBD_INT ≠ 0
          ∧ s.mode &&& KBD_MODE_DISABLE_KBD = 0 then 1 else 0) ∧
    (s.mode &&& KBD_MODE_DISABLE_KBD ≠ 0 → s.pending &&& KBD_PENDING_KBD ≠ 0 →
      (kbd_update_irq s).status &&& KBD_STAT_OBF ≠ 0 ∧ (kbd_update_irq s).irq_kbd.level = 0) := by
  refine ⟨kbd_update_irq_irq_mouse s, kbd_update_irq_irq_kbd s, ?_⟩
  · intro hd hp
    have hp0 : s.pending ≠ 0 := by
      intro h0
      rw [h0] at hp
      exact hp (by decide)
    have hp2 : s.pending ≠ KBD_PENDING_AUX := by
      intro h2
      rw [h2] at hp
      exact hp (by decide)
    unfold kbd_update_irq
    simp only [pin_set_level, hp0, hp2, ne_eq, not_false_eq_true, if_true, if_false, hd,
      not_true_eq_false, and_false]
    refine ⟨?_, trivial⟩
    show u8 (u8 _ ||| 1) &&& 1 ≠ 0
    rw [u8_or_one_and_one]
    decide

theorem kbd_update_irq_status (s : KBDState) :
    (kbd_update_irq s).status =
      if s.pending = 0 then u8 (s.status &&& cnot 0x21)
      else if s.pending = 2 then u8 (u8 (u8 (s.status &&& cnot 0x21) ||| 0x01) ||| 0x20)
      else u8 (u8 (s.status &&& cnot 0x21) ||| 0x01) := by
  unfold kbd_update_irq
  simp only []
  split_ifs <;> first | rfl | contradiction

theorem kbd_update_irq_outport (s : KBDState) :
    (kbd_update_irq s).outport =
      if s.pending = 0 then u8 (s.outport &&& cnot 0x30)
      else if s.pending = 2 then u8 (u8 (u8 (s.outport &&& cnot 0x30) ||| 0x10) ||| 0x20)
      else u8 (u8 (s.outport &&& cnot 0x30) ||| 0x10) := by
  unfold kbd_update_irq
  simp only []
  split_ifs <;> first | rfl | contradiction

theorem kbd_update_irq_frame (s : KBDState) :
    (kbd_update_irq s).mode = s.mode ∧ (kbd_update_irq s).pending = s.pending ∧
    (kbd_update_irq s).write_cmd = s.write_cmd ∧ (kbd_update_irq s).it_shift = s.it_shift ∧
    (kbd_update_irq s).addr_size = s.addr_size ∧ (kbd_update_irq s).a20_out = s.a20_out ∧
    (kbd_update_irq s).kbd = s.kbd ∧ (kbd_update_irq s).mouse = s.mouse ∧
    (kbd_update_irq s).reset_requests = s.reset_requests := by
  unfold kbd_update_irq
  simp only []
  split_ifs <;> simp

set_option maxRecDepth 100000 in
theorem status_obf_bytes : ∀ x < 256,
    (u8 (x &&& cnot 0x21) &&& 0x01 = 0 ∧ u8 (x &&& cnot 0x21) &&& 0x20 = 0) ∧
    (u8 (u8 (x &&& cnot 0x21) ||| 0x01) &&& 0x01 ≠ 0
      ∧ u8 (u8 (x &&& cnot 0x21) ||| 0x01) &&& 0x20 = 0) ∧
    (u8 (u8 (u8 (x &&& cnot 0x21) ||| 0x01) ||| 0x20) &&& 0x01 ≠ 0
      ∧ u8 (u8 (u8 (x &&& cnot 0x21) ||| 0x01) ||| 0x20) &&& 0x20 ≠ 0) := by
  apply forall_byte
  decide

set_option maxRecDepth 100000 in
theorem outport_obf_bytes : ∀ x < 256,
    (u8 (x &&& cnot 0x30) &&& 0x10 = 0 ∧ u8 (x &&& cnot 0x30) &&& 0x20 = 0) ∧
    (u8 (u8 (x &&& cnot 0x30) ||| 0x10) &&& 0x10 ≠ 0
      ∧ u8 (u8 (x &&& cnot 0x30) ||| 0x10) &&& 0x20 = 0) ∧
    (u8 (u8 (u8 (x &&& cnot 0x30) ||| 0x10) ||| 0x20) &&& 0x10 ≠ 0
      ∧ u8 (u8 (u8 (x &&& cnot 0x30) ||| 0x10) ||| 0x20) &&& 0x20 ≠ 0) := by
  apply forall_byte
  decide

set_option maxRecDepth 100000 in
theorem status_other_bits_low : ∀ x < 256, ∀ i < 8, i ≠ 0 → i ≠ 5 →
    (u8 (x &&& cnot 0x21)).testBit i = x.testBit i ∧
    (u8 (u8 (x &&& cnot 0x21) ||| 0x01)).testBit i = x.testBit i ∧
    (u8 (u8 (u8 (x &&& cnot 0x21) ||| 0x01) ||| 0x20)).testBit i = x.testBit i := by
  apply forall_byte
  decide

set_option maxRecDepth 100000 in
theorem outport_other_bits_low : ∀ x < 256, ∀ i < 8, i ≠ 4 → i ≠ 5 →
    (u8 (x &&& cnot 0x30)).testBit i = x.testBit i ∧
    (u8 (u8 (x &&& cnot 0x30) ||| 0x10)).testBit i = x.testBit i ∧
    (u8 (u8 (u8 (x &&& cnot 0x30) ||| 0x10) ||| 0x20)).testBit i = x.testBit i := by
  apply forall_byte
  decide

theorem status_other_bits (x i : Nat) (hx : x < 256) (h0 : i ≠ 0) (h5 : i ≠ 5) :
    (u8 (x &&& cnot 0x21)).testBit i = x.testBit i ∧
    (u8 (u8 (x &&& cnot 0x21) ||| 0x01)).testBit i = x.testBit i ∧
    (u8 (u8 (u8 (x &&& cnot 0x21) ||| 0x01) ||| 0x20)).testBit i = x.testBit i := by
  by_cases hi : i < 8
  · exact status_other_bits_low x hx i hi h0 h5
  · have hi8 : 8 ≤ i := Nat.le_of_not_lt hi
    simp only [testBit_byte_high (u8_lt _) hi8, testBit_byte_high hx hi8, and_self]

theorem outport_other_bits (x i : Nat) (hx : x < 256) (h4 : i ≠ 4) (h5 : i ≠ 5) :
    (u8 (x &&& cnot 0x30)).testBit i = x.testBit i ∧
    (u8 (u8 (x &&& cnot 0x30) ||| 0x10)).testBit i = x.testBit i ∧
    (u8 (u8 (u8 (x &&& cnot 0x30) ||| 0x10) ||| 0x20)).testBit i = x.testBit i := by
  by_cases hi : i < 8
  · exact outport_other_bits_low x hx i hi h4 h5
  · have hi8 : 8 ≤ i := Nat.le_of_not_lt hi
    simp only [testBit_byte_high (u8_lt _) hi8, testBit_byte_high hx hi8, and_self]

/-- Claim C2: after `kbd_update_irq` the OBF bits of status (0x01) and outport
(0x10) are set iff `pending != 0`, the MOUSE_OBF bits (0x20) of both iff
`pending == KBD_PENDING_AUX`; every other bit of status and outport and the
fields mode, pending and write_cmd are unchanged. -/
theorem kbd_update_irq_obf_bits (s : KBDState) (hs : s.status < 256) (ho : s.outport < 256) :
    ((kbd_update_irq s).status &&& KBD_STAT_OBF ≠ 0 ↔ s.pending ≠ 0) ∧
    ((kbd_update_irq s).outport &&& KBD_OUT_OBF ≠ 0 ↔ s.pending ≠ 0) ∧
    ((kbd_update_irq s).status &&& KBD_STAT_MOUSE_OBF ≠ 0 ↔ s.pending = KBD_PENDING_AUX) ∧
    ((kbd_update_irq s).outport &&& KBD_OUT_MOUSE_OBF ≠ 0 ↔ s.pending = KBD_PENDING_AUX) ∧
    (∀ i, i ≠ 0 → i ≠ 5 → (kbd_update_irq s).status.testBit i = s.status.testBit i) ∧
    (∀ i, i ≠ 4 → i ≠ 5 → (kbd_update_irq s).outport.testBit i = s.outport.testBit i) ∧
    (kbd_update_irq s).mode = s.mode ∧ (kbd_update_irq s).pending = s.pending ∧
    (kbd_update_irq s).write_cmd = s.write_cmd := by
  have hsb := status_obf_bytes s.status hs
  have hob := outport_obf_bytes s.outport ho
  have hf := kbd_update_irq_frame s
  rw [kbd_update_irq_status, kbd_update_irq_outport]
  simp only [KBD_STAT_OBF, KBD_OUT_OBF, KBD_STAT_MOUSE_OBF, KBD_OUT_MOUSE_OBF, KBD_PENDING_AUX]
  refine ⟨?_, ?_, ?_, ?_, ?_, ?_, hf.1, hf.2.1, hf.2.2.1⟩
  · split_ifs <;> simp_all [-Nat.and_one_is_mod]
  · split_ifs <;> simp_all [-Nat.and_one_is_mod]
  · split_ifs <;> simp_all [-Nat.and_one_is_mod]
  · split_ifs <;> simp_all [-Nat.and_one_is_mod]
  · intro i h0 h5
    have hb := status_other_bits s.status i hs h0 h5
    split_ifs
    · exact hb.1
    · exact hb.2.2
    · exact hb.2.1
  · intro i h4 h5
    have hb := outport_other_bits s.outport i ho h4 h5
    split_ifs
    · exact hb.1
    · exact hb.2.2
    · exact hb.2.1

theorem kbd_update_irq_obf_bits_witness :
    (aux_pending.status < 256 ∧ aux_pending.outport < 256) ∧
    (((kbd_update_irq aux_pending).status &&& KBD_STAT_OBF ≠ 0 ↔ aux_pending.pending ≠ 0) ∧
    ((kbd_update_irq aux_pending).outport &&& KBD_OUT_OBF ≠ 0 ↔ aux_pending.pending ≠ 0) ∧
    ((kbd_update_irq aux_pending).status &&& KBD_STAT_MOUSE_OBF ≠ 0 ↔
      aux_pending.pending = KBD_PENDING_AUX) ∧
    ((kbd_update_irq aux_pending).outport &&& KBD_OUT_MOUSE_OBF ≠ 0 ↔
      aux_pending.pending = KBD_PENDING_AUX) ∧
    (∀ i, i ≠ 0 → i ≠ 5 →
      (kbd_update_irq aux_pending).status.testBit i = aux_pending.status.testBit i) ∧
    (∀ i, i ≠ 4 → i ≠ 5 →
      (kbd_update_irq aux_pending).outport.testBit i = aux_pending.outport.testBit i) ∧
    (kbd_update_irq aux_pending).mode = aux_pending.mode ∧
    (kbd_update_irq aux_pending).pending = aux_pending.pending ∧
    (kbd_update_irq aux_pending).write_cmd = aux_pending.write_cmd) :=
  ⟨by decide, kbd_update_irq_obf_bits aux_pending (by decide) (by decide)⟩

/-! ## Sub-device pins, queueing and reading -/

theorem sub_notifier_frame (d : PS2Dev) (s : KBDState) :
    (sub_notifier d s).mode = s.mode ∧ (sub_notifier d s).write_cmd = s.write_cmd ∧
    (sub_notifier d s).it_shift = s.it_shift ∧ (sub_notifier d s).addr_size = s.addr_size ∧
    (sub_notifier d s).a20_out = s.a20_out ∧ (sub_notifier d s).kbd = s.kbd ∧
    (sub_notifier d s).mouse = s.mouse ∧
    (sub_notifier d s).reset_requests = s.reset_requests := by
  cases d
  · simp only [sub_notifier, kbd_update_kbd_irq]
    split_ifs
    · have h := kbd_update_irq_frame { s with pending := u8 (s.pending ||| KBD_PENDING_KBD) }
      exact ⟨h.1, h.2.2.1, h.2.2.2.1, h.2.2.2.2.1, h.2.2.2.2.2.1, h.2.2.2.2.2.2.1,
        h.2.2.2.2.2.2.2.1, h.2.2.2.2.2.2.2.2⟩
    · have h := kbd_update_irq_frame
        { s with pending := u8 (s.pending &&& cnot KBD_PENDING_KBD) }
      exact ⟨h.1, h.2.2.1, h.2.2.2.1, h.2.2.2.2.1, h.2.2.2.2.2.1, h.2.2.2.2.2.2.1,
        h.2.2.2.2.2.2.2.1, h.2.2.2.2.2.2.2.2⟩
  · simp only [sub_notifier, kbd_update_aux_irq]
    split_ifs
    · have h := kbd_update_irq_frame { s with pending := u8 (s.pending ||| KBD_PENDING_AUX) }
      exact ⟨h.1, h.2.2.1, h.2.2.2.1, h.2.2.2.2.1, h.2.2.2.2.2.1, h.2.2.2.2.2.2.1,
        h.2.2.2.2.2.2.2.1, h.2.2.2.2.2.2.2.2⟩
    · have h := kbd_update_irq_frame
        { s with pending := u8 (s.pending &&& cnot KBD_PENDING_AUX) }
      exact ⟨h.1, h.2.2.1, h.2.2.2.1, h.2.2.2.2.1, h.2.2.2.2.2.1, h.2.2.2.2.2.2.1,
        h.2.2.2.2.2.2.2.1, h.2.2.2.2.2.2.2.2⟩

/-- Setting the level of a sub-device pin touches neither FIFO, nor the
controller fields write_cmd and mode, nor the A20 pin, nor the reset count. -/
theorem sub_irq_set_level_frame (s : KBDState) (d : PS2Dev) (v : Nat) :
    (sub_irq_set_level s d v).mode = s.mode ∧
    (sub_irq_set_level s d v).write_cmd = s.write_cmd ∧
    (sub_irq_set_level s d v).it_shift = s.it_shift ∧
    (sub_irq_set_level s d v).addr_size = s.addr_size ∧
    (sub_irq_set_level s d v).a20_out = s.a20_out ∧
    (sub_irq_set_level s d v).reset_requests = s.reset_requests ∧
    (sub_irq_set_level s d v).kbd.common.queue = s.kbd.common.queue ∧
    (sub_irq_set_level s d v).mouse.common.queue = s.mouse.common.queue ∧
    (sub_irq_set_level s d v).kbd.translate = s.kbd.translate ∧
    (sub_irq_set_level s d v).kbd.written = s.kbd.written ∧
    (sub_irq_set_level s d v).mouse.written = s.mouse.written := by
  unfold sub_irq_set_level
  simp only []
  split_ifs
  · simp
  · have h := sub_notifier_frame d
      (set_ps2_device s d { ps2_device s d with irq := pin_set_level (ps2_device s d).irq v })
    obtain ⟨h1, h2, h3, h4, h5, h6, h7, h8⟩ := h
    rw [h1, h2, h3, h4, h5, h6, h7, h8]
    cases d <;> simp [set_ps2_device, ps2_device]

theorem ps2_queue_kbd_frame (s : KBDState) (b : Nat) :
    (ps2_queue s .kbd b).kbd.common.queue = s.kbd.common.queue ++ [u8 b] ∧
    (ps2_queue s .kbd b).mouse.common.queue = s.mouse.common.queue ∧
    (ps2_queue s .kbd b).mode = s.mode ∧ (ps2_queue s .kbd b).write_cmd = s.write_cmd ∧
    (ps2_queue s .kbd b).a20_out = s.a20_out ∧
    (ps2_queue s .kbd b).reset_requests = s.reset_requests := by
  unfold ps2_queue
  simp only []
  obtain ⟨h1, h2, _, _, h5, h6, h7, h8, _, _, _⟩ := sub_irq_set_level_frame
    (set_ps2_device s .kbd
      { ps2_device s .kbd with queue := (ps2_device s .kbd).queue ++ [u8 b] }) .kbd 1
  rw [h1, h2, h5, h6, h7, h8]
  simp [set_ps2_device, ps2_device]

theorem ps2_queue_mouse_frame (s : KBDState) (b : Nat) :
    (ps2_queue s .mouse b).mouse.common.queue = s.mouse.common.queue ++ [u8 b] ∧
    (ps2_queue s .mouse b).kbd.common.queue = s.kbd.common.queue ∧
    (ps2_queue s .mouse b).mode = s.mode ∧ (ps2_queue s .mouse b).write_cmd = s.write_cmd ∧
    (ps2_queue s .mouse b).a20_out = s.a20_out ∧
    (ps2_queue s .mouse b).reset_requests = s.reset_requests := by
  unfold ps2_queue
  simp only []
  obtain ⟨h1, h2, _, _, h5, h6, h7, h8, _, _, _⟩ := sub_irq_set_level_frame
    (set_ps2_device s .mouse
      { ps2_device s .mouse with queue := (ps2_device s .mouse).queue ++ [u8 b] }) .mouse 1
  rw [h1, h2, h5, h6, h7, h8]
  simp [set_ps2_device, ps2_device]

theorem ps2_read_data_kbd_cons (s : KBDState) (b : Nat) (rest : List Nat)
    (hq : s.kbd.common.queue = b :: rest) :
    (ps2_read_data s .kbd).1 = b ∧
    (ps2_read_data s .kbd).2.kbd.common.queue = rest ∧
    (ps2_read_data s .kbd).2.mouse.common.queue = s.mouse.common.queue := by
  unfold ps2_read_data
  simp only [ps2_device, hq]
  obtain ⟨_, _, _, _, _, _, h7, h8, _, _, _⟩ := sub_irq_set_level_frame
    (set_ps2_device s .kbd { s.kbd.common with queue := rest }) .kbd
    (if rest = [] then 0 else 1)
  rw [h7, h8]
  simp [set_ps2_device]

theorem ps2_read_data_mouse_cons (s : KBDState) (b : Nat) (rest : List Nat)
    (hq : s.mouse.common.queue = b :: rest) :
    (ps2_read_data s .mouse).1 = b ∧
    (ps2_read_data s .mouse).2.mouse.common.queue = rest ∧
    (ps2_read_data s .mouse).2.kbd.common.queue = s.kbd.common.queue := by
  unfold ps2_read_data
  simp only [ps2_device, hq]
  obtain ⟨_, _, _, _, _, _, h7, h8, _, _, _⟩ := sub_irq_set_level_frame
    (set_ps2_device s .mouse { s.mouse.common with queue := rest }) .mouse
    (if rest = [] then 0 else 1)
  rw [h7, h8]
  simp [set_ps2_device]

theorem u8_and_left (x m : Nat) : u8 (x &&& m) = u8 (u8 x &&& m) := by
  apply Nat.eq_of_testBit_eq
  intro i
  unfold u8
  rw [show (256 : Nat) = 2 ^ 8 from rfl]
  simp only [Nat.testBit_mod_two_pow, Nat.testBit_and]
  by_cases hi : i < 8 <;> simp [hi]

/-- Claim C3: a data read takes its byte from the mouse FIFO iff
`pending == KBD_PENDING_AUX` and from the keyboard FIFO otherwise; hence with
both sub-devices pending (`pending == 3`, as `kbd_update_irq` leaves the state)
status has OBF set and MOUSE_OBF clear, `irq_kbd` is 1 under the reset mode and
the data read returns the head of the keyboard FIFO. -/
theorem kbd_read_data_source (s : KBDState) :
    (s.pending = KBD_PENDING_AUX → kbd_read_data s = ps2_read_data s .mouse) ∧
    (s.pending ≠ KBD_PENDING_AUX → kbd_read_data s = ps2_read_data s .kbd) ∧
    (∀ b rest, s.pending = KBD_PENDING_AUX → s.mouse.common.queue = b :: rest →
      (kbd_read_data s).1 = b ∧ (kbd_read_data s).2.mouse.common.queue = rest ∧
      (kbd_read_data s).2.kbd.common.queue = s.kbd.common.queue) ∧
    (∀ b rest, s.pending ≠ KBD_PENDING_AUX → s.kbd.common.queue = b :: rest →
      (kbd_read_data s).1 = b ∧ (kbd_read_data s).2.kbd.common.queue = rest ∧
      (kbd_read_data s).2.mouse.common.queue = s.mouse.common.queue) ∧
    (s.pending = KBD_PENDING_KBD ||| KBD_PENDING_AUX →
      (kbd_update_irq s).status &&& KBD_STAT_OBF ≠ 0 ∧
      (kbd_update_irq s).status &&& KBD_STAT_MOUSE_OBF = 0 ∧
      (s.mode = KBD_MODE_KBD_INT ||| KBD_MODE_MOUSE_INT → (kbd_update_irq s).irq_kbd.level = 1) ∧
      (∀ b rest, s.kbd.common.queue = b :: rest →
        (kbd_read_data (kbd_update_irq s)).1 = b ∧
        (kbd_read_data (kbd_update_irq s)).2.kbd.common.queue = rest ∧
        (kbd_read_data (kbd_update_irq s)).2.mouse.common.queue = s.mouse.common.queue)) ∧
    ((ps2_queue (ps2_queue post_reset .mouse 0x08) .kbd 0x1C).pending = 3 ∧
      (ps2_queue (ps2_queue post_reset .mouse 0x08) .kbd 0x1C).status = 0x19 ∧
      (ps2_queue (ps2_queue post_reset .mouse 0x08) .kbd 0x1C).irq_kbd.level = 1 ∧
      (kbd_read_data (ps2_queue (ps2_queue post_reset .mouse 0x08) .kbd 0x1C)).1 = 0x1C) := by
  have hsrc_aux : s.pending = KBD_PENDING_AUX → kbd_read_data s = ps2_read_data s .mouse := by
    intro h
    simp [kbd_read_data, h]
  have hsrc_kbd : s.pending ≠ KBD_PENDING_AUX → kbd_read_data s = ps2_read_data s .kbd := by
    intro h
    simp [kbd_read_data, h]
  refine ⟨hsrc_aux, hsrc_kbd, ?_, ?_, ?_, by decide⟩
  · intro b rest h hq
    rw [hsrc_aux h]
    exact ps2_read_data_mouse_cons s b rest hq
  · intro b rest h hq
    rw [hsrc_kbd h]
    exact ps2_read_data_kbd_cons s b rest hq
  · intro hp
    have hp3 : s.pending = 3 := hp
    have hb := status_obf_bytes (u8 s.status) (u8_lt _)
    have hf := kbd_update_irq_frame s
    refine ⟨?_, ?_, ?_, ?_⟩
    · rw [kbd_update_irq_status, hp3, u8_and_left]
      exact hb.2.1.1
    · rw [kbd_update_irq_status, hp3, u8_and_left]
      exact hb.2.1.2
    · intro hm
      rw [kbd_update_irq_irq_kbd, hp3, hm]
      decide
    · intro b rest hq
      have hne : (kbd_update_irq s).pending ≠ KBD_PENDING_AUX := by
        rw [hf.2.1, hp3]
        decide
      have hread : kbd_read_data (kbd_update_irq s) = ps2_read_data (kbd_update_irq s) .kbd := by
        simp [kbd_read_data, hne]
      rw [hread]
      have hq2 : (kbd_update_irq s).kbd.common.queue = b :: rest := by
        rw [hf.2.2.2.2.2.2.1]
        exact hq
      have h := ps2_read_data_kbd_cons (kbd_update_irq s) b rest hq2
      rw [hf.2.2.2.2.2.2.2.1] at h
      exact h

/-! ## Reset -/

/-- A state reached from the post-reset state by the self-test command (which
leaves a byte pending in the keyboard FIFO) followed by the latching command
WRITE_OUTPORT. -/
theorem i8042_reset_reached_state :
    kbd_write_command (kbd_write_command post_reset 0xAA) 0xD1 =
      { post_reset with
        write_cmd := 0xD1, status := 0x1D, outport := 0x13, pending := 1,
        irq_kbd := { level := 1 },
        kbd := { common := { queue := [0x55], irq := { level := 1 }, empty_data := 0 },
                 translate := false, written := [] } } := by
  decide

/-- Claim C4, as stated, fails: resetting the state reached from the post-reset
state by the commands 0xAA and 0xD1 leaves `pending == 1` and
`write_cmd == 0xD1`. -/
theorem i8042_reset_pending_write_cmd_counterexample :
    ¬ ((i8042_reset (kbd_write_command (kbd_write_command post_reset 0xAA) 0xD1)).mode = 0x03 ∧
       (i8042_reset (kbd_write_command (kbd_write_command post_reset 0xAA) 0xD1)).status = 0x18 ∧
       (i8042_reset (kbd_write_command (kbd_write_command post_reset 0xAA) 0xD1)).outport = 0x03 ∧
       (i8042_reset (kbd_write_command (kbd_write_command post_reset 0xAA) 0xD1)).pending = 0 ∧
       (i8042_reset (kbd_write_command (kbd_write_command post_reset 0xAA) 0xD1)).write_cmd = 0) := by
  decide

/-- Claim C4, amended: after `i8042_reset` mode is KBD_INT|MOUSE_INT (0x03),
status is CMD|UNLOCKED (0x18) and outport is RESET|A20 (0x03); `pending` and
`write_cmd` keep their prior values, so they are 0 when they were 0 before, as
in the post-reset state of a fresh controller. -/
theorem i8042_reset_fields (s : KBDState) :
    (i8042_reset s).mode = KBD_MODE_KBD_INT ||| KBD_MODE_MOUSE_INT ∧
    (i8042_reset s).mode = 0x03 ∧
    (i8042_reset s).status = KBD_STAT_CMD ||| KBD_STAT_UNLOCKED ∧
    (i8042_reset s).status = 0x18 ∧
    (i8042_reset s).outport = KBD_OUT_RESET ||| KBD_OUT_A20 ∧
    (i8042_reset s).outport = 0x03 ∧
    (i8042_reset s).pending = s.pending ∧
    (i8042_reset s).write_cmd = s.write_cmd ∧
    post_reset.pending = 0 ∧ post_reset.write_cmd = 0 := by
  refine ⟨rfl, rfl, rfl, rfl, rfl, rfl, rfl, rfl, rfl, rfl⟩

/-! ## Command writes -/

/-- Claim C5: a command byte in 0xF0..0xFF issues exactly one system-reset
request when its bit 0 is clear and none when it is set; nothing else changes:
no controller field, no pin, no FIFO. -/
theorem kbd_write_command_pulse (s : KBDState) (v : Nat) (hlo : 0xF0 ≤ v) (hhi : v ≤ 0xFF) :
    kbd_write_command s v =
      if v &&& 1 = 0 then { s with reset_requests := s.reset_requests + 1 } else s := by
  interval_cases v <;> rfl

theorem kbd_write_command_pulse_witness :
    (0xF0 ≤ 0xFE ∧ 0xFE ≤ 0xFF) ∧
    kbd_write_command post_reset 0xFE =
      if 0xFE &&& 1 = 0 then { post_reset with reset_requests := post_reset.reset_requests + 1 }
      else post_reset :=
  ⟨by decide, kbd_write_command_pulse post_reset 0xFE (by decide) (by decide)⟩


/-! ## Pin changes and command dispatch -/

theorem sub_irq_set_level_same (s : KBDState) (d : PS2Dev) (v : Nat)
    (h : (ps2_device s d).irq.level = v) : sub_irq_set_level s d v = s := by
  simp [sub_irq_set_level, h]

theorem sub_irq_set_level_kbd_raise (s : KBDState) (h : s.kbd.common.irq.level ≠ 1) :
    sub_irq_set_level s .kbd 1 =
      kbd_update_irq { s with
        pending := u8 (s.pending ||| KBD_PENDING_KBD),
        kbd := { s.kbd with common := { s.kbd.common with irq := { level := 1 } } } } := by
  simp [sub_irq_set_level, ps2_device, h, sub_notifier, set_ps2_device, kbd_update_kbd_irq,
    pin_get_level, pin_set_level]

theorem sub_irq_set_level_kbd_lower (s : KBDState) (h : s.kbd.common.irq.level ≠ 0) :
    sub_irq_set_level s .kbd 0 =
      kbd_update_irq { s with
        pending := u8 (s.pending &&& cnot KBD_PENDING_KBD),
        kbd := { s.kbd with common := { s.kbd.common with irq := { level := 0 } } } } := by
  simp [sub_irq_set_level, ps2_device, h, sub_notifier, set_ps2_device, kbd_update_kbd_irq,
    pin_get_level, pin_set_level]

theorem kbd_write_command_self_test (s : KBDState) :
    kbd_write_command s 0xAA =
      ps2_queue { s with status := u8 (s.status ||| KBD_STAT_SELFTEST) } .kbd 0x55 := rfl

theorem kbd_write_command_read_mode (s : KBDState) :
    kbd_write_command s 0x20 = ps2_queue s .kbd s.mode := rfl

/-! ## Register interface -/

theorem and_one_cases (x : Nat) : x &&& 1 = 0 ∨ x &&& 1 = 1 := by
  rw [Nat.and_one_is_mod]
  omega

theorem and_ff_eq_mod (v : Nat) : v &&& 0xff = v % 256 :=
  Nat.and_pow_two_sub_one_eq_mod v 8

theorem addr_select_defined {s : KBDState} (h0 : 0 ≤ s.it_shift) (h1 : s.it_shift < 64)
    (a : Nat) : addr_select s a = some ((a >>> s.it_shift.toNat) &&& 1) := by
  unfold addr_select
  rw [if_pos ⟨h0, h1⟩]

theorem addr_select_undefined {s : KBDState} (h : ¬ (0 ≤ s.it_shift ∧ s.it_shift < 64))
    (a : Nat) : addr_select s a = none := by
  unfold addr_select
  rw [if_neg h]

theorem addr_select_some {s : KBDState} {a sel : Nat} (h : addr_select s a = some sel) :
    (0 ≤ s.it_shift ∧ s.it_shift < 64) ∧ sel = (a >>> s.it_shift.toNat) &&& 1 := by
  unfold addr_select at h
  by_cases hd : 0 ≤ s.it_shift ∧ s.it_shift < 64
  · rw [if_pos hd] at h
    exact ⟨hd, (Option.some.inj h).symm⟩
  · rw [if_neg hd] at h
    cases h

theorem shift_and_one_eq_testBit (a n : Nat) :
    (a >>> n) &&& 1 = if a.testBit n then 1 else 0 := by
  rw [Nat.testBit, Nat.and_comm, Nat.one_and_eq_mod_two]
  rcases Nat.mod_two_eq_zero_or_one (a >>> n) with h | h <;> simp [h]

theorem i8042_read_status_path {s : KBDState} {a : Nat} (h : addr_select s a = some 1) :
    i8042_read s a = some (kbd_read_status s &&& 0xff, s) ∧
    ∀ v, i8042_write s a v = some (kbd_write_command s (v % 256)) := by
  refine ⟨?_, fun v => ?_⟩
  · simp only [i8042_read, h, ne_eq, one_ne_zero, not_false_eq_true, if_true]
  · simp only [i8042_write, h, ne_eq, one_ne_zero, not_false_eq_true, if_true, and_ff_eq_mod]

theorem i8042_read_data_path {s : KBDState} {a : Nat} (h : addr_select s a = some 0) :
    i8042_read s a = some ((kbd_read_data s).1 &&& 0xff, (kbd_read_data s).2) ∧
    ∀ v, i8042_write s a v = some (kbd_write_data s (v % 256)) := by
  refine ⟨?_, fun v => ?_⟩
  · simp only [i8042_read, h, ne_eq, not_true_eq_false, if_false]
  · simp only [i8042_write, h, ne_eq, not_true_eq_false, if_false, and_ff_eq_mod]

theorem addr_select_cases (s : KBDState) (a : Nat) :
    addr_select s a = none ∨ addr_select s a = some 0 ∨ addr_select s a = some 1 := by
  by_cases hd : 0 ≤ s.it_shift ∧ s.it_shift < 64
  · right
    rw [addr_select_defined hd.1 hd.2]
    rcases and_one_cases (a >>> s.it_shift.toNat) with h | h
    · exact Or.inl (by rw [h])
    · exact Or.inr (by rw [h])
  · exact Or.inl (addr_select_undefined hd a)

/-- Claim C6, as stated, fails: the claim speaks of every configured `it_shift`,
but with `it_shift = 64` the shift `addr >> it_shift` of the 64-bit address is
undefined in C.  Bit 64 of address 1 is 0, so the claim promises the data
path there; the code has no defined result, neither for the read nor for the
write, so it does not take the data path.  The same holds for a negative
`it_shift`. -/
theorem i8042_dispatch_undefined_shift_counterexample :
    Nat.testBit 1 64 = false ∧
    i8042_read { post_reset with it_shift := 64 } 1 = none ∧
    i8042_write { post_reset with it_shift := 64 } 1 0xAA = none ∧
    ¬ (i8042_read { post_reset with it_shift := 64 } 1 =
      some ((kbd_read_data { post_reset with it_shift := 64 }).1 &&& 0xff,
        (kbd_read_data { post_reset with it_shift := 64 }).2)) ∧
    ¬ (i8042_write { post_reset with it_shift := 64 } 1 0xAA =
      some (kbd_write_data { post_reset with it_shift := 64 } 0xAA)) ∧
    i8042_read { post_reset with it_shift := -1 } 1 = none ∧
    i8042_write { post_reset with it_shift := -1 } 1 0xAA = none := by
  refine ⟨by decide, by decide, by decide, by decide, by decide, by decide, by decide⟩

/-- Claim C6, amended: for every address and every `it_shift` with
`0 <= it_shift < 64`, `i8042_read` and `i8042_write` return, the selector is
bit `it_shift` of the address, and they take the command/status path iff that
bit is 1 and the data path otherwise; outside that range the shift is
undefined and neither function has a result.  A status-path read returns
exactly the status byte and changes no state; a write uses only the low 8 bits
of the written value; every read result is below 256. -/
theorem i8042_read_write_dispatch (s : KBDState) (a : Nat) :
    (0 ≤ s.it_shift → s.it_shift < 64 →
      addr_select s a = some ((a >>> s.it_shift.toNat) &&& 1) ∧
      addr_select s a = some (if a.testBit s.it_shift.toNat then 1 else 0) ∧
      (a.testBit s.it_shift.toNat = true →
        i8042_read s a = some (kbd_read_status s &&& 0xff, s) ∧
        ∀ v, i8042_write s a v = some (kbd_write_command s (v % 256))) ∧
      (a.testBit s.it_shift.toNat = false →
        i8042_read s a = some ((kbd_read_data s).1 &&& 0xff, (kbd_read_data s).2) ∧
        ∀ v, i8042_write s a v = some (kbd_write_data s (v % 256)))) ∧
    (¬ (0 ≤ s.it_shift ∧ s.it_shift < 64) →
      addr_select s a = none ∧ i8042_read s a = none ∧ ∀ v, i8042_write s a v = none) ∧
    (addr_select s a = some 1 →
      i8042_read s a = some (kbd_read_status s &&& 0xff, s) ∧
      ∀ v, i8042_write s a v = some (kbd_write_command s (v % 256))) ∧
    (addr_select s a = some 0 →
      i8042_read s a = some ((kbd_read_data s).1 &&& 0xff, (kbd_read_data s).2) ∧
      ∀ v, i8042_write s a v = some (kbd_write_data s (v % 256))) ∧
    (addr_select s a = some 1 → s.status < 256 → i8042_read s a = some (s.status, s)) ∧
    (∀ v w, v % 256 = w % 256 → i8042_write s a v = i8042_write s a w) ∧
    (∀ r, i8042_read s a = some r → r.1 < 256) := by
  refine ⟨?_, ?_, fun h => i8042_read_status_path h, fun h => i8042_read_data_path h,
    ?_, ?_, ?_⟩
  · intro h0 h1
    have e := addr_select_defined h0 h1 a
    have e2 : addr_select s a = some (if a.testBit s.it_shift.toNat then 1 else 0) := by
      rw [e, shift_and_one_eq_testBit]
    refine ⟨e, e2, ?_, ?_⟩
    · intro hb
      rw [hb] at e2
      exact i8042_read_status_path e2
    · intro hb
      rw [hb] at e2
      exact i8042_read_data_path e2
  · intro hd
    have e := addr_select_undefined hd a
    refine ⟨e, ?_, fun v => ?_⟩
    · simp only [i8042_read, e]
    · simp only [i8042_write, e]
  · intro h hs
    rw [(i8042_read_status_path h).1, kbd_read_status, and_ff_eq_mod, Nat.mod_eq_of_lt hs]
  · intro v w hvw
    rcases addr_select_cases s a with h | h | h
    · simp only [i8042_write, h]
    · rw [(i8042_read_data_path h).2 v, (i8042_read_data_path h).2 w, hvw]
    · rw [(i8042_read_status_path h).2 v, (i8042_read_status_path h).2 w, hvw]
  · intro r hr
    rcases addr_select_cases s a with h | h | h
    · simp only [i8042_read, h] at hr
      cases hr
    · rw [(i8042_read_data_path h).1] at hr
      cases hr
      show (kbd_read_data s).1 &&& 0xff < 256
      rw [and_ff_eq_mod]
      exact Nat.mod_lt _ (by decide)
    · rw [(i8042_read_status_path h).1] at hr
      cases hr
      show kbd_read_status s &&& 0xff < 256
      rw [and_ff_eq_mod]
      exact Nat.mod_lt _ (by decide)

/-- Claim C6 (witness): with the default `it_shift = 2`, address 4 is the
command/status register and address 0 the data register. -/
theorem i8042_read_write_dispatch_witness :
    (0 ≤ post_reset.it_shift ∧ post_reset.it_shift < 64) ∧
    addr_select post_reset 4 = some 1 ∧ addr_select post_reset 0 = some 0 ∧
    i8042_read post_reset 4 = some (0x18, post_reset) ∧
    (∀ v, i8042_write post_reset 0 v = some (kbd_write_data post_reset (v % 256))) := by
  obtain ⟨hdef, _, hs, hd, _, _, _⟩ := i8042_read_write_dispatch post_reset 4
  obtain ⟨_, _, _, hd0, _, _, _⟩ := i8042_read_write_dispatch post_reset 0
  exact ⟨by decide, by decide, by decide, (hs (by decide)).1.trans (by decide),
    (hd0 (by decide)).2⟩

/-- Claim C7: scenario S1.  From a post-reset state (status 0x18, mode 0x03,
outport 0x03, nothing pending, no latched command) with both FIFOs empty and
both sub-device pins low, writing 0xAA to the command register (an address
`ac` that selects the command/status path) makes a status read return 0x1D,
the following data read (an address `ad` that selects the data path) return
0x55 and the status read after that return 0x1C; all four accesses return. -/
theorem self_test_scenario (s : KBDState) (ac ad : Nat)
    (hac : addr_select s ac = some 1) (had : addr_select s ad = some 0)
    (hstatus : s.status = 0x18) (hmode : s.mode = 0x03) (houtport : s.outport = 0x03)
    (hpending : s.pending = 0) (hwrite_cmd : s.write_cmd = 0)
    (hkq : s.kbd.common.queue = []) (hmq : s.mouse.common.queue = [])
    (hki : s.kbd.common.irq.level = 0) (hmi : s.mouse.common.irq.level = 0) :
    ∃ s1 s2 : KBDState,
      i8042_write s ac 0xAA = some s1 ∧
      i8042_read s1 ac = some (0x1D, s1) ∧
      i8042_read s1 ad = some (0x55, s2) ∧
      i8042_read s2 ac = some (0x1C, s2) := by
  obtain ⟨write_cmd, status, mode, outport, pending, it_shift, addr_size, irq_kbd, irq_mouse,
    a20_out, ⟨⟨kq, ⟨ki⟩, ke⟩, kt, kw⟩, ⟨⟨mq, ⟨mi⟩, me⟩, mw⟩, rr⟩ := s
  simp only at hstatus hmode houtport hpending hwrite_cmd hkq hmq hki hmi
  subst hstatus hmode houtport hpending hwrite_cmd hkq hmq hki hmi
  have hac1 : addr_select ⟨0, 0x1D, 0x03, 0x13, 1, it_shift, addr_size, ⟨1⟩, ⟨0⟩,
      a20_out, ⟨⟨[0x55], ⟨1⟩, ke⟩, kt, kw⟩, ⟨⟨[], ⟨0⟩, me⟩, mw⟩, rr⟩ ac = some 1 := hac
  have had1 : addr_select ⟨0, 0x1D, 0x03, 0x13, 1, it_shift, addr_size, ⟨1⟩, ⟨0⟩,
      a20_out, ⟨⟨[0x55], ⟨1⟩, ke⟩, kt, kw⟩, ⟨⟨[], ⟨0⟩, me⟩, mw⟩, rr⟩ ad = some 0 := had
  have hac2 : addr_select ⟨0, 0x1C, 0x03, 0x03, 0, it_shift, addr_size, ⟨0⟩, ⟨0⟩,
      a20_out, ⟨⟨[], ⟨0⟩, ke⟩, kt, kw⟩, ⟨⟨[], ⟨0⟩, me⟩, mw⟩, rr⟩ ac = some 1 := hac
  refine ⟨⟨0, 0x1D, 0x03, 0x13, 1, it_shift, addr_size, ⟨1⟩, ⟨0⟩,
      a20_out, ⟨⟨[0x55], ⟨1⟩, ke⟩, kt, kw⟩, ⟨⟨[], ⟨0⟩, me⟩, mw⟩, rr⟩,
    ⟨0, 0x1C, 0x03, 0x03, 0, it_shift, addr_size, ⟨0⟩, ⟨0⟩,
      a20_out, ⟨⟨[], ⟨0⟩, ke⟩, kt, kw⟩, ⟨⟨[], ⟨0⟩, me⟩, mw⟩, rr⟩, ?_, ?_, ?_, ?_⟩
  · rw [(i8042_read_status_path hac).2, show (170 : Nat) % 256 = 0xAA from rfl,
      kbd_write_command_self_test]
    simp +decide [ps2_queue, sub_irq_set_level,
      sub_notifier, kbd_update_kbd_irq, kbd_update_irq, ps2_device,
      set_ps2_device, pin_set_level, pin_get_level]
  · rw [(i8042_read_status_path hac1).1]
    simp only [kbd_read_status]
    rfl
  · rw [(i8042_read_data_path had1).1]
    simp only [kbd_read_data]
    rw [if_neg (by decide)]
    simp +decide [ps2_read_data, sub_irq_set_level,
      sub_notifier, kbd_update_kbd_irq, kbd_update_irq, ps2_device,
      set_ps2_device, pin_set_level, pin_get_level]
  · rw [(i8042_read_status_path hac2).1]
    simp only [kbd_read_status]
    rfl

theorem self_test_scenario_witness :
    (addr_select post_reset 4 = some 1 ∧ addr_select post_reset 0 = some 0 ∧
      post_reset.status = 0x18 ∧ post_reset.mode = 0x03 ∧ post_reset.outport = 0x03 ∧
      post_reset.pending = 0 ∧ post_reset.write_cmd = 0 ∧
      post_reset.kbd.common.queue = [] ∧ post_reset.mouse.common.queue = [] ∧
      post_reset.kbd.common.irq.level = 0 ∧ post_reset.mouse.common.irq.level = 0) ∧
    (∃ s1 s2 : KBDState,
      i8042_write post_reset 4 0xAA = some s1 ∧
      i8042_read s1 4 = some (0x1D, s1) ∧
      i8042_read s1 0 = some (0x55, s2) ∧
      i8042_read s2 4 = some (0x1C, s2)) :=
  ⟨by decide, self_test_scenario post_reset 4 0 (by decide) (by decide) (by decide) (by decide)
    (by decide) (by decide) (by decide) (by decide) (by decide) (by decide) (by decide)⟩

/-! ## Queueing commands -/

theorem kbd_write_command_test_mouse (s : KBDState) :
    kbd_write_command s 0xA9 = ps2_queue s .kbd 0x00 := rfl

theorem kbd_write_command_kbd_test (s : KBDState) :
    kbd_write_command s 0xAB = ps2_queue s .kbd 0x00 := rfl

theorem kbd_write_command_read_inport (s : KBDState) :
    kbd_write_command s 0xC0 = ps2_queue s .kbd 0x00 := rfl

theorem kbd_write_command_read_outport (s : KBDState) :
    kbd_write_command s 0xD0 = ps2_queue s .kbd s.outport := rfl

theorem ps2_queue_kbd_eq (s : KBDState) (b : Nat) :
    ps2_queue s .kbd b =
      sub_irq_set_level
        { s with kbd := { s.kbd with
            common := { s.kbd.common with queue := s.kbd.common.queue ++ [u8 b] } } }
        .kbd 1 := rfl

theorem ps2_queue_kbd_outport (s : KBDState) (b : Nat) :
    (s.kbd.common.irq.level = 1 → (ps2_queue s .kbd b).outport = s.outport ∧
      (ps2_queue s .kbd b).status = s.status ∧ (ps2_queue s .kbd b).pending = s.pending) ∧
    (s.kbd.common.irq.level ≠ 1 →
      (ps2_queue s .kbd b).outport =
        (kbd_update_irq { s with pending := u8 (s.pending ||| KBD_PENDING_KBD) }).outport ∧
      (ps2_queue s .kbd b).status =
        (kbd_update_irq { s with pending := u8 (s.pending ||| KBD_PENDING_KBD) }).status ∧
      (ps2_queue s .kbd b).pending = u8 (s.pending ||| KBD_PENDING_KBD)) := by
  constructor
  · intro h
    rw [ps2_queue_kbd_eq, sub_irq_set_level_same _ _ _ (by simpa [ps2_device] using h)]
    exact ⟨rfl, rfl, rfl⟩
  · intro h
    rw [ps2_queue_kbd_eq, sub_irq_set_level_kbd_raise _ (by simpa using h)]
    simp only [kbd_update_irq_status, kbd_update_irq_outport, (kbd_update_irq_frame _).2.1,
      and_self]

/-- Claim C8: the commands READ_MODE (0x20), READ_OUTPORT (0xD0), TEST_MOUSE
(0xA9), KBD_TEST (0xAB) and READ_INPORT (0xC0) do nothing but queue one byte
into the keyboard FIFO: the current mode byte, the current outport byte, and
0x00 for the last three.  Queueing appends that byte to the keyboard FIFO,
leaves the mouse FIFO, write_cmd and mode alone, and touches outport only
through the pin notifier: not at all when the keyboard pin is already high,
and as `kbd_update_irq` recomputes it when the pin rises.  From the post-reset
state, command 0x20 followed by a data read returns 0x03. -/
theorem kbd_write_command_queueing (s : KBDState) :
    kbd_write_command s KBD_CCMD_READ_MODE = ps2_queue s .kbd s.mode ∧
    kbd_write_command s KBD_CCMD_READ_OUTPORT = ps2_queue s .kbd s.outport ∧
    kbd_write_command s KBD_CCMD_TEST_MOUSE = ps2_queue s .kbd 0x00 ∧
    kbd_write_command s KBD_CCMD_KBD_TEST = ps2_queue s .kbd 0x00 ∧
    kbd_write_command s KBD_CCMD_READ_INPORT = ps2_queue s .kbd 0x00 ∧
    (∀ b,
      ps2_queue s .kbd b =
        sub_irq_set_level
          { s with kbd := { s.kbd with
              common := { s.kbd.common with queue := s.kbd.common.queue ++ [u8 b] } } }
          .kbd 1 ∧
      (ps2_queue s .kbd b).kbd.common.queue = s.kbd.common.queue ++ [u8 b] ∧
      (b < 256 → (ps2_queue s .kbd b).kbd.common.queue = s.kbd.common.queue ++ [b]) ∧
      (ps2_queue s .kbd b).mouse.common.queue = s.mouse.common.queue ∧
      (ps2_queue s .kbd b).write_cmd = s.write_cmd ∧
      (ps2_queue s .kbd b).mode = s.mode ∧
      (s.kbd.common.irq.level = 1 → (ps2_queue s .kbd b).outport = s.outport) ∧
      (s.kbd.common.irq.level ≠ 1 →
        (ps2_queue s .kbd b).outport =
          (kbd_update_irq { s with pending := u8 (s.pending ||| KBD_PENDING_KBD) }).outport)) ∧
    (kbd_read_data (kbd_write_command post_reset KBD_CCMD_READ_MODE)).1 = 0x03 ∧
    ((i8042_write post_reset 4 0x20).bind (fun t => i8042_read t 0)).map (fun r => r.1)
      = some 0x03 := by
  refine ⟨kbd_write_command_read_mode s, kbd_write_command_read_outport s,
    kbd_write_command_test_mouse s, kbd_write_command_kbd_test s,
    kbd_write_command_read_inport s, ?_, by decide, by decide⟩
  intro b
  obtain ⟨h1, h2, h3, h4, _, _⟩ := ps2_queue_kbd_frame s b
  refine ⟨rfl, h1, ?_, h2, h4, h3, ?_, ?_⟩
  · intro hb
    rw [h1, u8_of_lt hb]
  · intro h
    exact ((ps2_queue_kbd_outport s b).1 h).1
  · intro h
    exact ((ps2_queue_kbd_outport s b).2 h).1

/-! ## Data writes -/

theorem kbd_update_irq_write_cmd (s : KBDState) (w : Nat) :
    kbd_update_irq { s with write_cmd := w } = { kbd_update_irq s with write_cmd := w } := by
  unfold kbd_update_irq
  simp only []
  split_ifs <;> rfl

theorem kbd_write_command_write_mode (s : KBDState) :
    kbd_write_command s 0x60 = { s with write_cmd := 0x60 } := rfl

theorem kbd_write_command_write_outport (s : KBDState) :
    kbd_write_command s 0xD1 = { s with write_cmd := 0xD1 } := rfl

theorem kbd_write_data_write_mode (s : KBDState) (v : Nat) (h : s.write_cmd = 0x60) :
    kbd_write_data s v =
      { kbd_update_irq
          { s with
            mode := u8 v,
            kbd := { s.kbd with translate := (u8 v &&& KBD_MODE_KCC != 0) } } with
        write_cmd := 0 } := by
  simp +decide [kbd_write_data, h, KBD_CCMD_WRITE_MODE, ps2_keyboard_set_translation]

theorem kbd_write_data_write_outport (s : KBDState) (v : Nat) (h : s.write_cmd = 0xD1) :
    kbd_write_data s v = { outport_write s v with write_cmd := 0 } := by
  simp +decide [kbd_write_data, h, KBD_CCMD_WRITE_MODE, KBD_CCMD_WRITE_OBUF,
    KBD_CCMD_WRITE_AUX_OBUF, KBD_CCMD_WRITE_OUTPORT]

/-- Claim C9: writing WRITE_MODE (0x60) to the command register and then the
byte `v` to the data register leaves `mode == v` and `write_cmd == 0`, sets the
keyboard translation to `(v & KCC) != 0`, and leaves status, outport and both
IRQ pins as `kbd_update_irq` computes them from the old status/outport,
`pending` and the new mode `v`.  From the post-reset state with `v = 0x43`:
mode 0x43, translation enabled, `irq_kbd` still 0. -/
theorem write_mode_sequence (s : KBDState) (v : Nat) (hv : v < 256) :
    kbd_write_data (kbd_write_command s KBD_CCMD_WRITE_MODE) v =
      { kbd_update_irq
          { s with mode := v, kbd := { s.kbd with translate := (v &&& KBD_MODE_KCC != 0) } } with
        write_cmd := 0 } ∧
    (kbd_write_data (kbd_write_command s KBD_CCMD_WRITE_MODE) v).mode = v ∧
    (kbd_write_data (kbd_write_command s KBD_CCMD_WRITE_MODE) v).write_cmd = 0 ∧
    (kbd_write_data (kbd_write_command s KBD_CCMD_WRITE_MODE) v).kbd.translate
      = (v &&& KBD_MODE_KCC != 0) ∧
    (kbd_write_data (kbd_write_command s KBD_CCMD_WRITE_MODE) v).pending = s.pending ∧
    (kbd_write_data (kbd_write_command s KBD_CCMD_WRITE_MODE) v).status
      = (kbd_update_irq { s with mode := v }).status ∧
    (kbd_write_data (kbd_write_command s KBD_CCMD_WRITE_MODE) v).outport
      = (kbd_update_irq { s with mode := v }).outport ∧
    (kbd_write_data (kbd_write_command s KBD_CCMD_WRITE_MODE) v).irq_kbd
      = (kbd_update_irq { s with mode := v }).irq_kbd ∧
    (kbd_write_data (kbd_write_command s KBD_CCMD_WRITE_MODE) v).irq_mouse
      = (kbd_update_irq { s with mode := v }).irq_mouse ∧
    (kbd_write_data (kbd_write_command s KBD_CCMD_WRITE_MODE) v).irq_kbd.level =
      (if s.pending ≠ 0 ∧ s.pending ≠ KBD_PENDING_AUX ∧ v &&& KBD_MODE_KBD_INT ≠ 0
          ∧ v &&& KBD_MODE_DISABLE_KBD = 0 then 1 else 0) ∧
    (kbd_write_data (kbd_write_command s KBD_CCMD_WRITE_MODE) v).irq_mouse.level =
      (if s.pending = KBD_PENDING_AUX ∧ v &&& KBD_MODE_MOUSE_INT ≠ 0 then 1 else 0) ∧
    ((kbd_write_data (kbd_write_command post_reset KBD_CCMD_WRITE_MODE) 0x43).mode = 0x43 ∧
      (kbd_write_data (kbd_write_command post_reset KBD_CCMD_WRITE_MODE) 0x43).kbd.translate
        = true ∧
      (kbd_write_data (kbd_write_command post_reset KBD_CCMD_WRITE_MODE) 0x43).irq_kbd.level
        = 0) := by
  have heq : kbd_write_data (kbd_write_command s KBD_CCMD_WRITE_MODE) v =
      { kbd_update_irq
          { s with mode := v, kbd := { s.kbd with translate := (v &&& KBD_MODE_KCC != 0) } } with
        write_cmd := 0 } := by
    show kbd_write_data (kbd_write_command s 0x60) v = _
    rw [kbd_write_command_write_mode, kbd_write_data_write_mode _ _ rfl, u8_of_lt hv]
    exact congrArg (fun t : KBDState => { t with write_cmd := 0 })
      (kbd_update_irq_write_cmd
        { s with mode := v, kbd := { s.kbd with translate := (v &&& KBD_MODE_KCC != 0) } } 0x60)
  have hf := kbd_update_irq_frame
    { s with mode := v, kbd := { s.kbd with translate := (v &&& KBD_MODE_KCC != 0) } }
  refine ⟨heq, ?_, ?_, ?_, ?_, ?_, ?_, ?_, ?_, ?_, ?_, by decide⟩
  · rw [heq]
    exact hf.1
  · rw [heq]
  · rw [heq]
    show (kbd_update_irq _).kbd.translate = _
    rw [hf.2.2.2.2.2.2.1]
  · rw [heq]
    exact hf.2.1
  · rw [heq]
    show (kbd_update_irq _).status = _
    rw [kbd_update_irq_status, kbd_update_irq_status]
  · rw [heq]
    show (kbd_update_irq _).outport = _
    rw [kbd_update_irq_outport, kbd_update_irq_outport]
  · rw [heq]
    show (kbd_update_irq _).irq_kbd = (kbd_update_irq _).irq_kbd
    have e1 := kbd_update_irq_irq_kbd
      { s with mode := v, kbd := { s.kbd with translate := (v &&& KBD_MODE_KCC != 0) } }
    have e2 := kbd_update_irq_irq_kbd { s with mode := v }
    cases h1 : (kbd_update_irq
      { s with mode := v, kbd := { s.kbd with translate := (v &&& KBD_MODE_KCC != 0) } }).irq_kbd
    cases h2 : (kbd_update_irq { s with mode := v }).irq_kbd
    rw [h1] at e1
    rw [h2] at e2
    simp only at e1 e2
    rw [e1, e2]
  · rw [heq]
    show (kbd_update_irq _).irq_mouse = (kbd_update_irq _).irq_mouse
    have e1 := kbd_update_irq_irq_mouse
      { s with mode := v, kbd := { s.kbd with translate := (v &&& KBD_MODE_KCC != 0) } }
    have e2 := kbd_update_irq_irq_mouse { s with mode := v }
    cases h1 : (kbd_update_irq
      { s with mode := v, kbd := { s.kbd with translate := (v &&& KBD_MODE_KCC != 0) } }).irq_mouse
    cases h2 : (kbd_update_irq { s with mode := v }).irq_mouse
    rw [h1] at e1
    rw [h2] at e2
    simp only at e1 e2
    rw [e1, e2]
  · rw [heq]
    show (kbd_update_irq _).irq_kbd.level = _
    rw [kbd_update_irq_irq_kbd]
  · rw [heq]
    show (kbd_update_irq _).irq_mouse.level = _
    rw [kbd_update_irq_irq_mouse]

theorem write_mode_sequence_witness :
    (0x43 < 256) ∧
    (kbd_write_data (kbd_write_command post_reset KBD_CCMD_WRITE_MODE) 0x43).mode = 0x43 ∧
    (kbd_write_data (kbd_write_command post_reset KBD_CCMD_WRITE_MODE) 0x43).write_cmd = 0 ∧
    (kbd_write_data (kbd_write_command post_reset KBD_CCMD_WRITE_MODE) 0x43).kbd.translate
      = (0x43 &&& KBD_MODE_KCC != 0) :=
  ⟨by decide, (write_mode_sequence post_reset 0x43 (by decide)).2.1,
    (write_mode_sequence post_reset 0x43 (by decide)).2.2.1,
    (write_mode_sequence post_reset 0x43 (by decide)).2.2.2.1⟩

/-- Claim C10: writing WRITE_OUTPORT (0xD1) to the command register and then
the byte `v` to the data register sets `outport == v`, drives the A20 pin to
bit 1 of `v`, issues exactly one system-reset request iff bit 0 of `v` is clear,
and leaves `write_cmd == 0` with status, mode, pending, both IRQ pins and both
sub-devices unchanged. -/
theorem write_outport_sequence (s : KBDState) (v : Nat) (hv : v < 256) :
    kbd_write_data (kbd_write_command s KBD_CCMD_WRITE_OUTPORT) v =
      { s with
        write_cmd := 0,
        outport := v,
        a20_out := { level := (v >>> 1) &&& 1 },
        reset_requests := s.reset_requests + (if v &&& 1 = 0 then 1 else 0) } ∧
    (kbd_write_data (kbd_write_command s KBD_CCMD_WRITE_OUTPORT) v).outport = v ∧
    (kbd_write_data (kbd_write_command s KBD_CCMD_WRITE_OUTPORT) v).a20_out.level
      = (v >>> 1) &&& 1 ∧
    (v &&& 1 = 0 →
      (kbd_write_data (kbd_write_command s KBD_CCMD_WRITE_OUTPORT) v).reset_requests
        = s.reset_requests + 1) ∧
    (v &&& 1 ≠ 0 →
      (kbd_write_data (kbd_write_command s KBD_CCMD_WRITE_OUTPORT) v).reset_requests
        = s.reset_requests) ∧
    (kbd_write_data (kbd_write_command s KBD_CCMD_WRITE_OUTPORT) v).write_cmd = 0 ∧
    (kbd_write_data (kbd_write_command s KBD_CCMD_WRITE_OUTPORT) v).status = s.status ∧
    (kbd_write_data (kbd_write_command s KBD_CCMD_WRITE_OUTPORT) v).mode = s.mode ∧
    (kbd_write_data (kbd_write_command s KBD_CCMD_WRITE_OUTPORT) v).pending = s.pending ∧
    (kbd_write_data (kbd_write_command s KBD_CCMD_WRITE_OUTPORT) v).irq_kbd = s.irq_kbd ∧
    (kbd_write_data (kbd_write_command s KBD_CCMD_WRITE_OUTPORT) v).irq_mouse = s.irq_mouse := by
  have heq : kbd_write_data (kbd_write_command s KBD_CCMD_WRITE_OUTPORT) v =
      { s with
        write_cmd := 0,
        outport := v,
        a20_out := { level := (v >>> 1) &&& 1 },
        reset_requests := s.reset_requests + (if v &&& 1 = 0 then 1 else 0) } := by
    show kbd_write_data (kbd_write_command s 0xD1) v = _
    rw [kbd_write_command_write_outport, kbd_write_data_write_outport _ _ rfl]
    unfold outport_write
    simp only [u8_of_lt hv, pin_set_level, qemu_system_reset_request]
    split_ifs <;> rfl
  refine ⟨heq, ?_, ?_, ?_, ?_, ?_, ?_, ?_, ?_, ?_, ?_⟩
  · rw [heq]
  · rw [heq]
  · intro h
    rw [heq]
    simp only [h, if_true]
  · intro h
    rw [heq]
    simp only [h, if_false, Nat.add_zero]
  · rw [heq]
  · rw [heq]
  · rw [heq]
  · rw [heq]
  · rw [heq]
  · rw [heq]

theorem write_outport_sequence_witness :
    (0x01 < 256) ∧
    kbd_write_data (kbd_write_command post_reset KBD_CCMD_WRITE_OUTPORT) 0x01 =
      { post_reset with
        write_cmd := 0,
        outport := 0x01,
        a20_out := { level := (0x01 >>> 1) &&& 1 },
        reset_requests := post_reset.reset_requests + (if 0x01 &&& 1 = 0 then 1 else 0) } :=
  ⟨by decide, (write_outport_sequence post_reset 0x01 (by decide)).1⟩

/-! ## A20 gate -/

theorem kbd_write_command_enable_a20 (s : KBDState) :
    kbd_write_command s 0xDF =
      { s with a20_out := { level := 1 }, outport := u8 (s.outport ||| KBD_OUT_A20) } := rfl

theorem kbd_write_command_disable_a20 (s : KBDState) :
    kbd_write_command s 0xDD =
      { s with a20_out := { level := 0 }, outport := u8 (s.outport &&& cnot KBD_OUT_A20) } := rfl

set_option maxRecDepth 100000 in
theorem outport_a20_bytes : ∀ x < 256,
    (u8 (x ||| 0x02) &&& 0x02 ≠ 0 ∧ u8 (x &&& cnot 0x02) &&& 0x02 = 0) ∧
    ∀ i < 8, i ≠ 1 →
      (u8 (x ||| 0x02)).testBit i = x.testBit i ∧
      (u8 (x &&& cnot 0x02)).testBit i = x.testBit i := by
  apply forall_byte
  decide

theorem outport_a20_other_bits (x i : Nat) (hx : x < 256) (h1 : i ≠ 1) :
    (u8 (x ||| 0x02)).testBit i = x.testBit i ∧
    (u8 (x &&& cnot 0x02)).testBit i = x.testBit i := by
  by_cases hi : i < 8
  · exact (outport_a20_bytes x hx).2 i hi h1
  · have hi8 : 8 ≤ i := Nat.le_of_not_lt hi
    simp only [testBit_byte_high (u8_lt _) hi8, testBit_byte_high hx hi8, and_self]

/-- Claim C11: command ENABLE_A20 (0xDF) sets the A20 pin to 1 and outport bit
A20 (0x02); command DISABLE_A20 (0xDD) sets the A20 pin to 0 and clears that
bit.  Both leave `irq_kbd`, `irq_mouse`, status, mode, pending, write_cmd, every
other outport bit and both sub-devices (so both FIFOs) unchanged and request
no reset. -/
theorem a20_gate_commands (s : KBDState) (ho : s.outport < 256) :
    (kbd_write_command s KBD_CCMD_ENABLE_A20 =
        { s with a20_out := { level := 1 }, outport := u8 (s.outport ||| KBD_OUT_A20) } ∧
      (kbd_write_command s KBD_CCMD_ENABLE_A20).a20_out.level = 1 ∧
      (kbd_write_command s KBD_CCMD_ENABLE_A20).outport &&& KBD_OUT_A20 ≠ 0 ∧
      (∀ i, i ≠ 1 →
        (kbd_write_command s KBD_CCMD_ENABLE_A20).outport.testBit i = s.outport.testBit i) ∧
      (kbd_write_command s KBD_CCMD_ENABLE_A20).irq_kbd = s.irq_kbd ∧
      (kbd_write_command s KBD_CCMD_ENABLE_A20).irq_mouse = s.irq_mouse ∧
      (kbd_write_command s KBD_CCMD_ENABLE_A20).status = s.status ∧
      (kbd_write_command s KBD_CCMD_ENABLE_A20).mode = s.mode ∧
      (kbd_write_command s KBD_CCMD_ENABLE_A20).pending = s.pending ∧
      (kbd_write_command s KBD_CCMD_ENABLE_A20).write_cmd = s.write_cmd ∧
      (kbd_write_command s KBD_CCMD_ENABLE_A20).kbd = s.kbd ∧
      (kbd_write_command s KBD_CCMD_ENABLE_A20).mouse = s.mouse ∧
      (kbd_write_command s KBD_CCMD_ENABLE_A20).reset_requests = s.reset_requests) ∧
    (kbd_write_command s KBD_CCMD_DISABLE_A20 =
        { s with a20_out := { level := 0 }, outport := u8 (s.outport &&& cnot KBD_OUT_A20) } ∧
      (kbd_write_command s KBD_CCMD_DISABLE_A20).a20_out.level = 0 ∧
      (kbd_write_command s KBD_CCMD_DISABLE_A20).outport &&& KBD_OUT_A20 = 0 ∧
      (∀ i, i ≠ 1 →
        (kbd_write_command s KBD_CCMD_DISABLE_A20).outport.testBit i = s.outport.testBit i) ∧
      (kbd_write_command s KBD_CCMD_DISABLE_A20).irq_kbd = s.irq_kbd ∧
      (kbd_write_command s KBD_CCMD_DISABLE_A20).irq_mouse = s.irq_mouse ∧
      (kbd_write_command s KBD_CCMD_DISABLE_A20).status = s.status ∧
      (kbd_write_command s KBD_CCMD_DISABLE_A20).mode = s.mode ∧
      (kbd_write_command s KBD_CCMD_DISABLE_A20).pending = s.pending ∧
      (kbd_write_command s KBD_CCMD_DISABLE_A20).write_cmd = s.write_cmd ∧
      (kbd_write_command s KBD_CCMD_DISABLE_A20).kbd = s.kbd ∧
      (kbd_write_command s KBD_CCMD_DISABLE_A20).mouse = s.mouse ∧
      (kbd_write_command s KBD_CCMD_DISABLE_A20).reset_requests = s.reset_requests) := by
  have hb := outport_a20_bytes s.outport ho
  constructor
  · have he : kbd_write_command s KBD_CCMD_ENABLE_A20 =
        { s with a20_out := { level := 1 }, outport := u8 (s.outport ||| KBD_OUT_A20) } :=
      kbd_write_command_enable_a20 s
    rw [he]
    refine ⟨rfl, rfl, hb.1.1, ?_, rfl, rfl, rfl, rfl, rfl, rfl, rfl, rfl, rfl⟩
    intro i hi
    exact (outport_a20_other_bits s.outport i ho hi).1
  · have he : kbd_write_command s KBD_CCMD_DISABLE_A20 =
        { s with a20_out := { level := 0 }, outport := u8 (s.outport &&& cnot KBD_OUT_A20) } :=
      kbd_write_command_disable_a20 s
    rw [he]
    refine ⟨rfl, rfl, hb.1.2, ?_, rfl, rfl, rfl, rfl, rfl, rfl, rfl, rfl, rfl⟩
    intro i hi
    exact (outport_a20_other_bits s.outport i ho hi).2

theorem a20_gate_commands_witness :
    post_reset.outport < 256 ∧
    (kbd_write_command post_reset KBD_CCMD_DISABLE_A20).a20_out.level = 0 ∧
    (kbd_write_command post_reset KBD_CCMD_DISABLE_A20).outport &&& KBD_OUT_A20 = 0 ∧
    (kbd_write_command post_reset KBD_CCMD_ENABLE_A20).a20_out.level = 1 ∧
    (kbd_write_command post_reset KBD_CCMD_ENABLE_A20).outport &&& KBD_OUT_A20 ≠ 0 :=
  ⟨by decide, (a20_gate_commands post_reset (by decide)).2.2.1,
    (a20_gate_commands post_reset (by decide)).2.2.2.1,
    (a20_gate_commands post_reset (by decide)).1.2.1,
    (a20_gate_commands post_reset (by decide)).1.2.2.1⟩

/-! ## Data-write dispatch -/

theorem kbd_write_data_keyboard (s : KBDState) (v : Nat) (h : s.write_cmd = 0) :
    kbd_write_data s v = { ps2_write_keyboard s v with write_cmd := 0 } := by
  simp [kbd_write_data, h]

theorem kbd_write_data_write_obuf (s : KBDState) (v : Nat) (h : s.write_cmd = 0xD2) :
    kbd_write_data s v = { ps2_queue s .kbd v with write_cmd := 0 } := by
  simp +decide [kbd_write_data, h, KBD_CCMD_WRITE_MODE, KBD_CCMD_WRITE_OBUF, kbd_queue]

theorem kbd_write_data_write_aux_obuf (s : KBDState) (v : Nat) (h : s.write_cmd = 0xD3) :
    kbd_write_data s v = { ps2_queue s .mouse v with write_cmd := 0 } := by
  simp +decide [kbd_write_data, h, KBD_CCMD_WRITE_MODE, KBD_CCMD_WRITE_OBUF,
    KBD_CCMD_WRITE_AUX_OBUF, kbd_queue]

theorem kbd_write_data_write_mouse (s : KBDState) (v : Nat) (h : s.write_cmd = 0xD4) :
    kbd_write_data s v = { ps2_write_mouse s v with write_cmd := 0 } := by
  simp +decide [kbd_write_data, h, KBD_CCMD_WRITE_MODE, KBD_CCMD_WRITE_OBUF,
    KBD_CCMD_WRITE_AUX_OBUF, KBD_CCMD_WRITE_OUTPORT, KBD_CCMD_WRITE_MOUSE]

theorem kbd_write_data_discard (s : KBDState) (v : Nat)
    (h0 : s.write_cmd ≠ 0) (h1 : s.write_cmd ≠ 0x60) (h2 : s.write_cmd ≠ 0xD1)
    (h3 : s.write_cmd ≠ 0xD2) (h4 : s.write_cmd ≠ 0xD3) (h5 : s.write_cmd ≠ 0xD4) :
    kbd_write_data s v = { s with write_cmd := 0 } := by
  simp [kbd_write_data, h0, h1, h2, h3, h4, h5, KBD_CCMD_WRITE_MODE, KBD_CCMD_WRITE_OBUF,
    KBD_CCMD_WRITE_AUX_OBUF, KBD_CCMD_WRITE_OUTPORT, KBD_CCMD_WRITE_MOUSE]

theorem kbd_write_data_write_cmd (s : KBDState) (v : Nat) : (kbd_write_data s v).write_cmd = 0 := by
  simp [kbd_write_data]

theorem kbd_write_command_write_obuf (s : KBDState) :
    kbd_write_command s 0xD2 = { s with write_cmd := 0xD2 } := rfl

theorem kbd_write_command_write_aux_obuf (s : KBDState) :
    kbd_write_command s 0xD3 = { s with write_cmd := 0xD3 } := rfl

theorem kbd_write_command_write_mouse (s : KBDState) :
    kbd_write_command s 0xD4 = { s with write_cmd := 0xD4 } := rfl

/-- Claim C12: after `kbd_write_data` `write_cmd == 0`.  The byte is dispatched
on the prior `write_cmd`: 0 hands `v` to the keyboard write and changes no
controller field; WRITE_OBUF (0xD2) queues `v` into the keyboard FIFO;
WRITE_AUX_OBUF (0xD3) queues `v` into the mouse FIFO; WRITE_MOUSE (0xD4) hands
`v` to the mouse write; any other value that is not 0, WRITE_MODE or
WRITE_OUTPORT discards `v`.  Each latching command (0x60, 0xD1, 0xD2, 0xD3,
0xD4) sets `write_cmd` to that command byte and changes nothing else. -/
theorem kbd_write_data_dispatch (s : KBDState) (v : Nat) :
    (kbd_write_data s v).write_cmd = 0 ∧
    (s.write_cmd = 0 →
      kbd_write_data s v = { s with kbd := { s.kbd with written := s.kbd.written ++ [v] } }) ∧
    (s.write_cmd = KBD_CCMD_WRITE_OBUF →
      kbd_write_data s v = { ps2_queue s .kbd v with write_cmd := 0 } ∧
      (kbd_write_data s v).kbd.common.queue = s.kbd.common.queue ++ [u8 v] ∧
      (kbd_write_data s v).mouse.common.queue = s.mouse.common.queue) ∧
    (s.write_cmd = KBD_CCMD_WRITE_AUX_OBUF →
      kbd_write_data s v = { ps2_queue s .mouse v with write_cmd := 0 } ∧
      (kbd_write_data s v).mouse.common.queue = s.mouse.common.queue ++ [u8 v] ∧
      (kbd_write_data s v).kbd.common.queue = s.kbd.common.queue) ∧
    (s.write_cmd = KBD_CCMD_WRITE_MOUSE →
      kbd_write_data s v =
        { s with write_cmd := 0, mouse := { s.mouse with written := s.mouse.written ++ [v] } }) ∧
    (s.write_cmd ≠ 0 → s.write_cmd ≠ KBD_CCMD_WRITE_MODE → s.write_cmd ≠ KBD_CCMD_WRITE_OUTPORT →
      s.write_cmd ≠ KBD_CCMD_WRITE_OBUF → s.write_cmd ≠ KBD_CCMD_WRITE_AUX_OBUF →
      s.write_cmd ≠ KBD_CCMD_WRITE_MOUSE → kbd_write_data s v = { s with write_cmd := 0 }) ∧
    (∀ c, c = KBD_CCMD_WRITE_MODE ∨ c = KBD_CCMD_WRITE_OUTPORT ∨ c = KBD_CCMD_WRITE_OBUF ∨
        c = KBD_CCMD_WRITE_AUX_OBUF ∨ c = KBD_CCMD_WRITE_MOUSE →
      kbd_write_command s c = { s with write_cmd := c }) := by
  refine ⟨kbd_write_data_write_cmd s v, ?_, ?_, ?_, ?_, ?_, ?_⟩
  · intro h
    rw [kbd_write_data_keyboard s v h]
    cases s
    simp only [ps2_write_keyboard] at h ⊢
    subst h
    rfl
  · intro h
    have he := kbd_write_data_write_obuf s v h
    obtain ⟨h1, h2, _⟩ := ps2_queue_kbd_frame s v
    rw [he]
    exact ⟨rfl, h1, h2⟩
  · intro h
    have he := kbd_write_data_write_aux_obuf s v h
    obtain ⟨h1, h2, _⟩ := ps2_queue_mouse_frame s v
    rw [he]
    exact ⟨rfl, h1, h2⟩
  · intro h
    rw [kbd_write_data_write_mouse s v h]
    rfl
  · intro h0 h1 h2 h3 h4 h5
    exact kbd_write_data_discard s v h0 h1 h2 h3 h4 h5
  · intro c hc
    rcases hc with h | h | h | h | h <;> subst h
    · exact kbd_write_command_write_mode s
    · exact kbd_write_command_write_outport s
    · exact kbd_write_command_write_obuf s
    · exact kbd_write_command_write_aux_obuf s
    · exact kbd_write_command_write_mouse s

/-! ## Interface enable/disable commands -/

theorem kbd_write_command_kbd_disable (s : KBDState) :
    kbd_write_command s 0xAD =
      kbd_update_irq { s with mode := u8 (s.mode ||| KBD_MODE_DISABLE_KBD) } := rfl

theorem kbd_write_command_kbd_enable (s : KBDState) :
    kbd_write_command s 0xAE =
      kbd_update_irq { s with mode := u8 (s.mode &&& cnot KBD_MODE_DISABLE_KBD) } := rfl

theorem kbd_write_command_mouse_disable (s : KBDState) :
    kbd_write_command s 0xA7 = { s with mode := u8 (s.mode ||| KBD_MODE_DISABLE_MOUSE) } := rfl

theorem kbd_write_command_mouse_enable (s : KBDState) :
    kbd_write_command s 0xA8 =
      { s with mode := u8 (s.mode &&& cnot KBD_MODE_DISABLE_MOUSE) } := rfl

set_option maxRecDepth 100000 in
theorem mode_disable_bytes : ∀ x < 256,
    (u8 (x ||| 0x10) &&& 0x10 ≠ 0 ∧ u8 (x &&& cnot 0x10) &&& 0x10 = 0 ∧
      u8 (x ||| 0x20) &&& 0x20 ≠ 0 ∧ u8 (x &&& cnot 0x20) &&& 0x20 = 0) ∧
    (∀ i < 8, i ≠ 4 →
      (u8 (x ||| 0x10)).testBit i = x.testBit i ∧
      (u8 (x &&& cnot 0x10)).testBit i = x.testBit i) ∧
    (∀ i < 8, i ≠ 5 →
      (u8 (x ||| 0x20)).testBit i = x.testBit i ∧
      (u8 (x &&& cnot 0x20)).testBit i = x.testBit i) := by
  apply forall_byte
  decide

theorem mode_kbd_other_bits (x i : Nat) (hx : x < 256) (h4 : i ≠ 4) :
    (u8 (x ||| 0x10)).testBit i = x.testBit i ∧
    (u8 (x &&& cnot 0x10)).testBit i = x.testBit i := by
  by_cases hi : i < 8
  · exact (mode_disable_bytes x hx).2.1 i hi h4
  · have hi8 : 8 ≤ i := Nat.le_of_not_lt hi
    simp only [testBit_byte_high (u8_lt _) hi8, testBit_byte_high hx hi8, and_self]

theorem mode_mouse_other_bits (x i : Nat) (hx : x < 256) (h5 : i ≠ 5) :
    (u8 (x ||| 0x20)).testBit i = x.testBit i ∧
    (u8 (x &&& cnot 0x20)).testBit i = x.testBit i := by
  by_cases hi : i < 8
  · exact (mode_disable_bytes x hx).2.2 i hi h5
  · have hi8 : 8 ≤ i := Nat.le_of_not_lt hi
    simp only [testBit_byte_high (u8_lt _) hi8, testBit_byte_high hx hi8, and_self]

/-- Claim C13: command KBD_DISABLE (0xAD) leaves mode with DISABLE_KBD (0x10)
set and KBD_ENABLE (0xAE) leaves it clear, all other mode bits unchanged, and
after either the whole state is what `kbd_update_irq` computes from the state
with the new mode (so the OBF bits and both IRQ pins are recomputed from
`pending` and the new mode).  MOUSE_DISABLE (0xA7) / MOUSE_ENABLE (0xA8) set /
clear only mode bit DISABLE_MOUSE (0x20) and change nothing else: no status or
outport bit, no pin. -/
theorem interface_enable_commands (s : KBDState) (hm : s.mode < 256) :
    (kbd_write_command s KBD_CCMD_KBD_DISABLE =
        kbd_update_irq { s with mode := u8 (s.mode ||| KBD_MODE_DISABLE_KBD) } ∧
      (kbd_write_command s KBD_CCMD_KBD_DISABLE).mode &&& KBD_MODE_DISABLE_KBD ≠ 0 ∧
      (∀ i, i ≠ 4 →
        (kbd_write_command s KBD_CCMD_KBD_DISABLE).mode.testBit i = s.mode.testBit i) ∧
      (kbd_write_command s KBD_CCMD_KBD_DISABLE).pending = s.pending) ∧
    (kbd_write_command s KBD_CCMD_KBD_ENABLE =
        kbd_update_irq { s with mode := u8 (s.mode &&& cnot KBD_MODE_DISABLE_KBD) } ∧
      (kbd_write_command s KBD_CCMD_KBD_ENABLE).mode &&& KBD_MODE_DISABLE_KBD = 0 ∧
      (∀ i, i ≠ 4 →
        (kbd_write_command s KBD_CCMD_KBD_ENABLE).mode.testBit i = s.mode.testBit i) ∧
      (kbd_write_command s KBD_CCMD_KBD_ENABLE).pending = s.pending) ∧
    (kbd_write_command s KBD_CCMD_MOUSE_DISABLE =
        { s with mode := u8 (s.mode ||| KBD_MODE_DISABLE_MOUSE) } ∧
      (kbd_write_command s KBD_CCMD_MOUSE_DISABLE).mode &&& KBD_MODE_DISABLE_MOUSE ≠ 0 ∧
      (∀ i, i ≠ 5 →
        (kbd_write_command s KBD_CCMD_MOUSE_DISABLE).mode.testBit i = s.mode.testBit i) ∧
      (kbd_write_command s KBD_CCMD_MOUSE_DISABLE).status = s.status ∧
      (kbd_write_command s KBD_CCMD_MOUSE_DISABLE).outport = s.outport ∧
      (kbd_write_command s KBD_CCMD_MOUSE_DISABLE).irq_kbd = s.irq_kbd ∧
      (kbd_write_command s KBD_CCMD_MOUSE_DISABLE).irq_mouse = s.irq_mouse ∧
      (kbd_write_command s KBD_CCMD_MOUSE_DISABLE).a20_out = s.a20_out) ∧
    (kbd_write_command s KBD_CCMD_MOUSE_ENABLE =
        { s with mode := u8 (s.mode &&& cnot KBD_MODE_DISABLE_MOUSE) } ∧
      (kbd_write_command s KBD_CCMD_MOUSE_ENABLE).mode &&& KBD_MODE_DISABLE_MOUSE = 0 ∧
      (∀ i, i ≠ 5 →
        (kbd_write_command s KBD_CCMD_MOUSE_ENABLE).mode.testBit i = s.mode.testBit i) ∧
      (kbd_write_command s KBD_CCMD_MOUSE_ENABLE).status = s.status ∧
      (kbd_write_command s KBD_CCMD_MOUSE_ENABLE).outport = s.outport ∧
      (kbd_write_command s KBD_CCMD_MOUSE_ENABLE).irq_kbd = s.irq_kbd ∧
      (kbd_write_command s KBD_CCMD_MOUSE_ENABLE).irq_mouse = s.irq_mouse ∧
      (kbd_write_command s KBD_CCMD_MOUSE_ENABLE).a20_out = s.a20_out) := by
  have hb := (mode_disable_bytes s.mode hm).1
  refine ⟨?_, ?_, ?_, ?_⟩
  · have he : kbd_write_command s KBD_CCMD_KBD_DISABLE =
        kbd_update_irq { s with mode := u8 (s.mode ||| KBD_MODE_DISABLE_KBD) } :=
      kbd_write_command_kbd_disable s
    have hf := kbd_update_irq_frame { s with mode := u8 (s.mode ||| KBD_MODE_DISABLE_KBD) }
    rw [he, hf.1, hf.2.1]
    refine ⟨rfl, hb.1, ?_, rfl⟩
    intro i hi
    exact (mode_kbd_other_bits s.mode i hm hi).1
  · have he : kbd_write_command s KBD_CCMD_KBD_ENABLE =
        kbd_update_irq { s with mode := u8 (s.mode &&& cnot KBD_MODE_DISABLE_KBD) } :=
      kbd_write_command_kbd_enable s
    have hf := kbd_update_irq_frame
      { s with mode := u8 (s.mode &&& cnot KBD_MODE_DISABLE_KBD) }
    rw [he, hf.1, hf.2.1]
    refine ⟨rfl, hb.2.1, ?_, rfl⟩
    intro i hi
    exact (mode_kbd_other_bits s.mode i hm hi).2
  · have he : kbd_write_command s KBD_CCMD_MOUSE_DISABLE =
        { s with mode := u8 (s.mode ||| KBD_MODE_DISABLE_MOUSE) } :=
      kbd_write_command_mouse_disable s
    rw [he]
    refine ⟨rfl, hb.2.2.1, ?_, rfl, rfl, rfl, rfl, rfl⟩
    intro i hi
    exact (mode_mouse_other_bits s.mode i hm hi).1
  · have he : kbd_write_command s KBD_CCMD_MOUSE_ENABLE =
        { s with mode := u8 (s.mode &&& cnot KBD_MODE_DISABLE_MOUSE) } :=
      kbd_write_command_mouse_enable s
    rw [he]
    refine ⟨rfl, hb.2.2.2, ?_, rfl, rfl, rfl, rfl, rfl⟩
    intro i hi
    exact (mode_mouse_other_bits s.mode i hm hi).2

theorem interface_enable_commands_witness :
    post_reset.mode < 256 ∧
    (kbd_write_command post_reset KBD_CCMD_KBD_DISABLE).mode &&& KBD_MODE_DISABLE_KBD ≠ 0 ∧
    (kbd_write_command post_reset KBD_CCMD_KBD_ENABLE).mode &&& KBD_MODE_DISABLE_KBD = 0 ∧
    (kbd_write_command post_reset KBD_CCMD_MOUSE_DISABLE).mode &&& KBD_MODE_DISABLE_MOUSE ≠ 0 ∧
    (kbd_write_command post_reset KBD_CCMD_MOUSE_ENABLE).mode &&& KBD_MODE_DISABLE_MOUSE = 0 :=
  ⟨by decide, (interface_enable_commands post_reset (by decide)).1.2.1,
    (interface_enable_commands post_reset (by decide)).2.1.2.1,
    (interface_enable_commands post_reset (by decide)).2.2.1.2.1,
    (interface_enable_commands post_reset (by decide)).2.2.2.2.1⟩

/-- Claim C14: a command byte below 0xF0 that is none of the seventeen handled
commands is ignored: the handler returns the state unchanged (no field, no pin,
no FIFO, no reset request). -/
theorem kbd_write_command_unknown (s : KBDState) (v : Nat) (hv : v < 0xF0)
    (hn : v ∉ [0x20, 0x60, 0xA7, 0xA8, 0xA9, 0xAA, 0xAB, 0xAD, 0xAE, 0xC0, 0xD0, 0xD1, 0xD2,
      0xD3, 0xD4, 0xDD, 0xDF]) :
    kbd_write_command s v = s := by
  interval_cases v <;> first | rfl | (exfalso; simp at hn)

theorem kbd_write_command_unknown_witness :
    (KBD_CCMD_GET_VERSION < 0xF0 ∧
      KBD_CCMD_GET_VERSION ∉ [0x20, 0x60, 0xA7, 0xA8, 0xA9, 0xAA, 0xAB, 0xAD, 0xAE, 0xC0, 0xD0,
        0xD1, 0xD2, 0xD3, 0xD4, 0xDD, 0xDF]) ∧
    kbd_write_command post_reset KBD_CCMD_GET_VERSION = post_reset :=
  ⟨by decide, kbd_write_command_unknown post_reset KBD_CCMD_GET_VERSION (by decide) (by decide)⟩

/-! ## Invariants of runs -/

theorem ps2_queue_preserves {I : KBDState → Prop} (hI : Preserved I) (s : KBDState)
    (d : PS2Dev) (b : Nat) (h : I s) : I (ps2_queue s d b) := by
  unfold ps2_queue
  exact hI.pin _ d 1 (hI.fifo s d _ rfl h)

theorem ps2_read_data_preserves {I : KBDState → Prop} (hI : Preserved I) (s : KBDState)
    (d : PS2Dev) (h : I s) : I (ps2_read_data s d).2 := by
  unfold ps2_read_data
  simp only []
  split
  · exact h
  · exact hI.pin _ d _ (hI.fifo s d _ rfl h)

theorem kbd_read_data_preserves {I : KBDState → Prop} (hI : Preserved I) (s : KBDState)
    (h : I s) : I (kbd_read_data s).2 := by
  unfold kbd_read_data
  split_ifs
  · exact ps2_read_data_preserves hI s .mouse h
  · exact ps2_read_data_preserves hI s .kbd h

theorem kbd_queue_preserves {I : KBDState → Prop} (hI : Preserved I) (s : KBDState)
    (b aux : Nat) (h : I s) : I (kbd_queue s b aux) := by
  unfold kbd_queue
  split_ifs
  · exact ps2_queue_preserves hI s .mouse b h
  · exact ps2_queue_preserves hI s .kbd b h

theorem ite_prop {α : Type} {P : α → Prop} {c : Prop} [Decidable c] {a b : α}
    (ha : c → P a) (hb : ¬ c → P b) : P (if c then a else b) := by
  split_ifs with h
  · exact ha h
  · exact hb h

theorem kbd_write_command_preserves {I : KBDState → Prop} (hI : Preserved I) (s : KBDState)
    (val : Nat) (h : I s) : I (kbd_write_command s val) := by
  unfold kbd_write_command
  lift_lets
  intro c
  clear_value c
  intro s1 s2
  refine ite_prop (fun _ => kbd_queue_preserves hI s _ 0 h) (fun _ => ?_)
  refine ite_prop (fun _ => hI.latch s _ h) (fun _ => ?_)
  refine ite_prop (fun _ => hI.mouse_disable s h) (fun _ => ?_)
  refine ite_prop (fun _ => hI.mouse_enable s h) (fun _ => ?_)
  refine ite_prop (fun _ => kbd_queue_preserves hI s _ 0 h) (fun _ => ?_)
  refine ite_prop (fun _ => kbd_queue_preserves hI _ _ 0 (hI.self_test s h)) (fun _ => ?_)
  refine ite_prop (fun _ => kbd_queue_preserves hI s _ 0 h) (fun _ => ?_)
  refine ite_prop (fun _ => hI.update_mode s _ h) (fun _ => ?_)
  refine ite_prop (fun _ => hI.update_mode s _ h) (fun _ => ?_)
  refine ite_prop (fun _ => kbd_queue_preserves hI s _ 0 h) (fun _ => ?_)
  refine ite_prop (fun _ => kbd_queue_preserves hI s _ 0 h) (fun _ => ?_)
  refine ite_prop (fun _ => hI.a20_on s h) (fun _ => ?_)
  refine ite_prop (fun _ => hI.a20_off s h) (fun _ => ?_)
  refine ite_prop (fun _ => hI.reset_request s h) (fun _ => ?_)
  refine ite_prop (fun _ => h) (fun _ => h)

theorem kbd_write_data_preserves {I : KBDState → Prop} (hI : Preserved I) (s : KBDState)
    (v : Nat) (h : I s)
    (ho : s.write_cmd = KBD_CCMD_WRITE_OUTPORT → I (outport_write s v)) :
    I (kbd_write_data s v) := by
  unfold kbd_write_data
  lift_lets
  intro s1 s2 s3
  apply hI.latch
  refine ite_prop (fun _ => hI.write_keyboard s v h) (fun _ => ?_)
  refine ite_prop (fun _ => hI.update_translation s _ _ h) (fun _ => ?_)
  refine ite_prop (fun _ => kbd_queue_preserves hI s v 0 h) (fun _ => ?_)
  refine ite_prop (fun _ => kbd_queue_preserves hI s v 1 h) (fun _ => ?_)
  refine ite_prop (fun hw => ho hw) (fun _ => ?_)
  refine ite_prop (fun _ => hI.write_mouse s v h) (fun _ => h)

theorem step_preserves {I : KBDState → Prop} (hI : Preserved I) (s : KBDState) (op : Op)
    (t : KBDState) (h : I s)
    (ho : writes_outport s op = false ∨ ∀ t v, I t → I (outport_write t v))
    (e : step s op = some t) : I t := by
  cases op with
  | read addr =>
    simp only [step] at e
    rcases addr_select_cases s addr with hs | hs | hs
    · simp only [i8042_read, hs, Option.map_none'] at e
      cases e
    · rw [(i8042_read_data_path hs).1, Option.map_some'] at e
      cases e
      exact kbd_read_data_preserves hI s h
    · rw [(i8042_read_status_path hs).1, Option.map_some'] at e
      cases e
      exact h
  | write addr value =>
    simp only [step] at e
    rcases addr_select_cases s addr with hs | hs | hs
    · simp only [i8042_write, hs] at e
      cases e
    · rw [(i8042_read_data_path hs).2] at e
      cases e
      apply kbd_write_data_preserves hI s _ h
      intro hw
      rcases ho with ho | ho
      · exfalso
        simp [writes_outport, hs, hw] at ho
      · exact ho s _ h
    · rw [(i8042_read_status_path hs).2] at e
      cases e
      exact kbd_write_command_preserves hI s _ h
  | pin d v =>
    simp only [step] at e
    cases e
    exact hI.pin s d v h

theorem run_preserves {I : KBDState → Prop} (hI : Preserved I)
    (hout : ∀ t v, I t → I (outport_write t v)) (ops : List Op) :
    ∀ s t, I s → run s ops = some t → I t := by
  induction ops with
  | nil =>
    intro s t h e
    simp only [run] at e
    cases e
    exact h
  | cons op ops ih =>
    intro s t h e
    simp only [run] at e
    cases hst : step s op with
    | none =>
      simp only [hst] at e
      cases e
    | some u =>
      simp only [hst] at e
      exact ih u t (step_preserves hI s op u h (Or.inr hout) hst) e

theorem run_preserves_untouched {I : KBDState → Prop} (hI : Preserved I) (ops : List Op) :
    ∀ s t, I s → outport_untouched s ops → run s ops = some t → I t := by
  induction ops with
  | nil =>
    intro s t h _ e
    simp only [run] at e
    cases e
    exact h
  | cons op ops ih =>
    intro s t h hu e
    simp only [run] at e
    simp only [outport_untouched] at hu
    cases hst : step s op with
    | none =>
      simp only [hst] at e
      cases e
    | some u =>
      simp only [hst] at e hu
      exact ih u t (step_preserves hI s op u h (Or.inl hu.1) hst) hu.2 e

theorem preserved_it_shift (c : Int) : Preserved (fun s => s.it_shift = c) where
  fifo := by
    intro s d c _ h
    cases d <;> exact h
  pin := by
    intro s d v h
    rw [(sub_irq_set_level_frame s d v).2.2.1]
    exact h
  latch := fun _ _ h => h
  mouse_disable := fun _ h => h
  mouse_enable := fun _ h => h
  update_mode := by
    intro s m h
    rw [(kbd_update_irq_frame _).2.2.2.1]
    exact h
  update_translation := by
    intro s m b h
    rw [(kbd_update_irq_frame _).2.2.2.1]
    exact h
  self_test := fun _ h => h
  a20_on := fun _ h => h
  a20_off := fun _ h => h
  reset_request := fun _ h => h
  write_keyboard := fun _ _ h => h
  write_mouse := fun _ _ h => h

theorem outport_write_it_shift (c : Int) (t : KBDState) (v : Nat) (h : t.it_shift = c) :
    (outport_write t v).it_shift = c := by
  unfold outport_write
  simp only []
  split_ifs <;> exact h

theorem step_defined (s : KBDState) (h0 : 0 ≤ s.it_shift) (h1 : s.it_shift < 64) (op : Op) :
    ∃ t, step s op = some t ∧ t.it_shift = s.it_shift := by
  have hex : ∃ t, step s op = some t := by
    cases op with
    | read addr =>
      simp only [step]
      rcases addr_select_cases s addr with hs | hs | hs
      · rw [addr_select_defined h0 h1] at hs
        cases hs
      · rw [(i8042_read_data_path hs).1]
        exact ⟨_, rfl⟩
      · rw [(i8042_read_status_path hs).1]
        exact ⟨_, rfl⟩
    | write addr value =>
      simp only [step]
      rcases addr_select_cases s addr with hs | hs | hs
      · rw [addr_select_defined h0 h1] at hs
        cases hs
      · rw [(i8042_read_data_path hs).2]
        exact ⟨_, rfl⟩
      · rw [(i8042_read_status_path hs).2]
        exact ⟨_, rfl⟩
    | pin d v => exact ⟨_, rfl⟩
  obtain ⟨t, ht⟩ := hex
  exact ⟨t, ht, step_preserves (preserved_it_shift s.it_shift) s op t rfl
    (Or.inr (outport_write_it_shift s.it_shift)) ht⟩

theorem run_defined (ops : List Op) :
    ∀ s : KBDState, 0 ≤ s.it_shift → s.it_shift < 64 → ∃ t, run s ops = some t := by
  induction ops with
  | nil => intro s _ _; exact ⟨s, rfl⟩
  | cons op ops ih =>
    intro s h0 h1
    obtain ⟨u, hu, hsh⟩ := step_defined s h0 h1 op
    obtain ⟨t, ht⟩ := ih u (by rw [hsh]; exact h0) (by rw [hsh]; exact h1)
    refine ⟨t, ?_⟩
    simp only [run, hu]
    exact ht

/-! ## The level-change notifiers -/

set_option maxRecDepth 100000 in
theorem pending_bytes : ∀ p < 256,
    (u8 (p ||| 1) &&& 1 ≠ 0 ∧ u8 (p ||| 1) &&& 2 = p &&& 2 ∧
      u8 (p &&& cnot 1) &&& 1 = 0 ∧ u8 (p &&& cnot 1) &&& 2 = p &&& 2) ∧
    (u8 (p ||| 2) &&& 2 ≠ 0 ∧ u8 (p ||| 2) &&& 1 = p &&& 1 ∧
      u8 (p &&& cnot 2) &&& 2 = 0 ∧ u8 (p &&& cnot 2) &&& 1 = p &&& 1) := by
  apply forall_byte
  decide

theorem kbd_update_kbd_irq_eq (s : KBDState) :
    kbd_update_kbd_irq s =
      kbd_update_irq { s with pending :=
        (if s.kbd.common.irq.level ≠ 0 then u8 (s.pending ||| KBD_PENDING_KBD)
          else u8 (s.pending &&& cnot KBD_PENDING_KBD)) } := by
  unfold kbd_update_kbd_irq pin_get_level
  split_ifs <;> rfl

theorem kbd_update_aux_irq_eq (s : KBDState) :
    kbd_update_aux_irq s =
      kbd_update_irq { s with pending :=
        (if s.mouse.common.irq.level ≠ 0 then u8 (s.pending ||| KBD_PENDING_AUX)
          else u8 (s.pending &&& cnot KBD_PENDING_AUX)) } := by
  unfold kbd_update_aux_irq pin_get_level
  split_ifs <;> rfl

theorem kbd_update_kbd_irq_pending (s : KBDState) :
    (kbd_update_kbd_irq s).pending =
      if s.kbd.common.irq.level ≠ 0 then u8 (s.pending ||| KBD_PENDING_KBD)
      else u8 (s.pending &&& cnot KBD_PENDING_KBD) := by
  rw [kbd_update_kbd_irq_eq, (kbd_update_irq_frame _).2.1]

theorem kbd_update_aux_irq_pending (s : KBDState) :
    (kbd_update_aux_irq s).pending =
      if s.mouse.common.irq.level ≠ 0 then u8 (s.pending ||| KBD_PENDING_AUX)
      else u8 (s.pending &&& cnot KBD_PENDING_AUX) := by
  rw [kbd_update_aux_irq_eq, (kbd_update_irq_frame _).2.1]

theorem kbd_update_kbd_irq_bits (s : KBDState) (hp : s.pending < 256) :
    ((kbd_update_kbd_irq s).pending &&& KBD_PENDING_KBD ≠ 0 ↔ s.kbd.common.irq.level ≠ 0) ∧
    (kbd_update_kbd_irq s).pending &&& KBD_PENDING_AUX = s.pending &&& KBD_PENDING_AUX ∧
    (kbd_update_kbd_irq s).pending < 256 := by
  have hb := (pending_bytes s.pending hp).1
  rw [kbd_update_kbd_irq_pending]
  simp only [KBD_PENDING_KBD, KBD_PENDING_AUX]
  split_ifs with hl
  · exact ⟨⟨fun _ => hl, fun _ => hb.1⟩, hb.2.1, u8_lt _⟩
  · exact ⟨⟨fun h => absurd hb.2.2.1 h, fun h => absurd h hl⟩, hb.2.2.2, u8_lt _⟩

theorem kbd_update_aux_irq_bits (s : KBDState) (hp : s.pending < 256) :
    ((kbd_update_aux_irq s).pending &&& KBD_PENDING_AUX ≠ 0 ↔ s.mouse.common.irq.level ≠ 0) ∧
    (kbd_update_aux_irq s).pending &&& KBD_PENDING_KBD = s.pending &&& KBD_PENDING_KBD ∧
    (kbd_update_aux_irq s).pending < 256 := by
  have hb := (pending_bytes s.pending hp).2
  rw [kbd_update_aux_irq_pending]
  simp only [KBD_PENDING_KBD, KBD_PENDING_AUX]
  split_ifs with hl
  · exact ⟨⟨fun _ => hl, fun _ => hb.1⟩, hb.2.1, u8_lt _⟩
  · exact ⟨⟨fun h => absurd hb.2.2.1 h, fun h => absurd h hl⟩, hb.2.2.2, u8_lt _⟩

theorem sub_notifier_kbd_mouse (d : PS2Dev) (s : KBDState) :
    (sub_notifier d s).kbd = s.kbd ∧ (sub_notifier d s).mouse = s.mouse := by
  obtain ⟨_, _, _, _, _, h6, h7, _⟩ := sub_notifier_frame d s
  exact ⟨h6, h7⟩

theorem sub_irq_set_level_synced (s : KBDState) (d : PS2Dev) (v : Nat)
    (h : pending_synced s ∧ s.pending < 256) :
    pending_synced (sub_irq_set_level s d v) ∧ (sub_irq_set_level s d v).pending < 256 := by
  unfold sub_irq_set_level
  simp only []
  split_ifs with hl
  · exact h
  · obtain ⟨⟨hk, hm⟩, hp⟩ := h
    cases d with
    | kbd =>
      have hb := kbd_update_kbd_irq_bits
        (set_ps2_device s .kbd
          { ps2_device s .kbd with irq := pin_set_level (ps2_device s .kbd).irq v }) hp
      have hf := sub_notifier_kbd_mouse .kbd
        (set_ps2_device s .kbd
          { ps2_device s .kbd with irq := pin_set_level (ps2_device s .kbd).irq v })
      simp only [sub_notifier] at hf ⊢
      refine ⟨⟨?_, ?_⟩, hb.2.2⟩
      · rw [hf.1]
        exact hb.1
      · rw [hf.2, hb.2.1]
        exact hm
    | mouse =>
      have hb := kbd_update_aux_irq_bits
        (set_ps2_device s .mouse
          { ps2_device s .mouse with irq := pin_set_level (ps2_device s .mouse).irq v }) hp
      have hf := sub_notifier_kbd_mouse .mouse
        (set_ps2_device s .mouse
          { ps2_device s .mouse with irq := pin_set_level (ps2_device s .mouse).irq v })
      simp only [sub_notifier] at hf ⊢
      refine ⟨⟨?_, ?_⟩, hb.2.2⟩
      · rw [hf.1, hb.2.1]
        exact hk
      · rw [hf.2]
        exact hb.1

theorem preserved_synced : Preserved (fun s => pending_synced s ∧ s.pending < 256) where
  fifo := by
    intro s d c hc h
    cases d
    · simp only [set_ps2_device, pending_synced, ps2_device] at hc h ⊢
      rw [hc]
      exact h
    · simp only [set_ps2_device, pending_synced, ps2_device] at hc h ⊢
      rw [hc]
      exact h
  pin := fun s d v h => sub_irq_set_level_synced s d v h
  latch := fun _ _ h => h
  mouse_disable := fun _ h => h
  mouse_enable := fun _ h => h
  update_mode := by
    intro s m h
    obtain ⟨_, h2, _, _, _, _, h7, h8, _⟩ := kbd_update_irq_frame { s with mode := m }
    simp only [pending_synced, h2, h7, h8]
    exact h
  update_translation := by
    intro s m b h
    obtain ⟨_, h2, _, _, _, _, h7, h8, _⟩ :=
      kbd_update_irq_frame (ps2_keyboard_set_translation { s with mode := m } b)
    simp only [pending_synced, h2, h7, h8]
    exact h
  self_test := fun _ h => h
  a20_on := fun _ h => h
  a20_off := fun _ h => h
  reset_request := fun _ h => h
  write_keyboard := fun _ _ h => h
  write_mouse := fun _ _ h => h

theorem outport_write_synced (t : KBDState) (v : Nat)
    (h : pending_synced t ∧ t.pending < 256) :
    pending_synced (outport_write t v) ∧ (outport_write t v).pending < 256 := by
  unfold outport_write
  simp only []
  split_ifs <;> exact h

/-- Claim C15: the keyboard notifier sets pending bit KBD (1) iff the keyboard
pin level is non-zero and the mouse notifier sets pending bit AUX (2) iff the
mouse pin level is non-zero; each leaves the other pending bit unchanged and
then leaves the state as `kbd_update_irq` computes it from the new `pending`.
Consequently, with every sub-device pin change running its notifier, a state in
which the two pending bits mirror the two pin levels keeps doing so through
every sequence of register reads, register writes and pin changes (such a
sequence has a result whenever `0 <= it_shift < 64`); the post-reset state is
such a state. -/
theorem notifiers_mirror_pins (s : KBDState) (hp : s.pending < 256) :
    (((kbd_update_kbd_irq s).pending &&& KBD_PENDING_KBD ≠ 0 ↔ s.kbd.common.irq.level ≠ 0) ∧
      (kbd_update_kbd_irq s).pending &&& KBD_PENDING_AUX = s.pending &&& KBD_PENDING_AUX ∧
      kbd_update_kbd_irq s =
        kbd_update_irq { s with pending := (kbd_update_kbd_irq s).pending }) ∧
    (((kbd_update_aux_irq s).pending &&& KBD_PENDING_AUX ≠ 0 ↔ s.mouse.common.irq.level ≠ 0) ∧
      (kbd_update_aux_irq s).pending &&& KBD_PENDING_KBD = s.pending &&& KBD_PENDING_KBD ∧
      kbd_update_aux_irq s =
        kbd_update_irq { s with pending := (kbd_update_aux_irq s).pending }) ∧
    (∀ ops t, run s ops = some t → pending_synced s → pending_synced t) ∧
    (0 ≤ s.it_shift → s.it_shift < 64 → ∀ ops, ∃ t, run s ops = some t) ∧
    pending_synced post_reset := by
  refine ⟨⟨(kbd_update_kbd_irq_bits s hp).1, (kbd_update_kbd_irq_bits s hp).2.1, ?_⟩,
    ⟨(kbd_update_aux_irq_bits s hp).1, (kbd_update_aux_irq_bits s hp).2.1, ?_⟩, ?_, ?_, ?_⟩
  · rw [kbd_update_kbd_irq_pending]
    exact kbd_update_kbd_irq_eq s
  · rw [kbd_update_aux_irq_pending]
    exact kbd_update_aux_irq_eq s
  · intro ops t e hs
    exact (run_preserves preserved_synced outport_write_synced ops s t ⟨hs, hp⟩ e).1
  · intro h0 h1 ops
    exact run_defined ops s h0 h1
  · unfold pending_synced
    decide

theorem notifiers_mirror_pins_witness :
    post_reset.pending < 256 ∧
    (((kbd_update_kbd_irq post_reset).pending &&& KBD_PENDING_KBD ≠ 0 ↔
        post_reset.kbd.common.irq.level ≠ 0) ∧
      (∀ ops t, run post_reset ops = some t → pending_synced post_reset → pending_synced t) ∧
      (∀ ops, ∃ t, run post_reset ops = some t)) :=
  ⟨by decide, (notifiers_mirror_pins post_reset (by decide)).1.1,
    (notifiers_mirror_pins post_reset (by decide)).2.2.1,
    (notifiers_mirror_pins post_reset (by decide)).2.2.2.1 (by decide) (by decide)⟩

/-! ## OBF bits along runs -/

theorem kbd_update_irq_status_derived (t : KBDState) :
    status_derived (kbd_update_irq t) ∧ (kbd_update_irq t).status < 256 := by
  have hb := status_obf_bytes (u8 t.status) (u8_lt _)
  simp only [← u8_and_left] at hb
  have hlt : (kbd_update_irq t).status < 256 := by
    rw [kbd_update_irq_status]
    split_ifs <;> exact u8_lt _
  refine ⟨?_, hlt⟩
  unfold status_derived
  rw [kbd_update_irq_status, (kbd_update_irq_frame t).2.1]
  simp only [KBD_STAT_OBF, KBD_STAT_MOUSE_OBF, KBD_PENDING_AUX]
  split_ifs <;> simp_all [-Nat.and_one_is_mod]

theorem kbd_update_irq_outport_derived (t : KBDState) :
    outport_derived (kbd_update_irq t) ∧ (kbd_update_irq t).outport < 256 := by
  have hb := outport_obf_bytes (u8 t.outport) (u8_lt _)
  simp only [← u8_and_left] at hb
  have hlt : (kbd_update_irq t).outport < 256 := by
    rw [kbd_update_irq_outport]
    split_ifs <;> exact u8_lt _
  refine ⟨?_, hlt⟩
  unfold outport_derived
  rw [kbd_update_irq_outport, (kbd_update_irq_frame t).2.1]
  simp only [KBD_OUT_OBF, KBD_OUT_MOUSE_OBF, KBD_PENDING_AUX]
  split_ifs <;> simp_all [-Nat.and_one_is_mod]

theorem sub_irq_set_level_cases (s : KBDState) (d : PS2Dev) (v : Nat) :
    sub_irq_set_level s d v = s ∨ ∃ t, sub_irq_set_level s d v = kbd_update_irq t := by
  unfold sub_irq_set_level
  simp only []
  split_ifs
  · exact Or.inl rfl
  · right
    cases d
    · simp only [sub_notifier, kbd_update_kbd_irq_eq]
      exact ⟨_, rfl⟩
    · simp only [sub_notifier, kbd_update_aux_irq_eq]
      exact ⟨_, rfl⟩

set_option maxRecDepth 100000 in
theorem obf_untouched_bytes : ∀ x < 256,
    (u8 (x ||| 0x04) &&& 0x01 = x &&& 0x01 ∧ u8 (x ||| 0x04) &&& 0x20 = x &&& 0x20) ∧
    (u8 (x ||| 0x02) &&& 0x10 = x &&& 0x10 ∧ u8 (x ||| 0x02) &&& 0x20 = x &&& 0x20) ∧
    (u8 (x &&& cnot 0x02) &&& 0x10 = x &&& 0x10 ∧ u8 (x &&& cnot 0x02) &&& 0x20 = x &&& 0x20) := by
  apply forall_byte
  decide

theorem preserved_status_derived : Preserved (fun s => status_derived s ∧ s.status < 256) where
  fifo := by
    intro s d c _ h
    cases d <;> exact h
  pin := by
    intro s d v h
    rcases sub_irq_set_level_cases s d v with he | ⟨t, he⟩
    · rw [he]
      exact h
    · rw [he]
      exact kbd_update_irq_status_derived t
  latch := fun _ _ h => h
  mouse_disable := fun _ h => h
  mouse_enable := fun _ h => h
  update_mode := fun _ _ _ => kbd_update_irq_status_derived _
  update_translation := fun _ _ _ _ => kbd_update_irq_status_derived _
  self_test := by
    intro s h
    have hb := (obf_untouched_bytes s.status h.2).1
    refine ⟨?_, u8_lt _⟩
    have h1 := h.1
    simp only [status_derived, KBD_STAT_OBF, KBD_STAT_MOUSE_OBF, KBD_STAT_SELFTEST] at h1 ⊢
    rw [hb.1, hb.2]
    exact h1
  a20_on := fun _ h => h
  a20_off := fun _ h => h
  reset_request := fun _ h => h
  write_keyboard := fun _ _ h => h
  write_mouse := fun _ _ h => h

theorem outport_write_status_derived (t : KBDState) (v : Nat)
    (h : status_derived t ∧ t.status < 256) :
    status_derived (outport_write t v) ∧ (outport_write t v).status < 256 := by
  unfold outport_write
  simp only []
  split_ifs <;> exact h

theorem preserved_outport_derived :
    Preserved (fun s => outport_derived s ∧ s.outport < 256) where
  fifo := by
    intro s d c _ h
    cases d <;> exact h
  pin := by
    intro s d v h
    rcases sub_irq_set_level_cases s d v with he | ⟨t, he⟩
    · rw [he]
      exact h
    · rw [he]
      exact kbd_update_irq_outport_derived t
  latch := fun _ _ h => h
  mouse_disable := fun _ h => h
  mouse_enable := fun _ h => h
  update_mode := fun _ _ _ => kbd_update_irq_outport_derived _
  update_translation := fun _ _ _ _ => kbd_update_irq_outport_derived _
  self_test := fun _ h => h
  a20_on := by
    intro s h
    have hb := (obf_untouched_bytes s.outport h.2).2.1
    refine ⟨?_, u8_lt _⟩
    have h1 := h.1
    simp only [outport_derived, KBD_OUT_OBF, KBD_OUT_MOUSE_OBF, KBD_OUT_A20] at h1 ⊢
    rw [hb.1, hb.2]
    exact h1
  a20_off := by
    intro s h
    have hb := (obf_untouched_bytes s.outport h.2).2.2
    refine ⟨?_, u8_lt _⟩
    have h1 := h.1
    simp only [outport_derived, KBD_OUT_OBF, KBD_OUT_MOUSE_OBF, KBD_OUT_A20] at h1 ⊢
    rw [hb.1, hb.2]
    exact h1
  reset_request := fun _ h => h
  write_keyboard := fun _ _ h => h
  write_mouse := fun _ _ h => h

/-- Claim C16, as stated, fails: from the post-reset state, writing command
0xD1 and then data byte 0xDF (the usual way to open the A20 gate through the
output port) leaves outport bit OBF (0x10) set although `pending == 0`. -/
theorem outport_obf_not_derived_counterexample :
    (run post_reset [.write 4 0xD1, .write 0 0xDF]).map
        (fun t => (t.outport, t.outport &&& KBD_OUT_OBF, t.pending)) = some (0xDF, 0x10, 0) ∧
    ∃ t, run post_reset [.write 4 0xD1, .write 0 0xDF] = some t ∧
      ¬ (t.outport &&& KBD_OUT_OBF ≠ 0 ↔ t.pending ≠ 0) := by
  refine ⟨by decide, ?_⟩
  obtain ⟨t, ht⟩ := run_defined [.write 4 0xD1, .write 0 0xDF] post_reset (by decide) (by decide)
  refine ⟨t, ht, ?_⟩
  have h : (run post_reset [.write 4 0xD1, .write 0 0xDF]).map
      (fun t => (t.outport &&& KBD_OUT_OBF, t.pending)) = some (0x10, 0) := by decide
  rw [ht, Option.map_some', Option.some.injEq, Prod.mk.injEq] at h
  rw [h.1, h.2]
  decide

/-- Claim C16, amended: in every state reached from a post-reset state
(status 0x18, outport 0x03, `pending == 0`) by register reads, register writes
and sub-device pin changes, status OBF is set iff `pending != 0` and status
MOUSE_OBF iff `pending == KBD_PENDING_AUX`; the outport bits OBF and MOUSE_OBF
are derived from `pending` in the same way as long as no data byte was written
under a latched WRITE_OUTPORT, which stores the byte into outport verbatim.
Every such sequence reaches a state when `0 <= it_shift < 64`. -/
theorem obf_bits_along_runs (s : KBDState) (ops : List Op)
    (hstatus : s.status = 0x18) (houtport : s.outport = 0x03) (hpending : s.pending = 0) :
    (0 ≤ s.it_shift → s.it_shift < 64 → ∃ t, run s ops = some t) ∧
    ∀ t, run s ops = some t →
      (t.status &&& KBD_STAT_OBF ≠ 0 ↔ t.pending ≠ 0) ∧
      (t.status &&& KBD_STAT_MOUSE_OBF ≠ 0 ↔ t.pending = KBD_PENDING_AUX) ∧
      (outport_untouched s ops →
        (t.outport &&& KBD_OUT_OBF ≠ 0 ↔ t.pending ≠ 0) ∧
        (t.outport &&& KBD_OUT_MOUSE_OBF ≠ 0 ↔ t.pending = KBD_PENDING_AUX)) := by
  have hs : status_derived s ∧ s.status < 256 := by
    unfold status_derived
    rw [hstatus, hpending]
    decide
  have ho : outport_derived s ∧ s.outport < 256 := by
    unfold outport_derived
    rw [houtport, hpending]
    decide
  refine ⟨fun h0 h1 => run_defined ops s h0 h1, ?_⟩
  intro t e
  have h1 := (run_preserves preserved_status_derived outport_write_status_derived ops s t hs e).1
  refine ⟨h1.1, h1.2, ?_⟩
  intro hu
  exact (run_preserves_untouched preserved_outport_derived ops s t ho hu e).1

theorem obf_bits_along_runs_witness :
    (post_reset.status = 0x18 ∧ post_reset.outport = 0x03 ∧ post_reset.pending = 0) ∧
    (∃ t, run post_reset [.write 4 0xAA, .read 0] = some t) ∧
    (∀ t, run post_reset [.write 4 0xAA, .read 0] = some t →
      (t.status &&& KBD_STAT_OBF ≠ 0 ↔ t.pending ≠ 0)) :=
  ⟨by decide,
    (obf_bits_along_runs post_reset [.write 4 0xAA, .read 0]
      (by decide) (by decide) (by decide)).1 (by decide) (by decide),
    fun t e => ((obf_bits_along_runs post_reset [.write 4 0xAA, .read 0]
      (by decide) (by decide) (by decide)).2 t e).1⟩

/-! ## Device properties -/

/-- Claim C17 fails on the code: the table declares the properties "it_shift"
(default 2, bound to `it_shift`) and "addr_shift" (default 8, bound to
`addr_size`); no property is named "addr_size", so the second assignment of
`i8042_mm_init` names no declared property and the constructor fails for every
size and shift. -/
theorem i8042_mm_init_addr_size_undeclared :
    i8042_properties.map (fun p => (p.name, p.field, p.defval)) =
      [("it_shift", KBDField.it_shift, 2), ("addr_shift", KBDField.addr_size, 8)] ∧
    qdev_prop_find i8042_properties "it_shift" =
      some { name := "it_shift", type := .int32, field := .it_shift, defval := 2 } ∧
    qdev_prop_find i8042_properties "addr_size" = none ∧
    ¬ (∀ n ∈ i8042_mm_init_property_names, (qdev_prop_find i8042_properties n).isSome) ∧
    (∀ size it_shift, i8042_mm_init size it_shift = none) := by
  refine ⟨by decide, by decide, by decide, by decide, ?_⟩
  intro size it_shift
  have h1 : qdev_prop_find i8042_properties "it_shift" =
      some { name := "it_shift", type := .int32, field := .it_shift, defval := 2 } := by decide
  have h2 : qdev_prop_find i8042_properties "addr_size" = none := by decide
  simp only [i8042_mm_init, qdev_prop_set_int32, h1, h2]

/-! ## Reset idempotence -/

/-- Claim C18: the device reset is idempotent: `i8042_reset (i8042_reset s)` is
the same state as `i8042_reset s`, in every field: write_cmd, status, mode,
outport, pending, the three pins and both sub-devices. -/
theorem i8042_reset_idempotent (s : KBDState) :
    i8042_reset (i8042_reset s) = i8042_reset s ∧
    (i8042_reset (i8042_reset s)).write_cmd = (i8042_reset s).write_cmd ∧
    (i8042_reset (i8042_reset s)).status = (i8042_reset s).status ∧
    (i8042_reset (i8042_reset s)).mode = (i8042_reset s).mode ∧
    (i8042_reset (i8042_reset s)).outport = (i8042_reset s).outport ∧
    (i8042_reset (i8042_reset s)).pending = (i8042_reset s).pending ∧
    (i8042_reset (i8042_reset s)).irq_kbd.level = (i8042_reset s).irq_kbd.level ∧
    (i8042_reset (i8042_reset s)).irq_mouse.level = (i8042_reset s).irq_mouse.level ∧
    (i8042_reset (i8042_reset s)).a20_out.level = (i8042_reset s).a20_out.level := by
  have h : i8042_reset (i8042_reset s) = i8042_reset s := by
    unfold i8042_reset
    rfl
  refine ⟨h, ?_, ?_, ?_, ?_, ?_, ?_, ?_, ?_⟩ <;> rw [h]

/-! ## IRQ consistency -/

theorem irq_consistent_iff (s : KBDState) :
    irq_consistent s ↔
      s.irq_kbd.level =
        (if s.pending ≠ 0 ∧ s.pending ≠ KBD_PENDING_AUX ∧ s.mode &&& KBD_MODE_KBD_INT ≠ 0
          ∧ s.mode &&& KBD_MODE_DISABLE_KBD = 0 then 1 else 0) ∧
      s.irq_mouse.level =
        (if s.pending = KBD_PENDING_AUX ∧ s.mode &&& KBD_MODE_MOUSE_INT ≠ 0 then 1 else 0) := by
  unfold irq_consistent
  rw [kbd_update_irq_irq_kbd, kbd_update_irq_irq_mouse]

theorem kbd_update_irq_consistent (s : KBDState) : irq_consistent (kbd_update_irq s) := by
  rw [irq_consistent_iff]
  obtain ⟨hm, hp, _⟩ := kbd_update_irq_frame s
  rw [hm, hp]
  exact ⟨kbd_update_irq_irq_kbd s, kbd_update_irq_irq_mouse s⟩

theorem irq_consistent_congr {s t : KBDState} (hk : t.irq_kbd = s.irq_kbd)
    (hm : t.irq_mouse = s.irq_mouse) (hp : t.pending = s.pending)
    (h1 : t.mode &&& KBD_MODE_KBD_INT = s.mode &&& KBD_MODE_KBD_INT)
    (h2 : t.mode &&& KBD_MODE_DISABLE_KBD = s.mode &&& KBD_MODE_DISABLE_KBD)
    (h3 : t.mode &&& KBD_MODE_MOUSE_INT = s.mode &&& KBD_MODE_MOUSE_INT)
    (h : irq_consistent s) : irq_consistent t := by
  rw [irq_consistent_iff] at h ⊢
  rw [hk, hm, hp, h1, h2, h3]
  exact h

theorem and_low_congr {a b k : Nat} (hk : k < 256)
    (h : ∀ i < 8, k.testBit i = true → a.testBit i = b.testBit i) : a &&& k = b &&& k := by
  apply Nat.eq_of_testBit_eq
  intro i
  simp only [Nat.testBit_and]
  by_cases hi : i < 8
  · cases hb : k.testBit i with
    | false => simp
    | true => rw [h i hi hb]
  · have : k.testBit i = false := testBit_byte_high hk (Nat.le_of_not_lt hi)
    simp [this]

set_option maxRecDepth 100000 in
theorem mouse_disable_low_bits : ∀ i : Fin 8, i.val ≠ 5 →
    (0x20 : Nat).testBit i.val = false ∧ (cnot 0x20).testBit i.val = true := by
  decide

theorem mode_mouse_bits (m k : Nat) (hk : k < 256) (h5 : k.testBit 5 = false) :
    u8 (m ||| KBD_MODE_DISABLE_MOUSE) &&& k = m &&& k ∧
    u8 (m &&& cnot KBD_MODE_DISABLE_MOUSE) &&& k = m &&& k := by
  have key : ∀ i < 8, k.testBit i = true →
      (0x20 : Nat).testBit i = false ∧ (cnot 0x20).testBit i = true := by
    intro i hi hb
    have h5' : i ≠ 5 := by
      intro e
      rw [e, h5] at hb
      cases hb
    exact mouse_disable_low_bits ⟨i, hi⟩ h5'
  constructor
  · apply and_low_congr hk
    intro i hi hb
    unfold u8
    rw [show (256 : Nat) = 2 ^ 8 from rfl]
    simp only [Nat.testBit_mod_two_pow, Nat.testBit_or, KBD_MODE_DISABLE_MOUSE]
    simp [hi, (key i hi hb).1]
  · apply and_low_congr hk
    intro i hi hb
    unfold u8
    rw [show (256 : Nat) = 2 ^ 8 from rfl]
    simp only [Nat.testBit_mod_two_pow, Nat.testBit_and, KBD_MODE_DISABLE_MOUSE]
    simp [hi, (key i hi hb).2]
theorem preserved_irq_consistent : Preserved irq_consistent where
  fifo := by
    intro s d c _ h
    cases d <;> exact irq_consistent_congr (s := s) rfl rfl rfl rfl rfl rfl h
  pin := by
    intro s d v h
    rcases sub_irq_set_level_cases s d v with e | ⟨t, e⟩
    · rw [e]; exact h
    · rw [e]; exact kbd_update_irq_consistent t
  latch := fun s _ h => irq_consistent_congr (s := s) rfl rfl rfl rfl rfl rfl h
  mouse_disable := by
    intro s h
    exact irq_consistent_congr (s := s) rfl rfl rfl
      (mode_mouse_bits s.mode KBD_MODE_KBD_INT (by decide) (by decide)).1
      (mode_mouse_bits s.mode KBD_MODE_DISABLE_KBD (by decide) (by decide)).1
      (mode_mouse_bits s.mode KBD_MODE_MOUSE_INT (by decide) (by decide)).1 h
  mouse_enable := by
    intro s h
    exact irq_consistent_congr (s := s) rfl rfl rfl
      (mode_mouse_bits s.mode KBD_MODE_KBD_INT (by decide) (by decide)).2
      (mode_mouse_bits s.mode KBD_MODE_DISABLE_KBD (by decide) (by decide)).2
      (mode_mouse_bits s.mode KBD_MODE_MOUSE_INT (by decide) (by decide)).2 h
  update_mode := fun s m _ => kbd_update_irq_consistent _
  update_translation := fun s m b _ => kbd_update_irq_consistent _
  self_test := fun s h => irq_consistent_congr (s := s) rfl rfl rfl rfl rfl rfl h
  a20_on := fun s h => irq_consistent_congr (s := s) rfl rfl rfl rfl rfl rfl h
  a20_off := fun s h => irq_consistent_congr (s := s) rfl rfl rfl rfl rfl rfl h
  reset_request := fun s h => irq_consistent_congr (s := s) rfl rfl rfl rfl rfl rfl h
  write_keyboard := fun s _ h => irq_consistent_congr (s := s) rfl rfl rfl rfl rfl rfl h
  write_mouse := fun s _ h => irq_consistent_congr (s := s) rfl rfl rfl rfl rfl rfl h

theorem outport_write_irq_consistent (t : KBDState) (v : Nat) (h : irq_consistent t) :
    irq_consistent (outport_write t v) := by
  unfold outport_write
  simp only []
  split_ifs <;> exact irq_consistent_congr (s := t) rfl rfl rfl rfl rfl rfl h

theorem irq_consistent_not_both {s : KBDState} (h : irq_consistent s) :
    ¬ (s.irq_kbd.level = 1 ∧ s.irq_mouse.level = 1) := by
  rw [irq_consistent_iff] at h
  rintro ⟨hk, hm⟩
  rw [hk] at h
  rw [hm] at h
  obtain ⟨h1, h2⟩ := h
  by_cases hp : s.pending = KBD_PENDING_AUX
  · simp [hp] at h1
  · simp [hp] at h2

/-- C34: in a state whose pins `irq_kbd` and `irq_mouse` carry the levels that
`kbd_update_irq` computes from `pending` and `mode`, they still do after any
command write, any data write, any register read or write through the
register interface, and any level change of a sub-device pin with its
notifier; and a notifier always leaves such a state.  Hence after every
sequence of these operations the pins are consistent and `irq_kbd` and
`irq_mouse` are not both 1.  The register interface and every sequence of
operations have a result whenever `0 <= it_shift < 64`. -/
theorem irq_consistency_invariant (s : KBDState) (h : irq_consistent s) :
    (∀ v, irq_consistent (kbd_write_command s v)) ∧
    (∀ v, irq_consistent (kbd_write_data s v)) ∧
    irq_consistent (kbd_read_data s).2 ∧
    (∀ addr r, i8042_read s addr = some r → irq_consistent r.2) ∧
    (∀ addr v t, i8042_write s addr v = some t → irq_consistent t) ∧
    (∀ d v, irq_consistent (sub_irq_set_level s d v)) ∧
    (∀ d t, irq_consistent (sub_notifier d t)) ∧
    (∀ ops t, run s ops = some t →
      irq_consistent t ∧ ¬ (t.irq_kbd.level = 1 ∧ t.irq_mouse.level = 1)) ∧
    (0 ≤ s.it_shift → s.it_shift < 64 →
      (∀ addr, ∃ r, i8042_read s addr = some r) ∧
      (∀ addr v, ∃ t, i8042_write s addr v = some t) ∧
      (∀ ops, ∃ t, run s ops = some t)) := by
  refine ⟨?_, ?_, ?_, ?_, ?_, ?_, ?_, ?_, ?_⟩
  · intro v
    exact kbd_write_command_preserves preserved_irq_consistent s v h
  · intro v
    exact kbd_write_data_preserves preserved_irq_consistent s v h
      (fun _ => outport_write_irq_consistent s v h)
  · exact kbd_read_data_preserves preserved_irq_consistent s h
  · intro addr r e
    refine step_preserves preserved_irq_consistent s (.read addr) r.2 h
      (Or.inr outport_write_irq_consistent) ?_
    simp only [step, e, Option.map_some']
  · intro addr v t e
    exact step_preserves preserved_irq_consistent s (.write addr v) t h
      (Or.inr outport_write_irq_consistent) e
  · intro d v
    exact preserved_irq_consistent.pin s d v h
  · intro d t
    cases d
    · simp only [sub_notifier, kbd_update_kbd_irq]
      split_ifs <;> exact kbd_update_irq_consistent _
    · simp only [sub_notifier, kbd_update_aux_irq]
      split_ifs <;> exact kbd_update_irq_consistent _
  · intro ops t e
    have hr := run_preserves preserved_irq_consistent outport_write_irq_consistent ops s t h e
    exact ⟨hr, irq_consistent_not_both hr⟩
  · intro h0 h1
    refine ⟨fun addr => ?_, fun addr v => ?_, fun ops => run_defined ops s h0 h1⟩
    · obtain ⟨t, ht, _⟩ := step_defined s h0 h1 (.read addr)
      simp only [step] at ht
      cases hr : i8042_read s addr with
      | none =>
        rw [hr] at ht
        cases ht
      | some r => exact ⟨r, rfl⟩
    · obtain ⟨t, ht, _⟩ := step_defined s h0 h1 (.write addr v)
      exact ⟨t, ht⟩

/-- C34 (witness): the post-reset state is consistent, and stays so through the
self test, a mode write and a data read, which reach a state. -/
theorem irq_consistency_invariant_witness :
    irq_consistent post_reset ∧
    (∃ t, run post_reset [.write 4 0xAA, .write 4 0x60, .write 0 0x43, .read 0] = some t) ∧
    (∀ t, run post_reset [.write 4 0xAA, .write 4 0x60, .write 0 0x43, .read 0] = some t →
      irq_consistent t) :=
  ⟨by unfold irq_consistent; decide,
    (irq_consistency_invariant post_reset (by unfold irq_consistent; decide)).2.2.2.2.2.2.2.2
      (by decide) (by decide) |>.2.2 [.write 4 0xAA, .write 4 0x60, .write 0 0x43, .read 0],
    fun t e =>
      ((irq_consistency_invariant post_reset (by unfold irq_consistent; decide)).2.2.2.2.2.2.2.1
        [.write 4 0xAA, .write 4 0x60, .write 0 0x43, .read 0] t e).1⟩

end Pckbd

namespace QdevLife

/-! ## qdev_init -/

theorem emit_trace (w : World) (e : Event) : (emit w e).trace = w.trace ++ [e] := rfl

theorem device_reset_trace (w : World) (dc : DeviceClass) :
    (device_reset w dc).trace =
      w.trace ++ (Event.device_reset :: if dc.reset then [Event.reset_hook] else []) ∧
    (device_reset w dc).qdev_hot_removed = w.qdev_hot_removed ∧
    (device_reset w dc).qdev_hot_added = w.qdev_hot_added ∧
    (device_reset w dc).qdev_hotplug = w.qdev_hotplug := by
  unfold device_reset
  simp only []
  split_ifs <;> simp [emit]

/-- The calls `qdev_init` makes after a successful init hook: the snapshot
registration when the class has a descriptor, then the reset of a hot-plugged
device. -/
theorem qdev_init_success (w : World) (dc : DeviceClass) (dev : DeviceState)
    (hs : dev.state = .DEV_STATE_CREATED) (hrc : 0 ≤ dc.init dev) :
    ∃ w1, qdev_init w dc dev =
        .returned (0, some { dev with state := .DEV_STATE_INITIALIZED }) w1 ∧
      w1.trace = w.trace ++ [Event.init_hook] ++
        (match dc.vmsd with
          | some v =>
            [Event.vmstate_register v dev.instance_id_alias dev.alias_required_for_version]
          | none => []) ++
        (if dev.hotplugged ≠ 0 then
          Event.device_reset :: (if dc.reset then [Event.reset_hook] else [])
         else []) ∧
      w1.qdev_hot_removed = w.qdev_hot_removed ∧ w1.qdev_hot_added = w.qdev_hot_added := by
  have hnot : ¬ dc.init dev < 0 := not_lt.mpr hrc
  unfold qdev_init
  simp only [hs, ne_eq, not_true_eq_false, if_false, hnot, qdev_get_vmsd]
  refine ⟨_, rfl, ?_, ?_, ?_⟩
  · cases hv : dc.vmsd <;> by_cases hh : dev.hotplugged = 0 <;>
      simp [hh, (device_reset_trace _ dc).1, emit_trace]
  · cases hv : dc.vmsd <;> by_cases hh : dev.hotplugged = 0 <;>
      simp [hh, (device_reset_trace _ dc).2.1, emit]
  · cases hv : dc.vmsd <;> by_cases hh : dev.hotplugged = 0 <;>
      simp [hh, (device_reset_trace _ dc).2.2.1, emit]

/-- Claim C19: `qdev_init` on a device in state CREATED: when the init hook
returns a negative `rc` the device is freed and `rc` returned, with no snapshot
registration, no INITIALIZED state and no reset; otherwise it returns 0, the
state becomes INITIALIZED, the snapshot descriptor is registered iff the class
has one, and `device_reset` is called exactly once iff the device is
hot-plugged.  On a device that is not in state CREATED the assertion fails
before any hook runs. -/
theorem qdev_init_contract (w : World) (dc : DeviceClass) (dev : DeviceState) :
    (dev.state = .DEV_STATE_CREATED → dc.init dev < 0 →
      qdev_init w dc dev =
        .returned (dc.init dev, none)
          { w with trace := w.trace ++ [Event.init_hook, Event.qdev_free] }) ∧
    (dev.state = .DEV_STATE_CREATED → 0 ≤ dc.init dev →
      ∃ w1, qdev_init w dc dev =
          .returned (0, some { dev with state := .DEV_STATE_INITIALIZED }) w1 ∧
        (∃ evs, w1.trace = w.trace ++ Event.init_hook :: evs ∧
          Event.qdev_free ∉ evs ∧
          ((∃ a r, Event.vmstate_register (dc.vmsd.getD "") a r ∈ evs) ↔ dc.vmsd.isSome) ∧
          ((∃ v a r, Event.vmstate_register v a r ∈ evs) → dc.vmsd.isSome) ∧
          evs.count Event.device_reset = (if dev.hotplugged ≠ 0 then 1 else 0) ∧
          evs.count Event.reset_hook = (if dev.hotplugged ≠ 0 ∧ dc.reset then 1 else 0))) ∧
    (dev.state ≠ .DEV_STATE_CREATED → qdev_init w dc dev = .aborted w) ∧
    ((qdev_init sample_world sample_class sample_device).world.trace =
        [Event.init_hook, Event.vmstate_register "pckbd" (-1) 0, Event.device_reset,
          Event.reset_hook] ∧
      (qdev_init sample_world failing_class sample_device).world.trace =
        [Event.init_hook, Event.qdev_free] ∧
      (qdev_init sample_world failing_class sample_device).value = some (-1, none)) := by
  refine ⟨?_, ?_, ?_, by decide⟩
  · intro hs hrc
    unfold qdev_init
    simp [hs, hrc, qdev_free, emit]
  · intro hs hrc
    obtain ⟨w1, he, ht, _, _⟩ := qdev_init_success w dc dev hs hrc
    refine ⟨w1, he, ?_⟩
    refine ⟨(match dc.vmsd with
        | some v =>
          [Event.vmstate_register v dev.instance_id_alias dev.alias_required_for_version]
        | none => []) ++
        (if dev.hotplugged ≠ 0 then
          Event.device_reset :: (if dc.reset then [Event.reset_hook] else [])
         else []), ?_, ?_⟩
    · rw [ht]
      simp only [List.append_assoc, List.singleton_append, List.cons_append, List.nil_append]
    · cases hv : dc.vmsd <;> by_cases hh : dev.hotplugged = 0 <;> cases hr : dc.reset <;>
        simp [hh]
  · intro hs
    unfold qdev_init
    simp [hs]

/-! ## qdev_unplug -/

/-- Claim C20: `qdev_unplug` on a device whose parent bus has `allow_hotplug`
false returns -1 and reports the no-hotplug error, without calling the class
unplug hook and without setting the hot-removed flag, so
`qdev_machine_modified` is unchanged; with `allow_hotplug` true (and an unplug
hook in the class) it sets the hot-removed flag, so `qdev_machine_modified`
returns true afterwards, and returns the result of the unplug hook.  Without an
unplug hook the assertion fails before the flag is set. -/
theorem qdev_unplug_contract (w : World) (dc : DeviceClass) (dev : DeviceState) :
    (dev.parent_bus.allow_hotplug = 0 →
      qdev_unplug w dc dev =
        .returned (-1)
          { w with trace := w.trace ++ [Event.qerror_bus_no_hotplug dev.parent_bus.name] } ∧
      (qdev_unplug w dc dev).value = some (-1) ∧
      (qdev_unplug w dc dev).world.qdev_hot_removed = w.qdev_hot_removed ∧
      qdev_machine_modified (qdev_unplug w dc dev).world = qdev_machine_modified w ∧
      (qdev_unplug w dc dev).world.trace.count Event.unplug_hook
        = w.trace.count Event.unplug_hook) ∧
    (∀ hook, dev.parent_bus.allow_hotplug ≠ 0 → dc.unplug = some hook →
      qdev_unplug w dc dev =
        .returned (hook dev)
          { w with qdev_hot_removed := true, trace := w.trace ++ [Event.unplug_hook] } ∧
      (qdev_unplug w dc dev).value = some (hook dev) ∧
      (qdev_unplug w dc dev).world.qdev_hot_removed = true ∧
      qdev_machine_modified (qdev_unplug w dc dev).world = true) ∧
    (dev.parent_bus.allow_hotplug ≠ 0 → dc.unplug = none →
      qdev_unplug w dc dev = .aborted w) ∧
    ((qdev_unplug sample_world sample_class sample_device).value = some 0 ∧
      qdev_machine_modified sample_world = false ∧
      qdev_machine_modified (qdev_unplug sample_world sample_class sample_device).world
        = true) := by
  refine ⟨?_, ?_, ?_, by decide⟩
  · intro h
    have he : qdev_unplug w dc dev =
        .returned (-1)
          { w with trace := w.trace ++ [Event.qerror_bus_no_hotplug dev.parent_bus.name] } := by
      unfold qdev_unplug
      simp [h, emit]
    rw [he]
    refine ⟨rfl, rfl, rfl, rfl, ?_⟩
    simp [Result.world]
  · intro hook h hu
    have he : qdev_unplug w dc dev =
        .returned (hook dev)
          { w with qdev_hot_removed := true, trace := w.trace ++ [Event.unplug_hook] } := by
      unfold qdev_unplug
      simp [h, hu, emit]
    rw [he]
    refine ⟨rfl, rfl, rfl, ?_⟩
    simp [Result.world, qdev_machine_modified]
  · intro h hu
    unfold qdev_unplug
    simp [h, hu]

end QdevLife

namespace Qdev

/-! ## Heap updates -/

@[simp] theorem set_dev_devs (h : Heap) (i : Nat) (d : Option DeviceState) (j : Nat) :
    (set_dev h i d).devs j = if j = i then d else h.devs j := rfl
@[simp] theorem set_dev_buses (h : Heap) (i : Nat) (d : Option DeviceState) :
    (set_dev h i d).buses = h.buses := rfl
@[simp] theorem set_dev_slots (h : Heap) (i : Nat) (d : Option DeviceState) :
    (set_dev h i d).slots = h.slots := rfl
@[simp] theorem set_dev_root (h : Heap) (i : Nat) (d : Option DeviceState) :
    (set_dev h i d).root = h.root := rfl
@[simp] theorem set_dev_next_dev (h : Heap) (i : Nat) (d : Option DeviceState) :
    (set_dev h i d).next_dev = h.next_dev := rfl
@[simp] theorem set_dev_next_bus (h : Heap) (i : Nat) (d : Option DeviceState) :
    (set_dev h i d).next_bus = h.next_bus := rfl
@[simp] theorem set_dev_main_system_bus (h : Heap) (i : Nat) (d : Option DeviceState) :
    (set_dev h i d).main_system_bus = h.main_system_bus := rfl
@[simp] theorem set_bus_buses (h : Heap) (i : Nat) (b : Option BusState) (j : Nat) :
    (set_bus h i b).buses j = if j = i then b else h.buses j := rfl
@[simp] theorem set_bus_devs (h : Heap) (i : Nat) (b : Option BusState) :
    (set_bus h i b).devs = h.devs := rfl
@[simp] theorem set_bus_slots (h : Heap) (i : Nat) (b : Option BusState) :
    (set_bus h i b).slots = h.slots := rfl
@[simp] theorem set_bus_root (h : Heap) (i : Nat) (b : Option BusState) :
    (set_bus h i b).root = h.root := rfl
@[simp] theorem set_bus_next_dev (h : Heap) (i : Nat) (b : Option BusState) :
    (set_bus h i b).next_dev = h.next_dev := rfl
@[simp] theorem set_bus_next_bus (h : Heap) (i : Nat) (b : Option BusState) :
    (set_bus h i b).next_bus = h.next_bus := rfl
@[simp] theorem set_bus_main_system_bus (h : Heap) (i : Nat) (b : Option BusState) :
    (set_bus h i b).main_system_bus = h.main_system_bus := rfl
@[simp] theorem set_slot_slots (h : Heap) (i : Nat) (v : Option Nat) (j : Nat) :
    (set_slot h i v).slots j = if j = i then v else h.slots j := rfl
@[simp] theorem set_slot_devs (h : Heap) (i : Nat) (v : Option Nat) :
    (set_slot h i v).devs = h.devs := rfl
@[simp] theorem set_slot_buses (h : Heap) (i : Nat) (v : Option Nat) :
    (set_slot h i v).buses = h.buses := rfl
@[simp] theorem set_slot_root (h : Heap) (i : Nat) (v : Option Nat) :
    (set_slot h i v).root = h.root := rfl

/-! ## Bus membership -/

theorem same_membership_refl (h : Heap) : same_membership h h :=
  ⟨rfl, rfl, rfl, fun _ => rfl⟩

theorem same_membership_trans {h1 h2 h3 : Heap} (a : same_membership h1 h2)
    (b : same_membership h2 h3) : same_membership h1 h3 :=
  ⟨b.1.trans a.1, b.2.1.trans a.2.1, b.2.2.1.trans a.2.2.1,
    fun i => (b.2.2.2 i).trans (a.2.2.2 i)⟩

theorem same_membership_set_dev {h : Heap} {i : Nat} {D E : DeviceState}
    (hD : h.devs i = some D) (hp : E.parent_bus = D.parent_bus) :
    same_membership h (set_dev h i (some E)) := by
  refine ⟨rfl, rfl, rfl, fun j => ?_⟩
  by_cases hj : j = i
  · subst hj; simp [hD, hp]
  · simp [hj]

theorem same_membership_unlisted {h h' : Heap} (s : same_membership h h') {dev : Nat}
    (u : unlisted h dev) : unlisted h' dev := by
  intro b B hB kid hk
  rw [s.1] at hB
  exact u b B hB kid hk

theorem same_membership_bus_membership {h h' : Heap} (s : same_membership h h')
    (m : bus_membership h) : bus_membership h' := by
  intro b B hB
  rw [s.1] at hB
  obtain ⟨m1, m2⟩ := m b B hB
  refine ⟨fun kid hk => ?_, m2⟩
  obtain ⟨D, hD, hp⟩ := m1 kid hk
  have e := s.2.2.2 kid.child
  rw [hD] at e
  cases hD' : h'.devs kid.child with
  | none => rw [hD'] at e; simp at e
  | some D' =>
    rw [hD'] at e
    simp only [Option.map_some', Option.some.injEq] at e
    exact ⟨D', rfl, e.trans hp⟩

theorem same_membership_alloc_ok {h h' : Heap} (s : same_membership h h')
    (a : alloc_ok h) : alloc_ok h' := by
  refine ⟨fun d hd => ?_, fun b hb => ?_⟩
  · rw [s.2.1] at hd
    have e := s.2.2.2 d
    rw [a.1 d hd] at e
    cases hD' : h'.devs d with
    | none => rfl
    | some D' => rw [hD'] at e; simp at e
  · rw [s.2.2.1] at hb
    rw [s.1]
    exact a.2 b hb

theorem unlisted_of_detached {h : Heap} (m : bus_membership h) {dev : Nat} {D : DeviceState}
    (hD : h.devs dev = some D) (hp : D.parent_bus = none) : unlisted h dev := by
  intro b B hB kid hk e
  obtain ⟨D0, hD0, hp0⟩ := (m b B hB).1 kid hk
  rw [e, hD] at hD0
  cases hD0
  rw [hp] at hp0
  cases hp0

theorem unlisted_of_dead {h : Heap} (m : bus_membership h) {dev : Nat}
    (hD : h.devs dev = none) : unlisted h dev := by
  intro b B hB kid hk e
  obtain ⟨D0, hD0, _⟩ := (m b B hB).1 kid hk
  rw [e, hD] at hD0
  cases hD0

theorem qdev_set_parent_bus_preserves {h h' : Heap} {dev bus : Nat}
    (m : bus_membership h) (a : alloc_ok h) (u : unlisted h dev)
    (e : qdev_set_parent_bus h dev bus = some h') :
    bus_membership h' ∧ alloc_ok h' := by
  unfold qdev_set_parent_bus at e
  cases hD : h.devs dev with
  | none => simp [hD] at e
  | some D =>
    simp only [hD] at e
    unfold bus_add_child at e
    simp only [set_dev_buses] at e
    cases hB : h.buses bus with
    | none => simp [hB] at e
    | some B =>
      simp only [hB] at e
      split at e
      · cases e
      · simp only [Option.some.injEq] at e
        subst e
        refine ⟨?_, ?_, ?_⟩
        · intro b B' hB'
          simp only [set_bus_buses] at hB'
          by_cases hb : b = bus
          · subst hb
            simp only [if_true, Option.some.injEq] at hB'
            subst hB'
            obtain ⟨m1, m2⟩ := m b B hB
            refine ⟨?_, ?_⟩
            · intro kid hk
              simp only [List.mem_cons] at hk
              rcases hk with rfl | hk
              · exact ⟨{ D with parent_bus := some b }, by simp, rfl⟩
              · obtain ⟨D0, hD0, hp0⟩ := m1 kid hk
                have hne := u b B hB kid hk
                exact ⟨D0, by simp [hne, hD0], hp0⟩
            · simp only [List.map_cons, List.nodup_cons]
              refine ⟨?_, m2⟩
              intro hmem
              obtain ⟨kid, hk, hc⟩ := List.mem_map.1 hmem
              exact u b B hB kid hk hc
          · simp only [hb, if_false] at hB'
            obtain ⟨m1, m2⟩ := m b B' hB'
            refine ⟨?_, m2⟩
            intro kid hk
            obtain ⟨D0, hD0, hp0⟩ := m1 kid hk
            have hne := u b B' hB' kid hk
            exact ⟨D0, by simp [hne, hD0], hp0⟩
        · intro d hd
          simp only [set_bus_next_dev, set_dev_next_dev] at hd
          have hn := a.1 d hd
          by_cases hdd : d = dev
          · subst hdd; rw [hD] at hn; cases hn
          · simp [hdd, hn]
        · intro b hb
          simp only [set_bus_next_bus, set_dev_next_bus] at hb
          have hn := a.2 b hb
          by_cases hbb : b = bus
          · subst hbb; rw [hB] at hn; cases hn
          · simp [hbb, hn]

theorem remove_kid_mem {kids : List BusChild} {child : Nat} {kid : BusChild}
    (hk : kid ∈ remove_kid kids child) : kid ∈ kids := by
  induction kids with
  | nil => simp [remove_kid] at hk
  | cons k ks ih =>
    simp only [remove_kid] at hk
    split at hk
    · exact List.mem_cons_of_mem _ hk
    · rcases List.mem_cons.1 hk with rfl | hk
      · exact List.mem_cons_self _ _
      · exact List.mem_cons_of_mem _ (ih hk)

theorem remove_kid_nodup {kids : List BusChild} (child : Nat)
    (hn : (kids.map (fun kid => kid.child)).Nodup) :
    ((remove_kid kids child).map (fun kid => kid.child)).Nodup ∧
    ∀ kid ∈ remove_kid kids child, kid.child ≠ child := by
  induction kids with
  | nil => simp [remove_kid]
  | cons k ks ih =>
    simp only [List.map_cons, List.nodup_cons] at hn
    simp only [remove_kid]
    split
    · rename_i hc
      refine ⟨hn.2, fun kid hk e => hn.1 ?_⟩
      rw [hc, ← e]
      exact List.mem_map.2 ⟨kid, hk, rfl⟩
    · rename_i hc
      obtain ⟨ih1, ih2⟩ := ih hn.2
      refine ⟨?_, ?_⟩
      · simp only [List.map_cons, List.nodup_cons]
        refine ⟨fun hmem => hn.1 ?_, ih1⟩
        obtain ⟨kid, hk, e⟩ := List.mem_map.1 hmem
        exact List.mem_map.2 ⟨kid, remove_kid_mem hk, e⟩
      · intro kid hk
        rcases List.mem_cons.1 hk with rfl | hk
        · exact hc
        · exact ih2 kid hk

theorem bus_remove_child_preserves {h : Heap} {dev bus : Nat} {D : DeviceState}
    (m : bus_membership h) (a : alloc_ok h) (hD : h.devs dev = some D)
    (hp : D.parent_bus = some bus) :
    bus_membership (bus_remove_child h bus dev) ∧ alloc_ok (bus_remove_child h bus dev) ∧
    unlisted (bus_remove_child h bus dev) dev ∧
    (bus_remove_child h bus dev).devs = h.devs := by
  unfold bus_remove_child
  cases hB : h.buses bus with
  | none =>
    refine ⟨m, a, ?_, rfl⟩
    intro b B' hB' kid hk e
    obtain ⟨D0, hD0, hp0⟩ := (m b B' hB').1 kid hk
    rw [e, hD] at hD0
    cases hD0
    rw [hp] at hp0
    cases hp0
    rw [hB] at hB'
    cases hB'
  | some B =>
    simp only
    obtain ⟨mB1, mB2⟩ := m bus B hB
    obtain ⟨r1, r2⟩ := remove_kid_nodup dev mB2
    refine ⟨?_, ?_, ?_, rfl⟩
    · intro b B' hB'
      simp only [set_bus_buses] at hB'
      by_cases hb : b = bus
      · subst hb
        simp only [if_true, Option.some.injEq] at hB'
        subst hB'
        exact ⟨fun kid hk => mB1 kid (remove_kid_mem hk), r1⟩
      · simp only [hb, if_false] at hB'
        exact m b B' hB'
    · refine ⟨a.1, fun b hb => ?_⟩
      simp only [set_bus_next_bus] at hb
      have hn := a.2 b hb
      by_cases hbb : b = bus
      · subst hbb; rw [hB] at hn; cases hn
      · simp [hbb, hn]
    · intro b B' hB' kid hk e
      simp only [set_bus_buses] at hB'
      by_cases hb : b = bus
      · subst hb
        simp only [if_true, Option.some.injEq] at hB'
        subst hB'
        exact r2 kid hk e
      · simp only [hb, if_false] at hB'
        obtain ⟨D0, hD0, hp0⟩ := (m b B' hB').1 kid hk
        rw [e, hD] at hD0
        cases hD0
        rw [hp] at hp0
        cases hp0
        exact hb rfl

theorem set_dev_none_preserves {h : Heap} {dev : Nat}
    (m : bus_membership h) (a : alloc_ok h) (u : unlisted h dev) :
    bus_membership (set_dev h dev none) ∧ alloc_ok (set_dev h dev none) := by
  refine ⟨?_, ?_, a.2⟩
  · intro b B hB
    obtain ⟨m1, m2⟩ := m b B hB
    refine ⟨fun kid hk => ?_, m2⟩
    obtain ⟨D0, hD0, hp0⟩ := m1 kid hk
    exact ⟨D0, by simp [u b B hB kid hk, hD0], hp0⟩
  · intro d hd
    have hn := a.1 d hd
    by_cases hdd : d = dev
    · simp [hdd]
    · simp [hdd, hn]

theorem qdev_unref_same (h : Heap) (dev : Nat) : same_membership h (qdev_unref h dev) := by
  unfold qdev_unref
  cases hD : h.devs dev with
  | none => exact same_membership_refl h
  | some D => exact same_membership_set_dev hD rfl

theorem qdev_ref_same (h : Heap) (dev : Nat) : same_membership h (qdev_ref h dev) := by
  unfold qdev_ref
  cases hD : h.devs dev with
  | none => exact same_membership_refl h
  | some D => exact same_membership_set_dev hD rfl

theorem run_release_same (h : Heap) (r : Option Release) (ptr : Nat) :
    same_membership h (run_release h r ptr) := by
  unfold run_release
  split
  · exact qdev_unref_same h ptr
  · exact same_membership_refl h

theorem qdev_property_del_child_same {h h' : Heap} {dev child : Nat}
    (e : qdev_property_del_child h dev child = some h') : same_membership h h' := by
  unfold qdev_property_del_child at e
  cases hD : h.devs dev with
  | none => simp [hD] at e
  | some D =>
    simp only [hD] at e
    cases hf : find_child_property D.properties child with
    | none => simp [hf] at e
    | some prop =>
      simp only [hf, Option.some.injEq] at e
      subst e
      exact same_membership_trans
        (same_membership_set_dev (E := { D with properties := D.properties.erase prop }) hD rfl)
        (run_release_same _ _ _)

theorem set_bus_none_preserves {h : Heap} {bus : Nat}
    (m : bus_membership h) (a : alloc_ok h) :
    bus_membership (set_bus h bus none) ∧ alloc_ok (set_bus h bus none) := by
  refine ⟨?_, a.1, ?_⟩
  · intro b B hB
    simp only [set_bus_buses] at hB
    by_cases hb : b = bus
    · simp [hb] at hB
    · simp only [hb, if_false] at hB
      exact m b B hB
  · intro b hb
    have hn := a.2 b hb
    by_cases hbb : b = bus
    · simp [hbb]
    · simp [hbb, hn]

theorem finalize_preserves (fuel : Nat) :
    (∀ h dev h', bus_membership h → alloc_ok h → device_finalize fuel h dev = some h' →
      bus_membership h' ∧ alloc_ok h' ∧ unlisted h' dev) ∧
    (∀ h dev h', bus_membership h → alloc_ok h → free_child_buses fuel h dev = some h' →
      bus_membership h' ∧ alloc_ok h') ∧
    (∀ h dev h', bus_membership h → alloc_ok h → qdev_free fuel h dev = some h' →
      bus_membership h' ∧ alloc_ok h') ∧
    (∀ h bus h', bus_membership h → alloc_ok h → qbus_free fuel h bus = some h' →
      bus_membership h' ∧ alloc_ok h') := by
  induction fuel with
  | zero =>
    refine ⟨?_, ?_, ?_, ?_⟩ <;> intro h x h' _ _ e
    · simp [device_finalize] at e
    · simp [free_child_buses] at e
    · simp [qdev_free] at e
    · simp [qbus_free] at e
  | succ n ih =>
    obtain ⟨ihF, ihC, ihD, ihB⟩ := ih
    refine ⟨?_, ?_, ?_, ?_⟩
    · intro h dev h' m a e
      rw [device_finalize] at e
      cases hD : h.devs dev with
      | none => simp [hD] at e
      | some D =>
        simp only [hD] at e
        have step1 : ∀ h1, bus_membership h1 → alloc_ok h1 →
            (match h1.devs dev with
              | none => none
              | some D1 =>
                match (match D1.parent_bus with
                    | some bus => bus_remove_child h1 bus dev
                    | none => h1).devs dev with
                | none => none
                | some D2 =>
                  match D2.parent with
                  | some parent =>
                    qdev_property_del_child (match D1.parent_bus with
                      | some bus => bus_remove_child h1 bus dev
                      | none => h1) parent dev
                  | none => some (match D1.parent_bus with
                      | some bus => bus_remove_child h1 bus dev
                      | none => h1)) = some h' →
            bus_membership h' ∧ alloc_ok h' ∧ unlisted h' dev := by
          intro h1 m1 a1 e1
          cases hD1 : h1.devs dev with
          | none => simp [hD1] at e1
          | some D1 =>
            simp only [hD1] at e1
            have key : ∃ h2, (match D1.parent_bus with
                    | some bus => bus_remove_child h1 bus dev
                    | none => h1) = h2 ∧ bus_membership h2 ∧ alloc_ok h2 ∧ unlisted h2 dev := by
              cases hp : D1.parent_bus with
              | none => exact ⟨h1, rfl, m1, a1, unlisted_of_detached m1 hD1 hp⟩
              | some bus =>
                obtain ⟨r1, r2, r3, _⟩ := bus_remove_child_preserves m1 a1 hD1 hp
                exact ⟨_, rfl, r1, r2, r3⟩
            obtain ⟨h2, eh2, m2, a2, u2⟩ := key
            rw [eh2] at e1
            cases hD2 : h2.devs dev with
            | none => simp [hD2] at e1
            | some D2 =>
              simp only [hD2] at e1
              cases hpar : D2.parent with
              | none =>
                simp only [hpar, Option.some.injEq] at e1
                subst e1
                exact ⟨m2, a2, u2⟩
              | some parent =>
                simp only [hpar] at e1
                have s := qdev_property_del_child_same e1
                exact ⟨same_membership_bus_membership s m2, same_membership_alloc_ok s a2,
                  same_membership_unlisted s u2⟩
        by_cases hs : D.state = QdevLife.DevState.DEV_STATE_INITIALIZED
        · simp only [hs, if_true] at e
          cases hc : free_child_buses n h dev with
          | none => simp [hc] at e
          | some h1 =>
            simp only [hc] at e
            obtain ⟨m1, a1⟩ := ihC h dev h1 m a hc
            exact step1 h1 m1 a1 e
        · simp only [hs, if_false] at e
          exact step1 h m a e
    · intro h dev h' m a e
      rw [free_child_buses] at e
      cases hD : h.devs dev with
      | none => simp [hD] at e
      | some D =>
        simp only [hD] at e
        split at e
        · cases e; exact ⟨m, a⟩
        · cases hcb : D.child_bus with
          | nil => simp [hcb] at e
          | cons bus rest =>
            simp only [hcb] at e
            cases hq : qbus_free n h bus with
            | none => simp [hq] at e
            | some h1 =>
              simp only [hq] at e
              obtain ⟨m1, a1⟩ := ihB h bus h1 m a hq
              exact ihC h1 dev h' m1 a1 e
    · intro h dev h' m a e
      rw [qdev_free] at e
      cases hf : device_finalize n h dev with
      | none => simp [hf] at e
      | some h1 =>
        simp only [hf, Option.some.injEq] at e
        subst e
        obtain ⟨m1, a1, u1⟩ := ihF h dev h1 m a hf
        exact set_dev_none_preserves m1 a1 u1
    · intro h bus h' m a e
      rw [qbus_free] at e
      cases hB : h.buses bus with
      | none => simp [hB] at e
      | some B =>
        simp only [hB] at e
        cases hk : B.children with
        | cons kid rest =>
          simp only [hk] at e
          cases hq : qdev_free n h kid.child with
          | none => simp [hq] at e
          | some h1 =>
            simp only [hq] at e
            obtain ⟨m1, a1⟩ := ihD h kid.child h1 m a hq
            exact ihB h1 bus h' m1 a1 e
        | nil =>
          simp only [hk] at e
          have fin : ∀ h1, bus_membership h1 → alloc_ok h1 →
              bus_membership (if B.qdev_allocated ≠ 0 then set_bus h1 bus none else h1) ∧
              alloc_ok (if B.qdev_allocated ≠ 0 then set_bus h1 bus none else h1) := by
            intro h1 m1 a1
            split
            · exact set_bus_none_preserves m1 a1
            · exact ⟨m1, a1⟩
          cases hp : B.parent with
          | none =>
            simp only [hp] at e
            by_cases hmain : h.main_system_bus = some bus
            · simp [hmain] at e
            · simp only [hmain, if_false, Option.some.injEq] at e
              subst e
              exact fin h m a
          | some parent =>
            simp only [hp] at e
            cases hP : h.devs parent with
            | none => simp [hP] at e
            | some P =>
              simp only [hP, Option.some.injEq] at e
              subst e
              have s : same_membership h (set_dev h parent (some { P with
                  child_bus := P.child_bus.erase bus,
                  num_child_bus := P.num_child_bus - 1 })) :=
                same_membership_set_dev hP rfl
              exact fin _ (same_membership_bus_membership s m) (same_membership_alloc_ok s a)

theorem sysbus_get_default_preserves {h : Heap} {dev : Nat}
    (m : bus_membership h) (a : alloc_ok h) (u : unlisted h dev) :
    bus_membership (sysbus_get_default h).2 ∧ alloc_ok (sysbus_get_default h).2 ∧
    unlisted (sysbus_get_default h).2 dev := by
  unfold sysbus_get_default
  cases hm : h.main_system_bus with
  | some b0 => exact ⟨m, a, u⟩
  | none =>
    refine ⟨?_, ⟨a.1, fun b hb => ?_⟩, ?_⟩
    · intro b B hB
      replace hB : (if b = h.next_bus then _ else h.buses b) = some B := hB
      by_cases hb : b = h.next_bus
      · simp only [hb, if_true, Option.some.injEq] at hB
        subst hB
        simp
      · simp only [hb, if_false] at hB
        exact m b B hB
    · have hb2 : h.next_bus + 1 ≤ b := hb
      show (if b = h.next_bus then _ else h.buses b) = none
      rw [if_neg (by omega)]
      exact a.2 b (by omega)
    · intro b B hB kid hk
      replace hB : (if b = h.next_bus then _ else h.buses b) = some B := hB
      by_cases hb : b = h.next_bus
      · simp only [hb, if_true, Option.some.injEq] at hB
        subst hB
        simp at hk
      · simp only [hb, if_false] at hB
        exact u b B hB kid hk

theorem object_new_preserves {h h1 : Heap} {name : Str} {dev : Nat}
    (m : bus_membership h) (a : alloc_ok h) (ho : object_new h name = some (dev, h1)) :
    bus_membership h1 ∧ alloc_ok h1 ∧ unlisted h1 dev := by
  unfold object_new at ho
  cases ht : h.types name with
  | none => simp [ht] at ho
  | some props =>
    simp only [ht, Option.some.injEq, Prod.mk.injEq] at ho
    obtain ⟨hdev, hh1⟩ := ho
    subst hh1
    subst hdev
    have dead : h.devs h.next_dev = none := a.1 _ (le_refl _)
    have u : unlisted h h.next_dev := unlisted_of_dead m dead
    refine ⟨?_, ⟨fun d hd => ?_, fun b hb => ?_⟩, ?_⟩
    · intro b B hB
      replace hB : h.buses b = some B := hB
      obtain ⟨k1, k2⟩ := m b B hB
      refine ⟨fun kid hk => ?_, k2⟩
      obtain ⟨D0, hD0, hp0⟩ := k1 kid hk
      refine ⟨D0, ?_, hp0⟩
      show (if kid.child = h.next_dev then _ else h.devs kid.child) = _
      rw [if_neg (u b B hB kid hk)]
      exact hD0
    · have hd2 : h.next_dev + 1 ≤ d := hd
      show (if d = h.next_dev then _ else h.devs d) = none
      rw [if_neg (by omega)]
      exact a.1 d (by omega)
    · exact a.2 b hb
    · intro b B hB kid hk
      exact u b B hB kid hk

theorem qdev_try_create_preserves {h h' : Heap} {bus : Option Nat} {name : Str} {r : Option Nat}
    (m : bus_membership h) (a : alloc_ok h)
    (e : qdev_try_create h bus name = some (r, h')) :
    bus_membership h' ∧ alloc_ok h' := by
  unfold qdev_try_create at e
  cases ho : object_new h name with
  | none =>
    simp only [ho, Option.some.injEq, Prod.mk.injEq] at e
    obtain ⟨_, rfl⟩ := e
    exact ⟨m, a⟩
  | some p =>
    obtain ⟨dev, h1⟩ := p
    simp only [ho] at e
    obtain ⟨m1, a1, u1⟩ := object_new_preserves m a ho
    have key : ∀ (bh : Nat × Heap), bus_membership bh.2 → alloc_ok bh.2 → unlisted bh.2 dev →
        (match qdev_set_parent_bus bh.2 dev bh.1 with
          | none => none
          | some h3 => some (some dev, h3)) = some (r, h') →
        bus_membership h' ∧ alloc_ok h' := by
      intro bh mb ab ub eb
      cases hs : qdev_set_parent_bus bh.2 dev bh.1 with
      | none => simp [hs] at eb
      | some h3 =>
        simp only [hs, Option.some.injEq, Prod.mk.injEq] at eb
        obtain ⟨_, rfl⟩ := eb
        exact qdev_set_parent_bus_preserves mb ab ub hs
    cases bus with
    | some b => exact key (b, h1) m1 a1 u1 e
    | none =>
      obtain ⟨m2, a2, u2⟩ := sysbus_get_default_preserves m1 a1 u1
      exact key (sysbus_get_default h1) m2 a2 u2 e

theorem bus_step_preserves {h h' : Heap} {op : BusOp}
    (m : bus_membership h) (a : alloc_ok h) (d : attaches_detached h op = true)
    (e : bus_step h op = some h') : bus_membership h' ∧ alloc_ok h' := by
  cases op with
  | create bus name =>
    simp only [bus_step] at e
    cases hc : qdev_try_create h bus name with
    | none => simp [hc] at e
    | some p =>
      obtain ⟨r, h1⟩ := p
      simp only [hc, Option.map_some', Option.some.injEq] at e
      subst e
      exact qdev_try_create_preserves m a hc
  | set_parent_bus dev bus =>
    simp only [bus_step] at e
    simp only [attaches_detached] at d
    cases hD : h.devs dev with
    | none => simp [hD] at d
    | some D =>
      simp only [hD, beq_iff_eq] at d
      exact qdev_set_parent_bus_preserves m a (unlisted_of_detached m hD d) e
  | free fuel dev =>
    simp only [bus_step] at e
    exact (finalize_preserves fuel).2.2.1 h dev h' m a e

theorem bus_run_preserves (ops : List BusOp) : ∀ (h h' : Heap),
    bus_membership h → alloc_ok h → detached_run h ops = true →
    bus_run h ops = some h' → bus_membership h' ∧ alloc_ok h' := by
  induction ops with
  | nil =>
    intro h h' m a _ e
    simp only [bus_run, Option.some.injEq] at e
    subst e
    exact ⟨m, a⟩
  | cons op ops ih =>
    intro h h' m a d e
    simp only [bus_run] at e
    simp only [detached_run, Bool.and_eq_true] at d
    cases hs : bus_step h op with
    | none => simp [hs] at e
    | some h1 =>
      simp only [hs] at e d
      obtain ⟨m1, a1⟩ := bus_step_preserves m a d.1 hs
      exact ih h1 h' m1 a1 d.2 e

/-- C21 (counterexample): `qdev_set_parent_bus` has no guard.  Creating a device
on the default bus with `qdev_try_create` and attaching it to that bus once
more leaves the device twice in the bus's child list, so the reachable state
violates the bus-membership property. -/
theorem bus_membership_double_attach_counterexample :
    ∃ h', double_attach = some h' ∧
      (h'.buses 0).map (fun B => B.children.map (fun kid => kid.child)) = some [0, 0] ∧
      ¬ bus_membership h' := by
  have hs : double_attach.isSome = true := by decide
  have hl : double_attach.map (fun h' =>
      (h'.buses 0).map (fun B => B.children.map (fun kid => kid.child))) = some (some [0, 0]) := by
    decide
  cases hr : double_attach with
  | none => rw [hr] at hs; cases hs
  | some h' =>
    rw [hr] at hl
    simp only [Option.map_some', Option.some.injEq] at hl
    refine ⟨h', rfl, hl, fun m => ?_⟩
    cases hB : h'.buses 0 with
    | none => rw [hB] at hl; cases hl
    | some B =>
      rw [hB] at hl
      simp only [Option.map_some', Option.some.injEq] at hl
      have hn := (m 0 B hB).2
      rw [hl] at hn
      exact absurd hn (by decide)

/-- C21 (amended): from any heap that satisfies the bus-membership property (with
the allocator ahead of the live addresses), every run of `qdev_try_create`,
`qdev_set_parent_bus` and `qdev_free` in which `qdev_set_parent_bus` is applied
only to live devices whose `parent_bus` is NULL ends in a heap where every
entry of a bus's child list is a live device whose `parent_bus` is that bus, no
device is twice in one list, and no device is in the lists of two buses. -/
theorem bus_membership_detached_runs (h h' : Heap) (ops : List BusOp)
    (m : bus_membership h) (a : alloc_ok h) (d : detached_run h ops = true)
    (e : bus_run h ops = some h') :
    bus_membership h' ∧
    ∀ b1 B1 b2 B2 k1 k2, h'.buses b1 = some B1 → h'.buses b2 = some B2 →
      k1 ∈ B1.children → k2 ∈ B2.children → k1.child = k2.child → b1 = b2 := by
  obtain ⟨m', _⟩ := bus_run_preserves ops h h' m a d e
  refine ⟨m', ?_⟩
  intro b1 B1 b2 B2 k1 k2 h1 h2 hk1 hk2 hc
  obtain ⟨D1, hD1, hp1⟩ := (m' b1 B1 h1).1 k1 hk1
  obtain ⟨D2, hD2, hp2⟩ := (m' b2 B2 h2).1 k2 hk2
  rw [hc, hD2] at hD1
  cases hD1
  rw [hp2] at hp1
  exact (Option.some.inj hp1).symm

theorem detached_heap_membership : bus_membership detached_heap ∧ alloc_ok detached_heap := by
  refine ⟨?_, ?_, ?_⟩
  · intro b B hB
    replace hB : (if b = 0 then _ else none) = some B := hB
    by_cases hb : b = 0
    · simp only [hb, if_true, Option.some.injEq] at hB
      subst hB
      simp
    · simp [hb] at hB
  · intro d hd
    have hd2 : 1 ≤ d := hd
    show (if d = 0 then _ else none) = none
    rw [if_neg (by omega)]
  · intro b hb
    have hb2 : 1 ≤ b := hb
    show (if b = 0 then _ else none) = none
    rw [if_neg (by omega)]

/-- C21 (witness): the amended statement at a heap with one detached device, which
is attached, joined by a second device and then freed. -/
theorem bus_membership_detached_runs_witness :
    ∃ h', bus_run detached_heap detached_ops = some h' ∧ bus_membership h' ∧
      (h'.buses 0).map (fun B => B.children.map (fun kid => kid.child)) = some [1] := by
  have hs : (bus_run detached_heap detached_ops).isSome = true := by decide
  have hl : (bus_run detached_heap detached_ops).map (fun h' =>
      (h'.buses 0).map (fun B => B.children.map (fun kid => kid.child))) = some (some [1]) := by
    decide
  cases hr : bus_run detached_heap detached_ops with
  | none => rw [hr] at hs; cases hs
  | some h' =>
    rw [hr] at hl
    simp only [Option.map_some', Option.some.injEq] at hl
    exact ⟨h', rfl,
      (bus_membership_detached_runs detached_heap h' detached_ops detached_heap_membership.1
        detached_heap_membership.2 (by decide) hr).1, hl⟩

/-! ## Child properties -/

theorem qdev_property_find_append_new {D : DeviceState} {name : Str} (p : DeviceProperty)
    (hf : qdev_property_find D name = none) (hp : p.name = name) :
    qdev_property_find { D with properties := D.properties ++ [p] } name = some p := by
  unfold qdev_property_find at hf ⊢
  simp only [List.find?_append, hf, Option.none_or]
  simp [List.find?, hp]

theorem qdev_property_add_child_result (h : Heap) (dev child : Nat) (name : Str)
    (P C : DeviceState) (hP : h.devs dev = some P) (hC : h.devs child = some C)
    (hpar : C.parent = none) :
    ∃ h' err, qdev_property_add_child h dev name child = some (h', err) ∧
      (err = none ↔ qdev_property_find P name = none) ∧
      (∃ C', h'.devs child = some C' ∧ C'.parent = some dev ∧ C'.ref = C.ref + 1) ∧
      (∀ i, i ≠ child → (h'.devs i).map (fun D => (D.parent, D.ref)) =
        (h.devs i).map (fun D => (D.parent, D.ref))) ∧
      (∀ i, (h'.devs i).map (fun D => D.properties) =
        if i = dev ∧ qdev_property_find P name = none then
          some (P.properties ++ [child_prop name C.typename child])
        else (h.devs i).map (fun D => D.properties)) := by
  unfold qdev_property_add_child qdev_property_add
  simp only [hC, hP]
  cases hf : qdev_property_find P name with
  | some p0 =>
    simp only [qdev_ref, hC, set_dev_devs, if_true, hpar, ne_eq, not_true_eq_false, if_false]
    refine ⟨_, _, rfl, by simp, ?_, ?_, ?_⟩
    · simp only [set_dev_devs, if_true]
      exact ⟨_, rfl, rfl, rfl⟩
    · intro i hi
      simp [hi]
    · intro i
      by_cases hi : i = child
      · subst hi; simp [hC]
      · simp [hi]
  | none =>
    by_cases hdc : child = dev
    · subst hdc
      rw [hP] at hC
      cases hC
      simp only [qdev_ref, set_dev_devs, if_true, hpar, ne_eq, not_true_eq_false, if_false]
      refine ⟨_, _, rfl, by simp, ?_, ?_, ?_⟩
      · simp only [set_dev_devs, if_true]
        exact ⟨_, rfl, rfl, rfl⟩
      · intro i hi
        simp [hi]
      · intro i
        by_cases hi : i = child
        · subst hi; simp [child_prop]
        · simp [hi]
    · have hcd : ¬ dev = child := fun e => hdc e.symm
      simp only [qdev_ref, set_dev_devs, hdc, if_false, hC, if_true, hpar, ne_eq,
        not_true_eq_false]
      refine ⟨_, _, rfl, by simp, ?_, ?_, ?_⟩
      · simp only [set_dev_devs, if_true]
        exact ⟨_, rfl, rfl, rfl⟩
      · intro i hi
        by_cases hid : i = dev
        · subst hid; simp [hi, hP]
        · simp [hi, hid]
      · intro i
        by_cases hi : i = child
        · subst hi; simp [hC, hdc]
        · by_cases hid : i = dev
          · subst hid; simp [hi, child_prop]
          · simp [hi, hid]

theorem qdev_property_add_child_assert (h : Heap) (dev child : Nat) (name : Str)
    (P C : DeviceState) (hP : h.devs dev = some P) (hC : h.devs child = some C)
    (hpar : C.parent ≠ none) : qdev_property_add_child h dev name child = none := by
  unfold qdev_property_add_child qdev_property_add
  simp only [hC, hP]
  cases hf : qdev_property_find P name with
  | some p0 => simp [qdev_ref, hC, hpar]
  | none =>
    by_cases hdc : child = dev
    · subst hdc
      rw [hP] at hC
      cases hC
      simp [qdev_ref, hpar]
    · simp [qdev_ref, hdc, hC, hpar]

theorem child_refs_ok_old {h h' : Heap} {child : Nat} {C : DeviceState}
    (hC : h.devs child = some C) (hpar : C.parent = none)
    (hother : ∀ i, i ≠ child → (h'.devs i).map (fun D => (D.parent, D.ref)) =
      (h.devs i).map (fun D => (D.parent, D.ref)))
    (hinv : child_refs_ok h) {p : Nat} {P0 : DeviceState} (hP0 : h.devs p = some P0)
    {prop : DeviceProperty} (hprop : prop ∈ P0.properties)
    (hch : strstart prop.type_ "child<".toList = true) :
    ∃ C0, h'.devs prop.ptr = some C0 ∧ C0.parent = some p ∧ 1 ≤ C0.ref := by
  obtain ⟨C0, hC0, hp0, hr0⟩ := hinv p P0 hP0 prop hprop hch
  have hne : prop.ptr ≠ child := by
    intro e
    rw [e, hC] at hC0
    cases hC0
    rw [hpar] at hp0
    cases hp0
  have e := hother prop.ptr hne
  rw [hC0] at e
  cases hC0' : h'.devs prop.ptr with
  | none => rw [hC0'] at e; cases e
  | some C0' =>
    rw [hC0'] at e
    simp only [Option.map_some', Option.some.injEq, Prod.mk.injEq] at e
    exact ⟨C0', rfl, e.1.trans hp0, by rw [e.2]; exact hr0⟩

theorem qdev_property_add_child_duplicate (h : Heap) (dev child : Nat) (name : Str)
    (P C : DeviceState) (p0 : DeviceProperty) (hP : h.devs dev = some P)
    (hC : h.devs child = some C) (hpar : C.parent = none)
    (hf : qdev_property_find P name = some p0) :
    ∃ h', qdev_property_add_child h dev name child =
      some (h', some (QError.DUPLICATE_PROPERTY name)) := by
  unfold qdev_property_add_child qdev_property_add
  simp only [hC, hP, hf, qdev_ref, set_dev_devs, if_true, hpar, ne_eq, not_true_eq_false,
    if_false]
  exact ⟨_, rfl⟩

/-- C22, as stated, fails: the root of the sample heap already has a property
called `kbd`, and the device at address 1 has no parent.  The call
`qdev_property_add_child(root, "kbd", device 1)` returns with the error
DUPLICATE_PROPERTY; the root keeps its one old property, a `string` property,
so it has no `child<i8042>` property with target 1, although the parent pointer
of device 1 is now the root and its refcount went from 0 to 1. -/
theorem qdev_property_add_child_duplicate_counterexample :
    (dup_heap.devs 1).map (fun D => (D.parent, D.ref)) = some (none, 0) ∧
    (dup_heap.devs 0).map (fun D => D.properties.map (fun p => (p.name, p.type_, p.ptr))) =
      some [("kbd".toList, "string".toList, 0)] ∧
    (qdev_property_add_child dup_heap 0 "kbd".toList 1).map (fun r => r.2) =
      some (some (QError.DUPLICATE_PROPERTY "kbd".toList)) ∧
    (qdev_property_add_child dup_heap 0 "kbd".toList 1).map
      (fun r => (r.1.devs 1).map (fun D => (D.parent, D.ref))) = some (some (some 0, 1)) ∧
    (qdev_property_add_child dup_heap 0 "kbd".toList 1).map
      (fun r => (r.1.devs 0).map (fun D => D.properties.map (fun p => (p.name, p.type_, p.ptr))))
      = some (some [("kbd".toList, "string".toList, 0)]) ∧
    (qdev_property_add_child dup_heap 0 "kbd".toList 1).map
      (fun r => (r.1.devs 0).map (fun D => D.properties.any
        (fun p => strstart p.type_ "child<".toList && p.ptr == 1))) = some (some false) := by
  refine ⟨by decide, by decide, by decide, by decide, by decide, by decide⟩

/-- C22, amended: `qdev_property_add_child(dev, name, child)` on valid pointers.
If the child already has a parent the assertion fails and the function does not
return.  If the child's parent pointer is NULL the function returns, the
child's parent is `dev`, its refcount is one higher, and the release hook of a
`child<` property lowers it by one again.  When `dev` has no property called
`name` yet, no error is set and `dev` has the property `name` with tag
`child<T>` (T the child's type name), target `child` and that release hook.
When `dev` already has a property called `name`, the error DUPLICATE_PROPERTY
is set and the properties of `dev` are left as they were.  In both cases, when
the child's refcount was not negative and every `child<` property of the heap
had a live target with the owner as parent and a refcount of at least 1, the
same holds afterwards. -/
theorem qdev_property_add_child_contract (h : Heap) (dev child : Nat) (name : Str)
    (P C : DeviceState) (hP : h.devs dev = some P) (hC : h.devs child = some C) :
    (C.parent ≠ none → qdev_property_add_child h dev name child = none) ∧
    (C.parent = none →
      ∃ h' err, qdev_property_add_child h dev name child = some (h', err) ∧
        (∃ C', h'.devs child = some C' ∧ C'.parent = some dev ∧ C'.ref = C.ref + 1 ∧
          (run_release h' (some Release.child) child).devs child =
            some { C' with ref := C'.ref - 1 }) ∧
        (qdev_property_find P name = none →
          err = none ∧
          ∃ P', h'.devs dev = some P' ∧
            P'.properties = P.properties ++ [child_prop name C.typename child] ∧
            qdev_property_find P' name = some (child_prop name C.typename child)) ∧
        (∀ p0, qdev_property_find P name = some p0 →
          err = some (QError.DUPLICATE_PROPERTY name) ∧
          (h'.devs dev).map (fun D => D.properties) = some P.properties) ∧
        (0 ≤ C.ref → child_refs_ok h → child_refs_ok h')) := by
  refine ⟨qdev_property_add_child_assert h dev child name P C hP hC, fun hpar => ?_⟩
  obtain ⟨h', err, e, herr, ⟨C', hC', hp, hr⟩, hother, hprops⟩ :=
    qdev_property_add_child_result h dev child name P C hP hC hpar
  refine ⟨h', err, e, ⟨C', hC', hp, hr, ?_⟩, ?_, ?_, ?_⟩
  · simp [run_release, qdev_unref, hC']
  · intro hf
    refine ⟨herr.2 hf, ?_⟩
    have e1 := hprops dev
    simp only [hf, and_self, if_true] at e1
    cases hP' : h'.devs dev with
    | none => rw [hP'] at e1; cases e1
    | some P' =>
      rw [hP'] at e1
      simp only [Option.map_some', Option.some.injEq] at e1
      refine ⟨P', rfl, e1, ?_⟩
      have hf2 := qdev_property_find_append_new (D := P) (child_prop name C.typename child) hf rfl
      unfold qdev_property_find at hf2 ⊢
      rw [e1]
      exact hf2
  · intro p0 hf
    obtain ⟨h2, e2⟩ := qdev_property_add_child_duplicate h dev child name P C p0 hP hC hpar hf
    rw [e2] at e
    simp only [Option.some.injEq, Prod.mk.injEq] at e
    refine ⟨e.2.symm, ?_⟩
    have e1 := hprops dev
    simp only [hf, and_false, if_false, hP, Option.map_some', reduceCtorEq] at e1
    exact e1
  · intro hr0 hinv p Pp hPp prop hprop hch
    have e1 := hprops p
    rw [hPp] at e1
    simp only [Option.map_some'] at e1
    by_cases hcase : p = dev ∧ qdev_property_find P name = none
    · simp only [hcase, and_self, if_true, Option.some.injEq] at e1
      rw [e1] at hprop
      rcases List.mem_append.1 hprop with hold | hnew
      · obtain ⟨hpd, _⟩ := hcase
        subst hpd
        exact child_refs_ok_old hC hpar hother hinv hP hold hch
      · simp only [List.mem_singleton] at hnew
        subst hnew
        refine ⟨C', hC', by rw [hp, hcase.1], ?_⟩
        rw [hr]
        omega
    · simp only [hcase, if_false] at e1
      cases hP0 : h.devs p with
      | none => rw [hP0] at e1; cases e1
      | some P0 =>
        rw [hP0] at e1
        simp only [Option.map_some', Option.some.injEq] at e1
        rw [e1] at hprop
        exact child_refs_ok_old hC hpar hother hinv hP0 hprop hch

/-- C22 (witness): the orphan `i8042` device becomes the child `kbd` of the
root, which had no property of that name: no error, and the root then has the
one property `kbd`, tagged `child<i8042>`, with target 1. -/
theorem qdev_property_add_child_contract_witness :
    (pair_heap.devs 0 = some (plain_device "container".toList) ∧
      pair_heap.devs 1 = some (plain_device "i8042".toList) ∧
      (plain_device "i8042".toList).parent = none ∧
      qdev_property_find (plain_device "container".toList) "kbd".toList = none) ∧
    ∃ h' P', qdev_property_add_child pair_heap 0 "kbd".toList 1 = some (h', none) ∧
      (h'.devs 1).map (fun D => (D.parent, D.ref)) = some (some 0, 1) ∧
      h'.devs 0 = some P' ∧
      P'.properties = [child_prop "kbd".toList "i8042".toList 1] ∧
      (child_prop "kbd".toList "i8042".toList 1).type_ = "child<i8042>".toList := by
  refine ⟨⟨rfl, rfl, rfl, rfl⟩, ?_⟩
  obtain ⟨h', err, e, ⟨C', hC', hp, hr, _⟩, hnew, _⟩ :=
    (qdev_property_add_child_contract pair_heap 0 1 "kbd".toList
      (plain_device "container".toList) (plain_device "i8042".toList) rfl rfl).2 rfl
  obtain ⟨herr, P', hP', hprops, _⟩ := hnew rfl
  subst herr
  refine ⟨h', P', e, ?_, hP', hprops, by decide⟩
  rw [hC']
  simp only [Option.map_some', hp, hr]
  rfl

/-! ## Paths -/

theorem child_tag : "child<".toList = ['c', 'h', 'i', 'l', 'd', '<'] := by decide

theorem link_tag : "link<".toList = ['l', 'i', 'n', 'k', '<'] := by decide

theorem strstart_child_not_link {t : Str} (hc : strstart t "child<".toList = true) :
    strstart t "link<".toList = false := by
  rw [child_tag] at hc
  rw [link_tag]
  cases t with
  | nil => simp [strstart]
  | cons c cs =>
    simp only [strstart, Bool.and_eq_true, beq_iff_eq] at hc
    simp [strstart, hc.1]

theorem find_of_nodup {l : List DeviceProperty} {p : DeviceProperty} (hp : p ∈ l)
    (hn : (l.map (fun q => q.name)).Nodup) :
    l.find? (fun q => q.name = p.name) = some p := by
  induction l with
  | nil => cases hp
  | cons q qs ih =>
    simp only [List.map_cons, List.nodup_cons] at hn
    rcases List.mem_cons.1 hp with rfl | hq
    · simp [List.find?]
    · have hne : q.name ≠ p.name := fun e => hn.1 (e ▸ List.mem_map.2 ⟨p, hq, rfl⟩)
      simp only [List.find?, hne, decide_False]
      exact ih hq hn.2

theorem find_child_property_unique {l : List DeviceProperty} {p : DeviceProperty} (hp : p ∈ l)
    (hc : strstart p.type_ "child<".toList = true)
    (hu : ∀ p1 ∈ l, ∀ p2 ∈ l, strstart p1.type_ "child<".toList = true →
      strstart p2.type_ "child<".toList = true → p1.ptr = p2.ptr → p1 = p2) :
    find_child_property l p.ptr = some p := by
  unfold find_child_property
  cases hf : l.find? (fun q => strstart q.type_ "child<".toList && q.ptr == p.ptr) with
  | none =>
    have := List.find?_eq_none.1 hf p hp
    simp only [Bool.and_eq_true, beq_iff_eq, not_and] at this
    exact absurd trivial (this hc)
  | some q =>
    have hq := List.find?_some hf
    have hm := List.mem_of_find?_eq_some hf
    simp only [Bool.and_eq_true, beq_iff_eq] at hq
    rw [hu q hm p hp hq.1 hc hq.2]

theorem split_slash_ne_nil (s : Str) : split_slash s ≠ [] := by
  cases s with
  | nil => simp [split_slash]
  | cons c cs =>
    simp only [split_slash]
    split
    · simp
    · split <;> simp

theorem split_slash_no_slash {n : Str} (hn : '/' ∉ n) : split_slash n = [n] := by
  induction n with
  | nil => rfl
  | cons c cs ih =>
    simp only [List.mem_cons, not_or] at hn
    have hc : c ≠ '/' := fun e => hn.1 e.symm
    simp [split_slash, hc, ih hn.2]

theorem split_slash_append {n : Str} (hn : '/' ∉ n) (s : Str) :
    split_slash (n ++ '/' :: s) = n :: split_slash s := by
  induction n with
  | nil => simp [split_slash]
  | cons c cs ih =>
    simp only [List.mem_cons, not_or] at hn
    have hc : c ≠ '/' := fun e => hn.1 e.symm
    simp [split_slash, hc, ih hn.2]

theorem split_slash_join_path {names : List Str} (hne : names ≠ [])
    (hs : ∀ n ∈ names, '/' ∉ n) : split_slash (join_path names) = names := by
  induction names with
  | nil => exact absurd rfl hne
  | cons n ns ih =>
    cases ns with
    | nil => exact split_slash_no_slash (hs n (List.mem_cons_self _ _))
    | cons m ms =>
      simp only [join_path]
      rw [split_slash_append (hs n (List.mem_cons_self _ _))]
      rw [ih (by simp) (fun x hx => hs x (List.mem_cons_of_mem _ hx))]

theorem child_chain_names {h : Heap} {names : List Str} : ∀ {a d : Nat},
    child_chain h a names d → ∀ n ∈ names, n ≠ [] ∧ '/' ∉ n := by
  induction names with
  | nil => intro a d _ n hn; cases hn
  | cons m ms ih =>
    intro a d hc n hn
    obtain ⟨A, p, _, _, _, _, _, h1, h2, hrest⟩ := hc
    rcases List.mem_cons.1 hn with rfl | hn
    · exact ⟨h1, h2⟩
    · exact ih hrest n hn

theorem resolve_abs_parts_chain {h : Heap} {names : List Str} : ∀ {a d : Nat},
    child_chain h a names d → ∀ rest, resolve_abs_parts h a (names ++ rest) =
      resolve_abs_parts h d rest := by
  induction names with
  | nil =>
    intro a d hc rest
    have : a = d := hc
    subst this
    rfl
  | cons n ns ih =>
    intro a d hc rest
    obtain ⟨A, p, hA, hp, hn, hch, hnd, h1, _, hrest⟩ := hc
    have hf : qdev_property_find A n = some p := by
      unfold qdev_property_find
      rw [← hn]
      exact find_of_nodup hp hnd
    simp only [List.cons_append, resolve_abs_parts, h1, if_false, hA, hf,
      strstart_child_not_link hch, hch, if_true, Bool.false_eq_true]
    exact ih hrest rest

theorem canonical_loop_chain {h : Heap} (wf : child_tree_ok h) {names : List Str} :
    ∀ {a d : Nat}, child_chain h a names d → ∀ (fuel : Nat) (path : Option Str),
      canonical_loop (fuel + names.length) h d path =
        canonical_loop fuel h a (prepend_path names path) := by
  induction names with
  | nil =>
    intro a d hc fuel path
    have : a = d := hc
    subst this
    rfl
  | cons n ns ih =>
    intro a d hc fuel path
    obtain ⟨A, p, hA, hp, hn, hch, hnd, _, _, hrest⟩ := hc
    have e1 := ih hrest (fuel + 1) path
    rw [show fuel + (n :: ns).length = fuel + 1 + ns.length by simp; omega, e1]
    obtain ⟨⟨R, hR, hRp⟩, wf2⟩ := wf
    obtain ⟨wA1, wA2⟩ := wf2 a A hA
    obtain ⟨C, hC, hCp⟩ : ∃ C, h.devs p.ptr = some C ∧ C.parent = some a := by
      have e := wA1 p hp hch
      cases hC : h.devs p.ptr with
      | none => rw [hC] at e; cases e
      | some C =>
        rw [hC] at e
        simp only [Option.map_some', Option.some.injEq] at e
        exact ⟨C, rfl, e⟩
    have hroot : p.ptr ≠ h.root := by
      intro e
      rw [e, hR] at hC
      cases hC
      rw [hRp] at hCp
      cases hCp
    have hfc := find_child_property_unique hp hch wA2
    simp only [canonical_loop, hroot, if_false, hC, hCp, hA, hfc, hn]
    rfl

theorem prepend_path_none (n : Str) (ns : List Str) :
    prepend_path (n :: ns) none = some (join_path (n :: ns)) := by
  induction ns generalizing n with
  | nil => rfl
  | cons m ms ih =>
    have e : prepend_path (n :: m :: ms) none =
        some (match prepend_path (m :: ms) none with
          | some p => n ++ '/' :: p
          | none => n) := rfl
    rw [e, ih m]
    rfl

theorem g_strsplit_canonical {names : List Str} (hne : names ≠ [])
    (hs : ∀ n ∈ names, '/' ∉ n) : g_strsplit ('/' :: join_path names) = [] :: names := by
  unfold g_strsplit
  simp only [List.cons_ne_nil, if_false, reduceCtorEq]
  simp only [split_slash, if_true]
  rw [split_slash_join_path hne hs]

/-- C23: in a heap that satisfies the composition-tree invariant, let D be
reached from the root by a non-empty chain of `child<` properties whose names
are unique per owner, non-empty and without `/`.  With fuel above the length
of the chain, `qdev_get_canonical_path(D)` returns `/` followed by the names
joined by `/`, and `qdev_resolve_path` applied to that string returns D and
leaves the ambiguous flag alone. -/
theorem canonical_path_round_trip (h : Heap) (names : List Str) (D : Nat) (amb : Option Bool)
    (wf : child_tree_ok h) (hc : child_chain h h.root names D) (hne : names ≠ []) :
    ∀ fuel, names.length < fuel →
      qdev_get_canonical_path fuel h D = some ('/' :: join_path names) ∧
      qdev_resolve_path fuel h ('/' :: join_path names) amb = some (some D, amb) := by
  intro fuel hfuel
  have hs : ∀ n ∈ names, '/' ∉ n := fun n hn => (child_chain_names hc n hn).2
  refine ⟨?_, ?_⟩
  · unfold qdev_get_canonical_path
    obtain ⟨k, rfl⟩ : ∃ k, fuel = (k + 1) + names.length := ⟨fuel - names.length - 1, by omega⟩
    rw [canonical_loop_chain wf hc (k + 1) none]
    cases names with
    | nil => exact absurd rfl hne
    | cons n ns =>
      rw [prepend_path_none]
      simp [canonical_loop]
  · unfold qdev_resolve_path
    rw [g_strsplit_canonical hne hs]
    simp only [if_true]
    unfold qdev_resolve_abs_path
    have e := resolve_abs_parts_chain hc []
    simp only [List.append_nil] at e
    simp only [List.drop_succ_cons, List.drop_zero, e, resolve_abs_parts]

theorem tree_heap_ok : child_tree_ok tree_heap := by
  refine ⟨⟨_, rfl, rfl⟩, ?_⟩
  intro p P hP
  have hp5 : p < 5 := by
    by_contra hge
    have : tree_heap.devs p = none := by
      show (if p = 0 then _ else if p = 1 then _ else if p = 2 then _ else if p = 3 then _
        else if p = 4 then _ else none) = none
      rw [if_neg (by omega), if_neg (by omega), if_neg (by omega), if_neg (by omega),
        if_neg (by omega)]
    rw [this] at hP
    cases hP
  interval_cases p
  all_goals
    simp only [tree_heap] at hP
    simp only [OfNat.ofNat_ne_zero, OfNat.ofNat_ne_one, if_true, if_false, one_ne_zero,
      Nat.reduceEqDiff, Option.some.injEq] at hP
    subst hP
    decide

theorem tree_heap_chain : child_chain tree_heap tree_heap.root ["a".toList, "a".toList] 2 :=
  ⟨_, child_prop "a".toList "i8042".toList 1, rfl, by decide, rfl, by decide, by decide,
    by decide, by decide,
    _, child_prop "a".toList "i8042".toList 2, rfl, by decide, rfl, by decide, by decide,
    by decide, by decide, rfl⟩

/-- C23 (witness): device 2 of the sample tree has the canonical path `/a/a`,
which resolves back to it. -/
theorem canonical_path_round_trip_witness :
    qdev_get_canonical_path 3 tree_heap 2 = some "/a/a".toList ∧
    qdev_resolve_path 3 tree_heap "/a/a".toList (some false) = some (some 2, some false) :=
  canonical_path_round_trip tree_heap ["a".toList, "a".toList] 2 (some false) tree_heap_ok
    tree_heap_chain (by decide) 3 (by decide)

/-! ## Partial paths -/

theorem ambiguity_verdict_two (a b : Nat) (l : List Nat) :
    ambiguity_verdict (a :: b :: l) = (none, some true) := rfl

theorem ambiguity_verdict_many {l m : List Nat} (h : 2 ≤ l.length) (pre : List Nat) :
    ambiguity_verdict (pre ++ (l ++ m)) = (none, some true) := by
  match l, h with
  | a :: b :: l, _ =>
    cases pre with
    | nil => rfl
    | cons x xs =>
      cases xs with
      | nil => rfl
      | cons y ys => rfl

theorem partial_loop_spec {rec : Nat → Option Bool → Option (Option Nat × Option Bool)}
    {recm : Nat → Option (List Nat)}
    (hrec : ∀ c mc, recm c = some mc → rec c (some false) = some (ambiguity_verdict mc)) :
    ∀ (props : List DeviceProperty) (dev : Option Nat) (ms : List Nat),
      matches_props recm props = some ms →
      partial_loop rec props dev (some false) = some (ambiguity_verdict (dev.toList ++ ms)) := by
  intro props
  induction props with
  | nil =>
    intro dev ms hm
    simp only [matches_props, Option.some.injEq] at hm
    subst hm
    cases dev <;> rfl
  | cons p ps ih =>
    intro dev ms hm
    simp only [matches_props] at hm
    simp only [partial_loop]
    by_cases hc : strstart p.type_ "child<".toList = true
    · simp only [hc, if_true, not_true_eq_false, if_false] at hm ⊢
      cases hr : recm p.ptr with
      | none => simp [hr] at hm
      | some mc =>
        cases hps : matches_props recm ps with
        | none => simp [hr, hps] at hm
        | some ms' =>
          simp only [hr, hps, Option.some.injEq] at hm
          subst hm
          rw [hrec p.ptr mc hr]
          match mc with
          | [] =>
            simp only [ambiguity_verdict, List.nil_append]
            simp only [Option.some.injEq, Bool.false_eq_true, if_false]
            exact ih dev ms' hps
          | [m] =>
            simp only [ambiguity_verdict]
            cases dev with
            | none =>
              simp only [Option.isSome_none, Bool.false_eq_true, if_false, Option.some.injEq]
              exact ih (some m) ms' hps
            | some d =>
              simp only [Option.isSome_some, if_true, Option.map_some']
              rfl
          | a :: b :: l =>
            rw [ambiguity_verdict_many (l := a :: b :: l) (by simp) dev.toList,
              ambiguity_verdict_two]
            simp only [if_true]
    · simp only [hc, if_false, not_false_eq_true, if_true] at hm ⊢
      exact ih dev ms hm

theorem partial_spec (h : Heap) (parts : List Str) : ∀ (fuel node : Nat) (ms : List Nat),
    resolve_matches fuel h node parts = some ms →
    qdev_resolve_partial_path fuel h node parts (some false) = some (ambiguity_verdict ms) := by
  intro fuel
  induction fuel with
  | zero => intro node ms hm; simp [resolve_matches] at hm
  | succ n ih =>
    intro node ms hm
    simp only [resolve_matches] at hm
    simp only [qdev_resolve_partial_path]
    cases hN : h.devs node with
    | none => simp [hN] at hm
    | some N =>
      simp only [hN] at hm ⊢
      cases hps : matches_props (fun child => resolve_matches n h child parts) N.properties with
      | none => simp [hps] at hm
      | some ms' =>
        simp only [hps, Option.some.injEq] at hm
        subst hm
        exact partial_loop_spec (fun c mc hc => ih c mc hc) N.properties _ ms' hps

theorem matches_props_total {r : Nat → Option (List Nat)} :
    ∀ (props : List DeviceProperty),
      (∀ prop ∈ props, strstart prop.type_ "child<".toList = true →
        (r prop.ptr).isSome = true) →
      (matches_props r props).isSome = true := by
  intro props
  induction props with
  | nil => intro _; rfl
  | cons p ps ih =>
    intro hall
    have hps := ih (fun q hq => hall q (List.mem_cons_of_mem _ hq))
    simp only [matches_props]
    by_cases hc : strstart p.type_ "child<".toList = true
    · have hp := hall p (List.mem_cons_self _ _) hc
      obtain ⟨a, ha⟩ := Option.isSome_iff_exists.1 hp
      obtain ⟨b, hb⟩ := Option.isSome_iff_exists.1 hps
      simp only [hc, ha, hb, if_true]
      rfl
    · simp only [hc, if_false, Bool.false_eq_true]
      exact hps

theorem resolve_matches_total {h : Heap} {rank : Nat → Nat} (hr : child_ranked h rank)
    (parts : List Str) : ∀ (fuel node : Nat), (h.devs node).isSome = true → rank node < fuel →
      (resolve_matches fuel h node parts).isSome = true := by
  intro fuel
  induction fuel with
  | zero => intro node _ hlt; omega
  | succ n ih =>
    intro node hlive hlt
    obtain ⟨N, hN⟩ := Option.isSome_iff_exists.1 hlive
    simp only [resolve_matches, hN]
    have hps := matches_props_total (r := fun child => resolve_matches n h child parts)
      N.properties (fun prop hprop hc => by
        obtain ⟨h1, h2⟩ := hr node N hN prop hprop hc
        exact ih prop.ptr h1 (by omega))
    obtain ⟨ms, hms⟩ := Option.isSome_iff_exists.1 hps
    simp [hms]

theorem qdev_resolve_path_partial {h : Heap} {path part : Str} {parts : List Str}
    (hs : g_strsplit path = part :: parts) (hp : part ≠ []) (fuel : Nat) (a : Bool)
    {ms : List Nat} (hm : resolve_matches fuel h h.root (part :: parts) = some ms) :
    qdev_resolve_path fuel h path (some a) = some (ambiguity_verdict ms) := by
  unfold qdev_resolve_path
  simp only [hs, hp, if_false, Option.map_some']
  exact partial_spec h (part :: parts) fuel h.root ms hm

theorem partial_root_match {h : Heap} {rank : Nat → Nat} {path part : Str} {parts : List Str}
    {M : Nat} (a : Bool) (hr : child_ranked h rank) (hs : g_strsplit path = part :: parts)
    (hp : part ≠ []) (hM : qdev_resolve_abs_path h h.root (part :: parts) 0 = some M)
    (fuel : Nat) (hf : rank h.root < fuel) :
    ∃ rest, resolve_matches fuel h h.root (part :: parts) = some (M :: rest) ∧
      qdev_resolve_path fuel h path (some a) = some (ambiguity_verdict (M :: rest)) := by
  have hlive : (h.devs h.root).isSome = true := by
    cases hR : h.devs h.root with
    | some R => rfl
    | none =>
      simp [qdev_resolve_abs_path, resolve_abs_parts, hp, hR] at hM
  obtain ⟨ms, hms⟩ := Option.isSome_iff_exists.1
    (resolve_matches_total hr (part :: parts) fuel h.root hlive hf)
  have hq := qdev_resolve_path_partial hs hp fuel a hms
  obtain ⟨n, rfl⟩ : ∃ n, fuel = n + 1 := ⟨fuel - 1, by omega⟩
  simp only [resolve_matches] at hms
  obtain ⟨R, hR⟩ := Option.isSome_iff_exists.1 hlive
  simp only [hR] at hms
  cases hps : matches_props (fun child => resolve_matches n h child (part :: parts))
      R.properties with
  | none => simp [hps] at hms
  | some rest =>
    simp only [hps, hM, Option.toList_some, List.singleton_append, Option.some.injEq] at hms
    subst hms
    refine ⟨rest, ?_, hq⟩
    simp only [resolve_matches, hR, hps, hM, Option.toList_some, List.singleton_append]

theorem tree_heap_ranked : child_ranked tree_heap tree_rank := by
  intro p P hP
  have hp5 : p < 5 := by
    by_contra hge
    have : tree_heap.devs p = none := by
      show (if p = 0 then _ else if p = 1 then _ else if p = 2 then _ else if p = 3 then _
        else if p = 4 then _ else none) = none
      rw [if_neg (by omega), if_neg (by omega), if_neg (by omega), if_neg (by omega),
        if_neg (by omega)]
    rw [this] at hP
    cases hP
  interval_cases p
  all_goals
    simp only [tree_heap] at hP
    simp only [OfNat.ofNat_ne_zero, OfNat.ofNat_ne_one, if_true, if_false, one_ne_zero,
      Nat.reduceEqDiff, Option.some.injEq] at hP
    subst hP
    decide

/-- C26: in a finite `child<` tree (a rank decreases along every `child<`
property, targets are live) with a live root, let the path be partial (its
first segment is non-empty) and let `ms` list the matches, one for every node
of the tree from which the path resolves by absolute resolution.  With fuel
above the rank of the root the list exists and `qdev_resolve_path` with a
non-null flag returns: null with the flag true when there are two or more
matches, the single match with the flag false when there is one, and null with
the flag false when there is none. -/
theorem partial_path_ambiguity (h : Heap) (rank : Nat → Nat) (path part : Str)
    (parts : List Str) (a : Bool) (hr : child_ranked h rank)
    (hroot : (h.devs h.root).isSome = true) (hs : g_strsplit path = part :: parts)
    (hp : part ≠ []) :
    ∀ fuel, rank h.root < fuel →
      ∃ ms, resolve_matches fuel h h.root (part :: parts) = some ms ∧
        (2 ≤ ms.length → qdev_resolve_path fuel h path (some a) = some (none, some true)) ∧
        (∀ m, ms = [m] → qdev_resolve_path fuel h path (some a) = some (some m, some false)) ∧
        (ms.length = 0 → qdev_resolve_path fuel h path (some a) = some (none, some false)) := by
  intro fuel hf
  obtain ⟨ms, hms⟩ := Option.isSome_iff_exists.1
    (resolve_matches_total hr (part :: parts) fuel h.root hroot hf)
  have hq := qdev_resolve_path_partial hs hp fuel a hms
  refine ⟨ms, hms, ?_, ?_, ?_⟩
  · intro h2
    match ms, h2 with
    | x :: y :: l, _ => exact hq
  · rintro m rfl
    exact hq
  · intro h0
    match ms, h0 with
    | [], _ => exact hq

/-- C26 (witness): in the sample tree the partial path `a` resolves from the root
and from device 1, so it is ambiguous. -/
theorem partial_path_ambiguity_witness :
    qdev_resolve_path 3 tree_heap "a".toList (some false) = some (none, some true) := by
  obtain ⟨ms, hms, h2, _, _⟩ := partial_path_ambiguity tree_heap tree_rank "a".toList
    "a".toList [] false tree_heap_ranked (by decide) (by decide) (by decide) 3 (by decide)
  have e : resolve_matches 3 tree_heap tree_heap.root ["a".toList] = some [1, 2] := by decide
  rw [e] at hms
  cases hms
  exact h2 (by decide)

/-- C25 (counterexample): in the sample tree the partial path `a` resolves by
absolute resolution from the root to device 1, and also from device 1 to
device 2; `qdev_resolve_path` searches the subtrees all the same and returns
null with the ambiguous flag set, not device 1. -/
theorem partial_path_root_first_counterexample :
    qdev_resolve_abs_path tree_heap tree_heap.root (g_strsplit "a".toList) 0 = some 1 ∧
    qdev_resolve_path 3 tree_heap "a".toList (some false) = some (none, some true) := by
  decide

/-- C25 (amended): in a finite `child<` tree, a partial path that resolves by
absolute resolution from the root to M is answered from the matches of the
whole tree, the subtrees included: `qdev_resolve_path` returns M with the flag
false when no node below the root resolves the path, and null with the flag
true when one does. -/
theorem partial_path_root_match (h : Heap) (rank : Nat → Nat) (path part : Str)
    (parts : List Str) (a : Bool) (M : Nat) (hr : child_ranked h rank)
    (hs : g_strsplit path = part :: parts) (hp : part ≠ [])
    (hM : qdev_resolve_abs_path h h.root (part :: parts) 0 = some M) :
    ∀ fuel, rank h.root < fuel →
      ∃ rest, resolve_matches fuel h h.root (part :: parts) = some (M :: rest) ∧
        (rest = [] → qdev_resolve_path fuel h path (some a) = some (some M, some false)) ∧
        (rest ≠ [] → qdev_resolve_path fuel h path (some a) = some (none, some true)) := by
  intro fuel hf
  obtain ⟨rest, hm, hq⟩ := partial_root_match a hr hs hp hM fuel hf
  refine ⟨rest, hm, ?_, ?_⟩
  · rintro rfl
    exact hq
  · intro hne
    match rest, hne with
    | x :: l, _ => exact hq

/-- C25 (witness): the partial path `b` resolves only from the root, to device 3. -/
theorem partial_path_root_match_witness :
    qdev_resolve_path 3 tree_heap "b".toList (some false) = some (some 3, some false) := by
  obtain ⟨rest, hm, h1, _⟩ := partial_path_root_match tree_heap tree_rank "b".toList
    "b".toList [] false 3 tree_heap_ranked (by decide) (by decide) (by decide) 3 (by decide)
  have e : resolve_matches 3 tree_heap tree_heap.root ["b".toList] = some [3] := by decide
  rw [e] at hm
  simp only [Option.some.injEq, List.cons.injEq, true_and] at hm
  exact h1 hm.symm

theorem join_path_ne_nil {n : Str} (hn : n ≠ []) (ns : List Str) : join_path (n :: ns) ≠ [] := by
  cases ns with
  | nil => exact hn
  | cons m ms =>
    simp only [join_path]
    intro e
    exact hn (List.append_eq_nil.1 e).1

/-- C24 (counterexample): device 1 of the sample tree is not the root and is the
root's child `a`; its canonical path is `/a`, and without the leading `/` the
partial path `a` resolves to null with the ambiguous flag set, because the
path also resolves from device 1 (to its own child `a`). -/
theorem partial_round_trip_counterexample :
    qdev_get_canonical_path 3 tree_heap 1 = some "/a".toList ∧
    qdev_resolve_path 3 tree_heap "a".toList (some false) = some (none, some true) ∧
    resolve_matches 3 tree_heap tree_heap.root ["a".toList] = some [1, 2] := by
  decide

/-- C24 (amended): in a finite `child<` tree that satisfies the composition-tree
invariant, let D be reached from the root by a non-empty chain of `child<`
properties with well-formed names.  Its canonical path is `/` followed by the
joined names; resolving the joined names as a partial path returns D with the
flag false when no other node of the tree resolves that relative path, and
null with the flag true when another node does. -/
theorem partial_round_trip_unique (h : Heap) (rank : Nat → Nat) (names : List Str) (D : Nat)
    (a : Bool) (wf : child_tree_ok h) (hr : child_ranked h rank)
    (hc : child_chain h h.root names D) (hne : names ≠ []) :
    ∀ fuel, rank h.root < fuel → names.length < fuel →
      qdev_get_canonical_path fuel h D = some ('/' :: join_path names) ∧
      ∃ rest, resolve_matches fuel h h.root names = some (D :: rest) ∧
        (rest = [] →
          qdev_resolve_path fuel h (join_path names) (some a) = some (some D, some false)) ∧
        (rest ≠ [] →
          qdev_resolve_path fuel h (join_path names) (some a) = some (none, some true)) := by
  intro fuel hf hl
  have hnames := child_chain_names hc
  refine ⟨?_, ?_⟩
  · unfold qdev_get_canonical_path
    obtain ⟨k, rfl⟩ : ∃ k, fuel = (k + 1) + names.length := ⟨fuel - names.length - 1, by omega⟩
    rw [canonical_loop_chain wf hc (k + 1) none]
    cases names with
    | nil => exact absurd rfl hne
    | cons n ns =>
      rw [prepend_path_none]
      simp [canonical_loop]
  · cases names with
    | nil => exact absurd rfl hne
    | cons n ns =>
      have hn := (hnames n (List.mem_cons_self _ _)).1
      have hs : g_strsplit (join_path (n :: ns)) = n :: ns := by
        unfold g_strsplit
        rw [if_neg (join_path_ne_nil hn ns)]
        exact split_slash_join_path (by simp) (fun x hx => (hnames x hx).2)
      have hM : qdev_resolve_abs_path h h.root (n :: ns) 0 = some D := by
        have e := resolve_abs_parts_chain hc []
        simp only [List.append_nil] at e
        unfold qdev_resolve_abs_path
        rw [List.drop_zero, e]
        rfl
      obtain ⟨rest, hm, hq⟩ := partial_root_match a hr hs hn hM fuel hf
      refine ⟨rest, hm, ?_, ?_⟩
      · rintro rfl
        exact hq
      · intro hne2
        match rest, hne2 with
        | x :: l, _ => exact hq

theorem tree_heap_chain_bc : child_chain tree_heap tree_heap.root ["b".toList, "c".toList] 4 :=
  ⟨_, child_prop "b".toList "serial".toList 3, rfl, by decide, rfl, by decide, by decide,
    by decide, by decide,
    _, child_prop "c".toList "serial".toList 4, rfl, by decide, rfl, by decide, by decide,
    by decide, by decide, rfl⟩

/-- C24 (witness): device 4 of the sample tree has the canonical path `/b/c`, and
the partial path `b/c`, which no other node resolves, leads back to it. -/
theorem partial_round_trip_unique_witness :
    qdev_get_canonical_path 3 tree_heap 4 = some "/b/c".toList ∧
    qdev_resolve_path 3 tree_heap "b/c".toList (some false) = some (some 4, some false) := by
  obtain ⟨hcan, rest, hm, h1, _⟩ := partial_round_trip_unique tree_heap tree_rank
    ["b".toList, "c".toList] 4 false tree_heap_ok tree_heap_ranked tree_heap_chain_bc
    (by decide) 3 (by decide) (by decide)
  have e : resolve_matches 3 tree_heap tree_heap.root ["b".toList, "c".toList] = some [4] := by
    decide
  rw [e] at hm
  simp only [Option.some.injEq, List.cons.injEq, true_and] at hm
  exact ⟨hcan, h1 hm.symm⟩

/-! ## Link properties -/

theorem same_tree_refl (h : Heap) : same_tree h h := ⟨rfl, rfl, fun _ => rfl⟩

theorem same_tree_set_dev {h : Heap} {i : Nat} {D D' : DeviceState}
    (hD : h.devs i = some D) (ht : D'.typename = D.typename)
    (hp : D'.properties = D.properties) : same_tree h (set_dev h i (some D')) := by
  refine ⟨rfl, rfl, fun j => ?_⟩
  by_cases hj : j = i
  · subst hj; simp [hD, ht, hp]
  · simp [hj]

theorem qdev_unref_same_tree (h : Heap) (dev : Nat) : same_tree h (qdev_unref h dev) := by
  unfold qdev_unref
  cases hD : h.devs dev with
  | none => exact same_tree_refl h
  | some D => exact same_tree_set_dev hD rfl rfl

theorem same_tree_dev {h h' : Heap} (s : same_tree h h') (i : Nat) :
    (h.devs i = none ∧ h'.devs i = none) ∨
    ∃ D D', h.devs i = some D ∧ h'.devs i = some D' ∧ D'.typename = D.typename ∧
      D'.properties = D.properties := by
  have e := s.2.2 i
  cases hD : h.devs i with
  | none =>
    cases hD' : h'.devs i with
    | none => exact Or.inl ⟨rfl, rfl⟩
    | some D' => rw [hD, hD'] at e; cases e
  | some D =>
    cases hD' : h'.devs i with
    | none => rw [hD, hD'] at e; cases e
    | some D' =>
      rw [hD, hD'] at e
      simp only [Option.map_some', Option.some.injEq, Prod.mk.injEq] at e
      exact Or.inr ⟨D, D', rfl, rfl, e.1, e.2⟩

theorem resolve_abs_parts_same {h h' : Heap} (s : same_tree h h') (parts : List Str) :
    ∀ parent, resolve_abs_parts h' parent parts = resolve_abs_parts h parent parts := by
  induction parts with
  | nil => intro parent; rfl
  | cons part rest ih =>
    intro parent
    simp only [resolve_abs_parts]
    by_cases hp : part = []
    · simp only [hp, if_true]
      exact ih parent
    · simp only [hp, if_false]
      rcases same_tree_dev s parent with ⟨h1, h2⟩ | ⟨D, D', h1, h2, _, hprops⟩
      · rw [h1, h2]
      · rw [h1, h2]
        simp only [qdev_property_find, hprops, s.1]
        cases List.find? (fun p => decide (p.name = part)) D.properties with
        | none => rfl
        | some prop =>
          simp only
          split
          · rfl
          · exact ih _

theorem partial_loop_congr {r1 r2 : Nat → Option Bool → Option (Option Nat × Option Bool)}
    (hr : ∀ c a, r1 c a = r2 c a) (props : List DeviceProperty) :
    ∀ dev amb, partial_loop r1 props dev amb = partial_loop r2 props dev amb := by
  have : r1 = r2 := funext fun c => funext fun a => hr c a
  subst this
  intro dev amb
  rfl

theorem qdev_resolve_partial_path_same {h h' : Heap} (s : same_tree h h') (parts : List Str) :
    ∀ fuel parent amb, qdev_resolve_partial_path fuel h' parent parts amb =
      qdev_resolve_partial_path fuel h parent parts amb := by
  intro fuel
  induction fuel with
  | zero => intro parent amb; rfl
  | succ n ih =>
    intro parent amb
    simp only [qdev_resolve_partial_path]
    rcases same_tree_dev s parent with ⟨h1, h2⟩ | ⟨D, D', h1, h2, _, hprops⟩
    · rw [h1, h2]
    · rw [h1, h2]
      simp only [hprops, qdev_resolve_abs_path, resolve_abs_parts_same s]
      exact partial_loop_congr (fun c a => ih c a) _ _ _

theorem qdev_resolve_path_same {h h' : Heap} (s : same_tree h h') (fuel : Nat) (path : Str)
    (amb : Option Bool) :
    qdev_resolve_path fuel h' path amb = qdev_resolve_path fuel h path amb := by
  unfold qdev_resolve_path
  cases g_strsplit path with
  | nil => simp only [s.2.1]
  | cons part parts =>
    simp only [s.2.1, qdev_resolve_abs_path, resolve_abs_parts_same s,
      qdev_resolve_partial_path_same s]

theorem link_type_injective {a b : Str} (e : link_type a = link_type b) : a = b := by
  unfold link_type at e
  have e2 := List.append_cancel_left (List.append_assoc _ _ _ ▸ (List.append_assoc _ _ _ ▸ e))
  exact List.append_cancel_right e2

theorem release_old_same_tree (h : Heap) (slot : Nat) :
    same_tree h (match h.slots slot with
      | some old => qdev_unref h old
      | none => h) := by
  cases h.slots slot with
  | none => exact same_tree_refl h
  | some old => exact qdev_unref_same_tree h old

theorem release_old_ref (h : Heap) (slot : Nat) (d : Nat) (D : DeviceState)
    (hD : h.devs d = some D) :
    (match h.slots slot with
      | some old => qdev_unref h old
      | none => h).devs d =
      some { D with ref := D.ref - (if h.slots slot = some d then 1 else 0) } := by
  cases hs : h.slots slot with
  | none => simp [hD]
  | some old =>
    simp only [qdev_unref]
    by_cases ho : old = d
    · subst ho
      simp [hD]
    · have hdo : ¬ d = old := fun e => ho e.symm
      cases hO : h.devs old with
      | none => simp [hD, ho]
      | some Od => simp [hD, ho, hdo]

theorem release_old_slots (h : Heap) (slot : Nat) :
    (match h.slots slot with
      | some old => qdev_unref h old
      | none => h).slots = h.slots := by
  cases h.slots slot with
  | none => rfl
  | some old =>
    simp only [qdev_unref]
    cases h.devs old <;> rfl

/-- C27: `qdev_set_link_property` on a link slot.  If the property is declared
`link<T>` and the non-empty path resolves to a live device B whose type name
is T, no error is set, the slot holds B, B's refcount is one higher, less one
when B was the previous target, and any other previous target has its refcount
lowered by one.  For the empty string, whatever the heap and the property, no
error is set, the slot is null and the previous target has its refcount
lowered by one. -/
theorem qdev_set_link_property_success (fuel : Nat) (h : Heap) (dev slot : Nat) (name : Str) :
    (∀ (B : Nat) (path T : Str) (Bd : DeviceState) (amb : Option Bool),
      qdev_property_get_type h dev name = some (link_type T) →
      path ≠ [] →
      qdev_resolve_path fuel h path (some false) = some (some B, amb) →
      h.devs B = some Bd → Bd.typename = T →
      ∃ h', qdev_set_link_property fuel h dev path slot name = some (h', none) ∧
        h'.slots slot = some B ∧
        ref_of h' B = some (Bd.ref + 1 - (if h.slots slot = some B then 1 else 0)) ∧
        ∀ o Od, h.slots slot = some o → o ≠ B → h.devs o = some Od →
          ref_of h' o = some (Od.ref - 1)) ∧
    (∃ h', qdev_set_link_property fuel h dev [] slot name = some (h', none) ∧
      h'.slots slot = none ∧
      (∀ j, j ≠ slot → h'.slots j = h.slots j) ∧
      ∀ o Od, h.slots slot = some o → h.devs o = some Od →
        ref_of h' o = some (Od.ref - 1)) := by
  refine ⟨?_, ?_⟩
  · intro B path T Bd amb hty hpath hres hB hT
    unfold qdev_set_link_property
    simp only [hty, hpath, ne_eq, not_false_eq_true, if_true]
    rw [qdev_resolve_path_same (release_old_same_tree h slot), hres]
    simp only [release_old_ref h slot B Bd hB, hT, if_true]
    refine ⟨_, rfl, ?_, ?_, ?_⟩
    · simp only [qdev_ref, set_slot_devs]
      rw [release_old_ref h slot B Bd hB]
      simp
    · simp only [ref_of, qdev_ref, set_slot_devs]
      rw [release_old_ref h slot B Bd hB]
      simp only [set_dev_devs, if_true, Option.map_some', Option.some.injEq]
      omega
    · intro o Od ho hne hOd
      simp only [ref_of, qdev_ref, set_slot_devs]
      rw [release_old_ref h slot B Bd hB]
      simp only [set_dev_devs, hne, if_false, set_slot_devs]
      rw [release_old_ref h slot o Od hOd]
      simp [ho]
  · unfold qdev_set_link_property
    simp only [ne_eq, not_true_eq_false, if_false]
    refine ⟨_, rfl, by simp, ?_, ?_⟩
    · intro j hj
      simp only [set_slot, hj, if_false]
      rw [release_old_slots h slot]
    · intro o Od ho hOd
      simp only [ref_of, set_slot_devs]
      rw [release_old_ref h slot o Od hOd]
      simp [ho]

/-- C27 (witness): in the sample tree the link `kbd` of the root holds device 2;
setting it to `/a` stores device 1, whose refcount goes from 1 to 2, and the
refcount of device 2 goes from 2 to 1; setting it to the empty string clears
the slot and the refcount of device 2 goes from 2 to 1. -/
theorem qdev_set_link_property_success_witness :
    (∃ h', qdev_set_link_property 3 tree_heap 0 "/a".toList 0 "kbd".toList = some (h', none) ∧
      h'.slots 0 = some 1 ∧ ref_of h' 1 = some 2 ∧ ref_of h' 2 = some 1) ∧
    (∃ h', qdev_set_link_property 3 tree_heap 0 [] 0 "kbd".toList = some (h', none) ∧
      h'.slots 0 = none ∧ ref_of h' 2 = some 1) := by
  constructor
  · obtain ⟨h', e, hs, hr, ho⟩ := (qdev_set_link_property_success 3 tree_heap 0 0
      "kbd".toList).1 1 "/a".toList "i8042".toList
      { plain_device "i8042".toList with
        parent := some 0, ref := 1, properties := [child_prop "a".toList "i8042".toList 2] }
      (some false) (by decide) (by decide) (by decide) rfl rfl
    refine ⟨h', e, hs, ?_, ?_⟩
    · rw [hr]; decide
    · rw [ho 2 { plain_device "i8042".toList with parent := some 1, ref := 2 } rfl
        (by decide) rfl]
      decide
  · obtain ⟨h', e, hs, _, ho⟩ := (qdev_set_link_property_success 3 tree_heap 0 0
      "kbd".toList).2
    refine ⟨h', e, hs, ?_⟩
    rw [ho 2 { plain_device "i8042".toList with parent := some 1, ref := 2 } rfl rfl]
    decide

/-- C28: `qdev_set_link_property` with a non-empty path on the slot of a property
declared `link<T>`, when the resolution returns.  The error is
INVALID_PARAMETER_TYPE exactly when the path resolves to a device whose type
name is not T, and DEVICE_NOT_FOUND exactly when the path resolves to no device
(no match, or an ambiguous partial path); whenever an error is set the slots
are left as they were. -/
theorem qdev_set_link_property_failure (fuel : Nat) (h : Heap) (dev slot : Nat)
    (path name T : Str) (r : Option Nat) (amb : Option Bool)
    (hty : qdev_property_get_type h dev name = some (link_type T))
    (hpath : path ≠ [])
    (hres : qdev_resolve_path fuel h path (some false) = some (r, amb))
    (hlive : ∀ B, r = some B → (h.devs B).isSome = true) :
    ∃ h' err, qdev_set_link_property fuel h dev path slot name = some (h', err) ∧
      (err = some (QError.INVALID_PARAMETER_TYPE name (link_type T)) ↔
        ∃ B Bd, r = some B ∧ h.devs B = some Bd ∧ Bd.typename ≠ T) ∧
      (err = some (QError.DEVICE_NOT_FOUND path) ↔ r = none) ∧
      (err ≠ none → h'.slots = h.slots) := by
  unfold qdev_set_link_property
  simp only [hty, hpath, ne_eq, not_false_eq_true, if_true]
  rw [qdev_resolve_path_same (release_old_same_tree h slot), hres]
  cases r with
  | none =>
    refine ⟨_, _, rfl, ?_, ?_, fun _ => release_old_slots h slot⟩
    · constructor
      · intro e; cases e
      · rintro ⟨B, Bd, e, _⟩; cases e
    · simp
  | some B =>
    obtain ⟨Bd, hB⟩ := Option.isSome_iff_exists.1 (hlive B rfl)
    simp only [release_old_ref h slot B Bd hB]
    by_cases hT : Bd.typename = T
    · simp only [hT, if_true]
      refine ⟨_, _, rfl, ?_, ?_, fun hne => absurd rfl hne⟩
      · constructor
        · intro e; cases e
        · rintro ⟨B2, Bd2, e, hB2, hne⟩
          cases e
          rw [hB] at hB2
          cases hB2
          exact absurd hT hne
      · constructor
        · intro e; cases e
        · intro e; cases e
    · have hlt : ¬ link_type Bd.typename = link_type T := fun e => hT (link_type_injective e)
      simp only [hlt, if_false]
      refine ⟨_, _, rfl, ?_, ?_, fun _ => release_old_slots h slot⟩
      · constructor
        · intro _; exact ⟨B, Bd, rfl, hB, hT⟩
        · intro _; rfl
      · constructor
        · intro e; cases e
        · intro e; cases e

/-- C28 (witness): in the sample tree, setting the `link<i8042>` property `kbd` to
`/b`, a `serial` device, fails with INVALID_PARAMETER_TYPE and leaves the slot
on device 2. -/
theorem qdev_set_link_property_failure_witness :
    ∃ h', qdev_set_link_property 3 tree_heap 0 "/b".toList 0 "kbd".toList =
        some (h', some (QError.INVALID_PARAMETER_TYPE "kbd".toList (link_type "i8042".toList))) ∧
      h'.slots 0 = some 2 := by
  obtain ⟨h', err, e, h1, _, h3⟩ := qdev_set_link_property_failure 3 tree_heap 0 0 "/b".toList
    "kbd".toList "i8042".toList (some 3) (some false) (by decide) (by decide) (by decide)
    (fun B hB => by cases hB; rfl)
  have herr := h1.2 ⟨3, _, rfl, rfl, by decide⟩
  subst herr
  refine ⟨h', e, ?_⟩
  rw [h3 (by simp)]
  rfl

/-! ## Legacy properties -/

/-- C29: `qdev_set_legacy_property`.  On a device that is not in state CREATED it
sets PERMISSION_DENIED, makes no call to the visitor or to the parse function,
and leaves the scalar as it was.  On a device in state CREATED it reads the
string from the visitor and, when that read succeeds, hands the string to the
parse function exactly once; when the read fails it reports the visitor's
error and does not call the parse function. -/
theorem qdev_set_legacy_property_contract {σ : Type} (visit_type_str : Str → Except QError Str)
    (parse : σ → Str → Int × σ) (error_of : Int → Option QError)
    (dev : DeviceState) (scalar : σ) (name : Str) :
    (dev.state ≠ QdevLife.DevState.DEV_STATE_CREATED →
      qdev_set_legacy_property visit_type_str parse error_of dev scalar name =
        (scalar, some QError.PERMISSION_DENIED, [])) ∧
    (dev.state = QdevLife.DevState.DEV_STATE_CREATED →
      (∀ ptr, visit_type_str name = .ok ptr →
        qdev_set_legacy_property visit_type_str parse error_of dev scalar name =
          ((parse scalar ptr).2, error_of (parse scalar ptr).1,
            [LegacyEvent.visit_type_str name, LegacyEvent.parse ptr])) ∧
      (∀ e, visit_type_str name = .error e →
        qdev_set_legacy_property visit_type_str parse error_of dev scalar name =
          (scalar, some e, [LegacyEvent.visit_type_str name]))) := by
  refine ⟨fun hne => ?_, fun he => ⟨fun ptr hv => ?_, fun e hv => ?_⟩⟩
  · simp [qdev_set_legacy_property, hne]
  · simp [qdev_set_legacy_property, he, hv]
  · simp [qdev_set_legacy_property, he, hv]

theorem qdev_property_add_link_type (h h' : Heap) (dev slot : Nat) (name T : Str)
    (err : Option QError) (P : DeviceState) (hP : h.devs dev = some P)
    (hf : qdev_property_find P name = none)
    (e : qdev_property_add_link h dev name T slot = some (h', err)) :
    err = none ∧ qdev_property_get_type h' dev name = some (link_type T) := by
  unfold qdev_property_add_link qdev_property_add at e
  simp only [hP, hf, Option.some.injEq, Prod.mk.injEq] at e
  obtain ⟨rfl, rfl⟩ := e
  refine ⟨rfl, ?_⟩
  unfold qdev_property_get_type
  simp only [set_dev_devs, if_true]
  rw [qdev_property_find_append_new (D := P) _ hf rfl]
  rfl

/-! ## Bus creation -/

/-- C31: `do_qbus_create_inplace` on valid pointers returns, and the bus then has
the given parent and no children.  Its name is the supplied name when there is
one; otherwise, with a parent that has an id, the parent's id, a dot and the
decimal digits of the parent's child-bus count before the call, case
unchanged; otherwise the type name, a dot and the parent's child-bus count
before the call (0 when there is no parent), with every character put to
lower case.  With a parent, the parent's child-bus count is one higher than
before and the bus is at the head of its child-bus list. -/
theorem do_qbus_create_inplace_naming (h : Heap) (bus : Nat) (typename : Str)
    (name : Option Str) (B : BusState) (hB : h.buses bus = some B) :
    (∃ h' B', do_qbus_create_inplace h bus typename none name = some h' ∧
      h'.buses bus = some B' ∧ B'.parent = none ∧ B'.children = [] ∧ h'.devs = h.devs ∧
      (∀ n, name = some n → B'.name = n) ∧
      (name = none →
        B'.name = (typename ++ '.' :: (toString (0 : Int)).toList).map Char.toLower ∧
        B'.name = typename.map Char.toLower ++ ['.', '0'])) ∧
    (∀ p P, h.devs p = some P →
      ∃ h' B' P', do_qbus_create_inplace h bus typename (some p) name = some h' ∧
        h'.buses bus = some B' ∧ B'.parent = some p ∧ B'.children = [] ∧
        (∀ n, name = some n → B'.name = n) ∧
        (∀ id, name = none → P.id = some id →
          B'.name = id ++ '.' :: (toString P.num_child_bus).toList) ∧
        (name = none → P.id = none →
          B'.name = (typename ++ '.' :: (toString P.num_child_bus).toList).map Char.toLower ∧
          B'.name = typename.map Char.toLower ++
            '.' :: (toString P.num_child_bus).toList.map Char.toLower) ∧
        h'.devs p = some P' ∧ P'.num_child_bus = P.num_child_bus + 1 ∧
        P'.child_bus = bus :: P.child_bus ∧ P'.id = P.id) := by
  refine ⟨?_, ?_⟩
  · unfold do_qbus_create_inplace
    simp only [hB]
    refine ⟨_, { B with parent := none, children := [], name :=
      (match name with
        | some n => n
        | none => lowercase (dot_name typename 0)) }, rfl, by simp, rfl, rfl, rfl, ?_, ?_⟩
    · rintro n rfl; rfl
    · rintro rfl
      refine ⟨rfl, ?_⟩
      show (typename ++ '.' :: (toString (0 : Int)).toList).map Char.toLower = _
      rw [List.map_append]
      rfl
  · intro p P hP
    unfold do_qbus_create_inplace
    simp only [hB, hP]
    refine ⟨_, { B with parent := some p, children := [], name :=
      (match name with
        | some n => n
        | none =>
          match P.id with
          | some id => dot_name id P.num_child_bus
          | none => lowercase (dot_name typename P.num_child_bus)) },
      { P with child_bus := bus :: P.child_bus, num_child_bus := P.num_child_bus + 1 },
      rfl, by simp, rfl, rfl, ?_, ?_, ?_, by simp, rfl, rfl, rfl⟩
    · rintro n rfl; rfl
    · rintro id rfl hid
      simp only [hid]
      rfl
    · rintro rfl hid
      simp only [hid]
      refine ⟨rfl, ?_⟩
      show (typename ++ '.' :: (toString P.num_child_bus).toList).map Char.toLower = _
      rw [List.map_append]
      rfl

/-- C31 (witness): in the sample heap a bus of type `PCI` created without a name
under the device with id `pci` and two child buses is called `pci.2`, and the
device then has three child buses with the new one first; under the device
without an id and without child buses it is called `pci.0`, the type name in
lower case; a bus of type `System` without a parent is called `system.0`; and
a supplied name `Main-Bus` is kept as it is. -/
theorem do_qbus_create_inplace_naming_witness :
    (∃ h' B' P', do_qbus_create_inplace naming_heap 5 "PCI".toList (some 0) none = some h' ∧
      h'.buses 5 = some B' ∧ B'.name = "pci.2".toList ∧
      h'.devs 0 = some P' ∧ P'.num_child_bus = 3 ∧ P'.child_bus = [5, 2, 1]) ∧
    (∃ h' B', do_qbus_create_inplace naming_heap 5 "PCI".toList (some 1) none = some h' ∧
      h'.buses 5 = some B' ∧ B'.name = "pci.0".toList) ∧
    (∃ h' B', do_qbus_create_inplace naming_heap 5 "System".toList none none = some h' ∧
      h'.buses 5 = some B' ∧ B'.name = "system.0".toList) ∧
    (∃ h' B', do_qbus_create_inplace naming_heap 5 "PCI".toList (some 1)
        (some "Main-Bus".toList) = some h' ∧
      h'.buses 5 = some B' ∧ B'.name = "Main-Bus".toList) := by
  refine ⟨?_, ?_, ?_, ?_⟩
  · obtain ⟨h', B', P', e, hB', _, _, _, hid, _, hP', hn, hc, _⟩ :=
      (do_qbus_create_inplace_naming naming_heap 5 "PCI".toList none _ rfl).2 0 _ rfl
    exact ⟨h', B', P', e, hB', (hid _ rfl rfl).trans (by decide), hP', hn.trans (by decide),
      hc.trans (by decide)⟩
  · obtain ⟨h', B', P', e, hB', _, _, _, _, hlow, _⟩ :=
      (do_qbus_create_inplace_naming naming_heap 5 "PCI".toList none _ rfl).2 1 _ rfl
    exact ⟨h', B', e, hB', (hlow rfl rfl).1.trans (by decide)⟩
  · obtain ⟨h', B', e, hB', _, _, _, _, hlow⟩ :=
      (do_qbus_create_inplace_naming naming_heap 5 "System".toList none _ rfl).1
    exact ⟨h', B', e, hB', (hlow rfl).1.trans (by decide)⟩
  · obtain ⟨h', B', P', e, hB', _, _, hname, _⟩ :=
      (do_qbus_create_inplace_naming naming_heap 5 "PCI".toList (some "Main-Bus".toList)
        _ rfl).2 1 _ rfl
    exact ⟨h', B', e, hB', hname _ rfl⟩

/-! ## Bus child indices -/

theorem remove_kid_split (kids : List BusChild) (child : Nat) :
    (remove_kid kids child = kids ∧ ∀ kid ∈ kids, kid.child ≠ child) ∨
    ∃ pre kid post, kids = pre ++ kid :: post ∧ kid.child = child ∧
      (∀ k ∈ pre, k.child ≠ child) ∧ remove_kid kids child = pre ++ post := by
  induction kids with
  | nil => exact Or.inl ⟨rfl, fun _ hk => by cases hk⟩
  | cons k ks ih =>
    by_cases hc : k.child = child
    · right
      exact ⟨[], k, ks, rfl, hc, (fun _ hk => by cases hk), by simp [remove_kid, hc]⟩
    · rcases ih with ⟨he, hall⟩ | ⟨pre, kid, post, he, hkc, hpre, hr⟩
      · left
        refine ⟨by simp [remove_kid, hc, he], ?_⟩
        intro kid hk
        rcases List.mem_cons.1 hk with rfl | hk
        · exact hc
        · exact hall kid hk
      · right
        refine ⟨k :: pre, kid, post, by simp [he], hkc, ?_, by simp [remove_kid, hc, hr]⟩
        intro x hx
        rcases List.mem_cons.1 hx with rfl | hx
        · exact hc
        · exact hpre x hx

theorem remove_kid_sublist (kids : List BusChild) (child : Nat) :
    (remove_kid kids child).Sublist kids := by
  induction kids with
  | nil => exact List.Sublist.slnil
  | cons k ks ih =>
    simp only [remove_kid]
    split
    · exact List.sublist_cons_self k ks
    · exact ih.cons₂ k

theorem bus_add_child_entry {h h' : Heap} {bus child : Nat} {B : BusState}
    (hB : h.buses bus = some B) (e : bus_add_child h bus child = some h') :
    h'.buses bus = some { B with
      max_index := B.max_index + 1,
      children := { index := B.max_index, child := child } :: B.children } := by
  unfold bus_add_child at e
  simp only [hB] at e
  split at e
  · cases e
  · simp only [Option.some.injEq] at e
    subst e
    simp

theorem bus_remove_child_entry {h : Heap} {bus : Nat} (child : Nat) {B : BusState}
    (hB : h.buses bus = some B) :
    (bus_remove_child h bus child).buses bus =
      some { B with children := remove_kid B.children child } := by
  unfold bus_remove_child
  simp [hB]

/-- The invariant of the indices of one bus along a run: the indices in the
child list are distinct and below `max_index`, and so are the indices handed
out so far. -/
theorem index_run_invariant (bus : Nat) (ops : List IndexOp) :
    ∀ (h h' : Heap) (B : BusState) (assigned : List Int),
      h.buses bus = some B →
      (B.children.map (fun kid => kid.index)).Nodup →
      (∀ kid ∈ B.children, kid.index < B.max_index) →
      index_run bus h ops = some (h', assigned) →
      ∃ B', h'.buses bus = some B' ∧
        (B'.children.map (fun kid => kid.index)).Nodup ∧
        (∀ kid ∈ B'.children, kid.index < B'.max_index) ∧
        assigned.Nodup ∧ (∀ i ∈ assigned, B.max_index ≤ i ∧ i < B'.max_index) ∧
        B.max_index ≤ B'.max_index := by
  induction ops with
  | nil =>
    intro h h' B assigned hB hn hlt e
    simp only [index_run, Option.some.injEq, Prod.mk.injEq] at e
    obtain ⟨rfl, rfl⟩ := e
    exact ⟨B, hB, hn, hlt, List.nodup_nil, (fun _ hi => by cases hi), le_refl _⟩
  | cons op ops ih =>
    intro h h' B assigned hB hn hlt e
    cases op with
    | add child =>
      simp only [index_run] at e
      cases ha : bus_add_child h bus child with
      | none => simp [ha] at e
      | some h1 =>
        simp only [ha] at e
        have hB1 := bus_add_child_entry hB ha
        have hhead : head_index h1 bus = some B.max_index := by
          simp [head_index, hB1]
        simp only [hhead] at e
        cases hr : index_run bus h1 ops with
        | none => simp [hr] at e
        | some r =>
          obtain ⟨h2, rest⟩ := r
          simp only [hr, Option.some.injEq, Prod.mk.injEq] at e
          obtain ⟨rfl, rfl⟩ := e
          obtain ⟨B', hB', hn', hlt', hna, hra, hle⟩ := ih h1 h2 _ rest hB1 (by
              simp only [List.map_cons, List.nodup_cons]
              refine ⟨fun hmem => ?_, hn⟩
              obtain ⟨kid, hk, hki⟩ := List.mem_map.1 hmem
              have := hlt kid hk
              omega) (by
              intro kid hk
              rcases List.mem_cons.1 hk with rfl | hk
              · simp
              · have := hlt kid hk
                simp only
                omega) hr
          simp only at hra hle
          refine ⟨B', hB', hn', hlt', ?_, ?_, by omega⟩
          · simp only [List.nodup_cons]
            refine ⟨fun hmem => ?_, hna⟩
            have := (hra _ hmem).1
            omega
          · intro i hi
            rcases List.mem_cons.1 hi with rfl | hi
            · exact ⟨le_refl _, by omega⟩
            · have := hra i hi
              exact ⟨by omega, this.2⟩
    | remove child =>
      simp only [index_run] at e
      have hB1 := bus_remove_child_entry child hB
      obtain ⟨B', hB', hn', hlt', hna, hra, hle⟩ := ih _ h' _ assigned hB1
        ((remove_kid_sublist B.children child).map (fun kid => kid.index) |>.nodup hn)
        (fun kid hk => hlt kid ((remove_kid_sublist B.children child).subset hk)) e
      exact ⟨B', hB', hn', hlt', hna, hra, hle⟩

/-- C32: for a live bus.  `bus_add_child` puts an entry at the head of the child
list whose index is the bus's `max_index` before the call, and raises
`max_index` by one.  `bus_remove_child` leaves `max_index` alone and either
finds no entry of the device and changes nothing, or removes the first entry of
the device and keeps every other entry, in order.  And from an empty child
list, after every sequence of the two calls on the bus that returns, the
indices in the child list are pairwise distinct and below `max_index`, and the
indices handed out by the sequence are pairwise distinct, not below the
initial `max_index` and below the final one. -/
theorem bus_child_indices (h : Heap) (bus : Nat) (B : BusState) (hB : h.buses bus = some B) :
    (∀ child h', bus_add_child h bus child = some h' →
      ∃ B', h'.buses bus = some B' ∧
        B'.children = { index := B.max_index, child := child } :: B.children ∧
        B'.max_index = B.max_index + 1) ∧
    (∀ child, ∃ B', (bus_remove_child h bus child).buses bus = some B' ∧
      B'.max_index = B.max_index ∧
      ((B'.children = B.children ∧ ∀ kid ∈ B.children, kid.child ≠ child) ∨
        ∃ pre kid post, B.children = pre ++ kid :: post ∧ kid.child = child ∧
          (∀ k ∈ pre, k.child ≠ child) ∧ B'.children = pre ++ post)) ∧
    (B.children = [] → ∀ ops h' assigned, index_run bus h ops = some (h', assigned) →
      ∃ B', h'.buses bus = some B' ∧
        (B'.children.map (fun kid => kid.index)).Nodup ∧
        (∀ kid ∈ B'.children, kid.index < B'.max_index) ∧
        assigned.Nodup ∧ ∀ i ∈ assigned, B.max_index ≤ i ∧ i < B'.max_index) := by
  refine ⟨?_, ?_, ?_⟩
  · intro child h' e
    exact ⟨_, bus_add_child_entry hB e, rfl, rfl⟩
  · intro child
    refine ⟨_, bus_remove_child_entry child hB, rfl, ?_⟩
    exact remove_kid_split B.children child
  · intro hempty ops h' assigned e
    obtain ⟨B', hB', hn', hlt', hna, hra, _⟩ := index_run_invariant bus ops h h' B assigned hB
      (by rw [hempty]; exact List.nodup_nil) (by rw [hempty]; intro kid hk; cases hk) e
    exact ⟨B', hB', hn', hlt', hna, hra⟩

/-- C32 (witness): on the empty main system bus of the sample heap, adding
devices 0, 1, 2, removing 1, adding 1 and 3 and removing 0 and 3 hands out the
indices 0 to 4 and leaves the entries (3, device 1) and (2, device 2) with
`max_index` 5. -/
theorem bus_child_indices_witness :
    (index_run 0 detached_heap index_ops).map
        (fun r => ((r.1.buses 0).map (fun B => (B.children, B.max_index)), r.2)) =
      some (some ([{ index := 3, child := 1 }, { index := 2, child := 2 }], 5), [0, 1, 2, 3, 4]) ∧
    ∃ h' assigned B', index_run 0 detached_heap index_ops = some (h', assigned) ∧
      h'.buses 0 = some B' ∧ (B'.children.map (fun kid => kid.index)).Nodup ∧
      assigned.Nodup := by
  refine ⟨by decide, ?_⟩
  have hs : (index_run 0 detached_heap index_ops).isSome = true := by decide
  cases hr : index_run 0 detached_heap index_ops with
  | none => rw [hr] at hs; cases hs
  | some r =>
    obtain ⟨h', assigned⟩ := r
    obtain ⟨B', hB', hn, _, hna, _⟩ :=
      (bus_child_indices detached_heap 0 _ rfl).2.2 rfl index_ops h' assigned hr
    exact ⟨h', assigned, B', rfl, hB', hn, hna⟩

/-! ## Failed link sets -/

theorem qdev_set_link_property_error_ref (fuel : Nat) (h h' : Heap) (dev slot old : Nat)
    (path name : Str) (Od : DeviceState) (err : QError)
    (hold : h.slots slot = some old) (hOd : h.devs old = some Od)
    (e : qdev_set_link_property fuel h dev path slot name = some (h', some err)) :
    h'.slots slot = some old ∧ ref_of h' old = some (Od.ref - 1) := by
  unfold qdev_set_link_property at e
  have hslots := release_old_slots h slot
  have hdev := release_old_ref h slot old Od hOd
  rw [if_pos hold] at hdev
  by_cases hp : path = []
  · simp [hp] at e
  · simp only [hp, ne_eq, not_false_eq_true, if_true] at e
    cases hr : qdev_resolve_path fuel (match h.slots slot with
        | some old => qdev_unref h old
        | none => h) path (some false) with
    | none => simp [hr] at e
    | some r =>
      obtain ⟨target, amb⟩ := r
      simp only [hr] at e
      cases target with
      | none =>
        simp only [Option.some.injEq, Prod.mk.injEq] at e
        obtain ⟨rfl, _⟩ := e
        exact ⟨by rw [hslots]; exact hold, by simp only [ref_of]; rw [hdev]; rfl⟩
      | some t =>
        simp only at e
        split at e
        · split at e
          · simp at e
          · simp only [Option.some.injEq, Prod.mk.injEq] at e
            obtain ⟨rfl, _⟩ := e
            exact ⟨by rw [hslots]; exact hold, by simp only [ref_of]; rw [hdev]; rfl⟩
        · cases e

/-- C35 (divergence): a failed link set is not atomic.  In the sample tree the
link `kbd` of the root holds device 2, whose refcount is 2.  Setting the link
to `/b` fails with INVALID_PARAMETER_TYPE and setting it to `/x` fails with
DEVICE_NOT_FOUND; after either call the slot still holds device 2 and the
refcount of device 2 is 1. -/
theorem qdev_set_link_property_failure_not_atomic :
    (tree_heap.slots 0 = some 2 ∧ ref_of tree_heap 2 = some 2) ∧
    (qdev_set_link_property 3 tree_heap 0 "/b".toList 0 "kbd".toList).map
        (fun r => (r.2, r.1.slots 0, ref_of r.1 2)) =
      some (some (QError.INVALID_PARAMETER_TYPE "kbd".toList (link_type "i8042".toList)),
        some 2, some 1) ∧
    (qdev_set_link_property 3 tree_heap 0 "/x".toList 0 "kbd".toList).map
        (fun r => (r.2, r.1.slots 0, ref_of r.1 2)) =
      some (some (QError.DEVICE_NOT_FOUND "/x".toList), some 2, some 1) := by
  decide

end Qdev

/-! # Reset walks -/

namespace QdevTree

theorem with_reset_cons (n : Visit × Bool) (l : List (Visit × Bool)) :
    with_reset (n :: l) = (if n.2 then [n.1] else []) ++ with_reset l := by
  unfold with_reset
  cases h : n.2 <;> simp [List.filter, h]

theorem with_reset_append (l1 l2 : List (Visit × Bool)) :
    with_reset (l1 ++ l2) = with_reset l1 ++ with_reset l2 := by
  simp [with_reset]

mutual
theorem qdev_reset_walk (dev : DeviceState) (hz : dev_bus_resets_zero dev = true) :
    qdev_walk_children (some qdev_reset_one) (some qbus_reset_one) dev =
      (0, with_reset (dev_nodes dev)) := by
  match dev with
  | .mk id reset child_bus =>
    simp only [dev_bus_resets_zero] at hz
    simp only [qdev_walk_children, qdev_reset_one, device_reset, dev_nodes, ne_eq,
      not_true_eq_false, if_false, child_bus_reset_walk child_bus hz, with_reset_cons]
theorem child_bus_reset_walk (buses : List BusState) (hz : child_bus_resets_zero buses = true) :
    walk_child_bus (some qdev_reset_one) (some qbus_reset_one) buses =
      (0, with_reset (child_bus_nodes buses)) := by
  match buses with
  | [] => rfl
  | bus :: rest =>
    simp only [child_bus_resets_zero, Bool.and_eq_true] at hz
    simp only [walk_child_bus, child_bus_nodes, qbus_reset_walk bus hz.1,
      child_bus_reset_walk rest hz.2, lt_self_iff_false, if_false, with_reset_append]
theorem qbus_reset_walk (bus : BusState) (hz : bus_resets_zero bus = true) :
    qbus_walk_children (some qdev_reset_one) (some qbus_reset_one) bus =
      (0, with_reset (bus_nodes bus)) := by
  match bus with
  | .mk id reset children =>
    simp only [bus_resets_zero, Bool.and_eq_true, Bool.or_eq_true, decide_eq_true_eq] at hz
    rcases hz.1 with rfl | rfl
    · simp only [qbus_walk_children, qbus_reset_one, bus_nodes, ne_eq, not_true_eq_false,
        if_false, children_reset_walk children hz.2, with_reset_cons, Option.isSome_none,
        Bool.false_eq_true, List.nil_append]
    · simp only [qbus_walk_children, qbus_reset_one, bus_nodes, ne_eq, not_true_eq_false,
        if_false, children_reset_walk children hz.2, with_reset_cons, Option.isSome_some,
        if_true]
theorem children_reset_walk (devs : List DeviceState) (hz : children_resets_zero devs = true) :
    walk_children (some qdev_reset_one) (some qbus_reset_one) devs =
      (0, with_reset (children_nodes devs)) := by
  match devs with
  | [] => rfl
  | dev :: rest =>
    simp only [children_resets_zero, Bool.and_eq_true] at hz
    simp only [walk_children, children_nodes, qdev_reset_walk dev hz.1,
      children_reset_walk rest hz.2, lt_self_iff_false, if_false, with_reset_append]
end

/-- C30 (counterexample): a bus whose class reset returns a non-zero value ends
the walk of that bus before its children.  In the tree of device 0, bus 1
(reset returns 1) and device 2, all with reset hooks, `qdev_reset_all` resets
device 0 and bus 1 and never device 2, which is in the subtree. -/
theorem qdev_reset_all_skips_counterexample :
    qdev_reset_all skip_tree = [Visit.dev 0, Visit.bus 1] ∧
    (Visit.dev 2, true) ∈ dev_nodes skip_tree ∧
    Visit.dev 2 ∉ qdev_reset_all skip_tree := by
  decide

/-- C30 (amended): `qdev_reset_all(dev)` is a total function of the finite tree.
When every bus reset hook in the subtree of `dev` returns 0, the class resets
invoked are, in this order, those of the nodes of the subtree that have a reset
hook, where the subtree is listed with each node before its descendants; when
the nodes of the subtree are distinct, no reset is invoked twice. -/
theorem qdev_reset_all_preorder (dev : DeviceState) (hz : dev_bus_resets_zero dev = true) :
    qdev_reset_all dev = with_reset (dev_nodes dev) ∧
    (((dev_nodes dev).map (fun n => n.1)).Nodup → (qdev_reset_all dev).Nodup) := by
  have e : qdev_reset_all dev = with_reset (dev_nodes dev) := by
    unfold qdev_reset_all
    rw [qdev_reset_walk dev hz]
  refine ⟨e, fun hn => ?_⟩
  rw [e]
  unfold with_reset
  exact ((List.filter_sublist (dev_nodes dev)).map (fun n : Visit × Bool => n.1)).nodup hn

/-- C30 (witness): in a tree whose bus resets return 0 or are absent, the nodes
with a reset hook are reset once each, parents first. -/
theorem qdev_reset_all_preorder_witness :
    qdev_reset_all reset_tree = [Visit.dev 0, Visit.bus 1, Visit.dev 2, Visit.dev 5] ∧
    (qdev_reset_all reset_tree).Nodup := by
  obtain ⟨e, hn⟩ := qdev_reset_all_preorder reset_tree (by decide)
  refine ⟨?_, hn (by decide)⟩
  rw [e]
  decide

/-! ## Walker abort semantics -/

theorem first_negative_nonpos (f g : Nat → Int) (l : List Visit) : first_negative f g l ≤ 0 := by
  induction l with
  | nil => exact le_refl _
  | cons v vs ih =>
    simp only [first_negative]
    split
    · omega
    · exact ih

theorem first_negative_zero {f g : Nat → Int} {l : List Visit}
    (h : ¬ first_negative f g l < 0) : first_negative f g l = 0 := by
  have := first_negative_nonpos f g l
  omega

theorem until_negative_none {f g : Nat → Int} {l : List Visit}
    (h : ¬ first_negative f g l < 0) : until_negative f g l = l := by
  induction l with
  | nil => rfl
  | cons v vs ih =>
    simp only [first_negative] at h
    simp only [until_negative]
    by_cases hv : visit_code f g v < 0
    · simp only [hv, if_true] at h
      exact absurd trivial h
    · simp only [hv, if_false] at h ⊢
      rw [ih h]

theorem first_negative_append (f g : Nat → Int) (a b : List Visit) :
    first_negative f g (a ++ b) =
      if first_negative f g a < 0 then first_negative f g a else first_negative f g b := by
  induction a with
  | nil => simp [first_negative]
  | cons v vs ih =>
    simp only [List.cons_append, first_negative]
    by_cases hv : visit_code f g v < 0
    · simp [hv]
    · simp only [hv, if_false]
      exact ih

theorem until_negative_append (f g : Nat → Int) (a b : List Visit) :
    until_negative f g (a ++ b) =
      if first_negative f g a < 0 then until_negative f g a else a ++ until_negative f g b := by
  induction a with
  | nil => simp [first_negative]
  | cons v vs ih =>
    simp only [List.cons_append, first_negative, until_negative]
    by_cases hv : visit_code f g v < 0
    · simp [hv]
    · simp only [hv, if_false]
      show v :: until_negative f g (vs ++ b) = _
      rw [ih]
      split <;> rfl

theorem first_negative_all_nonneg {f g : Nat → Int} {l : List Visit}
    (h : ∀ v ∈ l, 0 ≤ visit_code f g v) : ¬ first_negative f g l < 0 := by
  induction l with
  | nil => simp [first_negative]
  | cons v vs ih =>
    have hv : ¬ visit_code f g v < 0 := by
      have := h v (List.mem_cons_self _ _)
      omega
    simp only [first_negative, hv, if_false]
    exact ih (fun x hx => h x (List.mem_cons_of_mem _ hx))

theorem until_negative_last {f g : Nat → Int} {l : List Visit} {v : Visit}
    (hv : v ∈ until_negative f g l) (hneg : visit_code f g v < 0) :
    first_negative f g l = visit_code f g v ∧ (until_negative f g l).getLast? = some v := by
  induction l with
  | nil => simp [until_negative] at hv
  | cons x xs ih =>
    simp only [until_negative, first_negative] at hv ⊢
    by_cases hx : visit_code f g x < 0
    · simp only [hx, if_true, List.mem_singleton] at hv ⊢
      subst hv
      exact ⟨rfl, rfl⟩
    · simp only [hx, if_false, List.mem_cons] at hv ⊢
      rcases hv with rfl | hv
      · exact absurd hneg hx
      · obtain ⟨h1, h2⟩ := ih hv
        refine ⟨h1, ?_⟩
        rw [List.getLast?_cons, h2]
        rfl

mutual
theorem qdev_walk_visits (f g : Nat → Int) (dev : DeviceState) :
    qdev_walk_children (some (visit_dev f)) (some (visit_bus g)) dev =
      (if f dev.ident ≠ 0 then f dev.ident else first_negative f g (dev_visits f g dev),
        until_negative f g (dev_visits f g dev)) := by
  match dev with
  | .mk id reset child_bus =>
    simp only [qdev_walk_children, visit_dev, DeviceState.ident, dev_visits,
      walk_child_bus_visits f g child_bus]
    by_cases h0 : f id = 0
    · simp [h0, until_negative, first_negative, visit_code]
    · by_cases hneg : f id < 0
      · simp [h0, hneg, until_negative, visit_code]
      · simp [h0, hneg, until_negative, visit_code]
theorem walk_child_bus_visits (f g : Nat → Int) (buses : List BusState) :
    walk_child_bus (some (visit_dev f)) (some (visit_bus g)) buses =
      (first_negative f g (child_bus_visits f g buses),
        until_negative f g (child_bus_visits f g buses)) := by
  match buses with
  | [] => rfl
  | bus :: rest =>
    match bus with
    | .mk id reset children =>
      simp only [walk_child_bus, child_bus_visits, qbus_walk_visits f g (.mk id reset children),
        walk_child_bus_visits f g rest, first_negative_append, until_negative_append,
        BusState.ident, bus_visits]
      by_cases h0 : g id = 0
      · simp only [h0, ne_eq, not_true_eq_false, if_false, if_true, first_negative,
          until_negative, visit_code, lt_self_iff_false]
        by_cases hn : first_negative f g (children_visits f g children) < 0
        · simp [hn]
        · simp [hn, until_negative_none hn]
      · by_cases hneg : g id < 0
        · simp [h0, hneg, first_negative, until_negative, visit_code]
        · simp [h0, hneg, first_negative, until_negative, visit_code]
theorem qbus_walk_visits (f g : Nat → Int) (bus : BusState) :
    qbus_walk_children (some (visit_dev f)) (some (visit_bus g)) bus =
      (if g bus.ident ≠ 0 then g bus.ident else first_negative f g (bus_visits f g bus),
        until_negative f g (bus_visits f g bus)) := by
  match bus with
  | .mk id reset children =>
    simp only [qbus_walk_children, visit_bus, BusState.ident, bus_visits,
      walk_children_visits f g children]
    by_cases h0 : g id = 0
    · simp [h0, until_negative, first_negative, visit_code]
    · by_cases hneg : g id < 0
      · simp [h0, hneg, until_negative, visit_code]
      · simp [h0, hneg, until_negative, visit_code]
theorem walk_children_visits (f g : Nat → Int) (devs : List DeviceState) :
    walk_children (some (visit_dev f)) (some (visit_bus g)) devs =
      (first_negative f g (children_visits f g devs),
        until_negative f g (children_visits f g devs)) := by
  match devs with
  | [] => rfl
  | dev :: rest =>
    match dev with
    | .mk id reset child_bus =>
      simp only [walk_children, children_visits, qdev_walk_visits f g (.mk id reset child_bus),
        walk_children_visits f g rest, first_negative_append, until_negative_append,
        DeviceState.ident, dev_visits]
      by_cases h0 : f id = 0
      · simp only [h0, ne_eq, not_true_eq_false, if_false, if_true, first_negative,
          until_negative, visit_code, lt_self_iff_false]
        by_cases hn : first_negative f g (child_bus_visits f g child_bus) < 0
        · simp [hn]
        · simp [hn, until_negative_none hn]
      · by_cases hneg : f id < 0
        · simp [h0, hneg, first_negative, until_negative, visit_code]
        · simp [h0, hneg, first_negative, until_negative, visit_code]
end

mutual
theorem dev_visits_zero (dev : DeviceState) :
    dev_visits (fun _ => 0) (fun _ => 0) dev = (dev_nodes dev).map (fun n => n.1) := by
  match dev with
  | .mk id reset child_bus =>
    simp only [dev_visits, dev_nodes, if_true, List.map_cons, child_bus_visits_zero child_bus]
theorem child_bus_visits_zero (buses : List BusState) :
    child_bus_visits (fun _ => 0) (fun _ => 0) buses =
      (child_bus_nodes buses).map (fun n => n.1) := by
  match buses with
  | [] => rfl
  | bus :: rest =>
    simp only [child_bus_visits, child_bus_nodes, List.map_append, bus_visits_zero bus,
      child_bus_visits_zero rest]
theorem bus_visits_zero (bus : BusState) :
    bus_visits (fun _ => 0) (fun _ => 0) bus = (bus_nodes bus).map (fun n => n.1) := by
  match bus with
  | .mk id reset children =>
    simp only [bus_visits, bus_nodes, if_true, List.map_cons, children_visits_zero children]
theorem children_visits_zero (devs : List DeviceState) :
    children_visits (fun _ => 0) (fun _ => 0) devs =
      (children_nodes devs).map (fun n => n.1) := by
  match devs with
  | [] => rfl
  | dev :: rest =>
    simp only [children_visits, children_nodes, List.map_append, dev_visits_zero dev,
      children_visits_zero rest]
end

theorem dev_visits_head (f g : Nat → Int) (dev : DeviceState) :
    ∃ l, dev_visits f g dev = .dev dev.ident :: l ∧ (f dev.ident ≠ 0 → l = []) := by
  match dev with
  | .mk id reset child_bus =>
    refine ⟨_, rfl, fun h => ?_⟩
    simp only [DeviceState.ident] at h
    simp [h]

theorem bus_visits_head (f g : Nat → Int) (bus : BusState) :
    ∃ l, bus_visits f g bus = .bus bus.ident :: l ∧ (g bus.ident ≠ 0 → l = []) := by
  match bus with
  | .mk id reset children =>
    refine ⟨_, rfl, fun h => ?_⟩
    simp only [BusState.ident] at h
    simp [h]

theorem walk_result_of_negative {f g : Nat → Int} {c : Int} {l : List Visit} {x v : Visit}
    (hc : visit_code f g x = c) (hl : c ≠ 0 → l = [])
    (hv : v ∈ until_negative f g (x :: l)) (hneg : visit_code f g v < 0) :
    (if c ≠ 0 then c else first_negative f g (x :: l)) = visit_code f g v ∧
    (until_negative f g (x :: l)).getLast? = some v := by
  obtain ⟨h1, h2⟩ := until_negative_last hv hneg
  refine ⟨?_, h2⟩
  by_cases h0 : c = 0
  · simp only [h0, ne_eq, not_true_eq_false, if_false]
    exact h1
  · simp only [h0, ne_eq, not_false_eq_true, if_true]
    rw [hl h0] at hv
    simp only [until_negative] at hv
    have : v = x := by
      split at hv <;> simpa using hv
    rw [this, hc]

theorem walk_result_nonneg {f g : Nat → Int} {c : Int} {l : List Visit}
    (h0 : c = 0) (hall : ∀ v ∈ l, 0 ≤ visit_code f g v) :
    ((if c ≠ 0 then c else first_negative f g l), until_negative f g l) = ((0 : Int), l) := by
  have hn := first_negative_all_nonneg hall
  simp only [h0, ne_eq, not_true_eq_false, if_false, first_negative_zero hn,
    until_negative_none hn]

/-- C36: `qdev_walk_children` and `qbus_walk_children` with visitors whose results
are given by `f` (devices) and `g` (buses), as total functions of the finite
tree.  A non-zero result on the starting node is returned at once and only the
starting node is visited.  The nodes visited are those of the subtree, each
node before its descendants, without the descendants of a node with a non-zero
result, up to and including the first node with a negative result; when a
visited node has a negative result, that result is returned and the node is
the last one visited.  When the starting node's result is 0 and no listed node
has a negative result, every listed node is visited and 0 is returned.  When
all results are 0 every device and bus of the subtree is visited once, in that
order, and 0 is returned. -/
theorem walker_abort_semantics (f g : Nat → Int) (dev : DeviceState) (bus : BusState) :
    (f dev.ident ≠ 0 →
      qdev_walk_children (some (visit_dev f)) (some (visit_bus g)) dev =
        (f dev.ident, [Visit.dev dev.ident])) ∧
    (g bus.ident ≠ 0 →
      qbus_walk_children (some (visit_dev f)) (some (visit_bus g)) bus =
        (g bus.ident, [Visit.bus bus.ident])) ∧
    ((qdev_walk_children (some (visit_dev f)) (some (visit_bus g)) dev).2 =
        until_negative f g (dev_visits f g dev) ∧
      (qbus_walk_children (some (visit_dev f)) (some (visit_bus g)) bus).2 =
        until_negative f g (bus_visits f g bus)) ∧
    (∀ v ∈ (qdev_walk_children (some (visit_dev f)) (some (visit_bus g)) dev).2,
      visit_code f g v < 0 →
      (qdev_walk_children (some (visit_dev f)) (some (visit_bus g)) dev).1 = visit_code f g v ∧
      (qdev_walk_children (some (visit_dev f)) (some (visit_bus g)) dev).2.getLast? = some v) ∧
    (∀ v ∈ (qbus_walk_children (some (visit_dev f)) (some (visit_bus g)) bus).2,
      visit_code f g v < 0 →
      (qbus_walk_children (some (visit_dev f)) (some (visit_bus g)) bus).1 = visit_code f g v ∧
      (qbus_walk_children (some (visit_dev f)) (some (visit_bus g)) bus).2.getLast? = some v) ∧
    (f dev.ident = 0 → (∀ v ∈ dev_visits f g dev, 0 ≤ visit_code f g v) →
      qdev_walk_children (some (visit_dev f)) (some (visit_bus g)) dev =
        (0, dev_visits f g dev)) ∧
    (g bus.ident = 0 → (∀ v ∈ bus_visits f g bus, 0 ≤ visit_code f g v) →
      qbus_walk_children (some (visit_dev f)) (some (visit_bus g)) bus =
        (0, bus_visits f g bus)) ∧
    ((∀ i, f i = 0) → (∀ i, g i = 0) →
      qdev_walk_children (some (visit_dev f)) (some (visit_bus g)) dev =
        (0, (dev_nodes dev).map (fun n => n.1)) ∧
      qbus_walk_children (some (visit_dev f)) (some (visit_bus g)) bus =
        (0, (bus_nodes bus).map (fun n => n.1))) := by
  have ed := qdev_walk_visits f g dev
  have eb := qbus_walk_visits f g bus
  obtain ⟨ld, hld, hld0⟩ := dev_visits_head f g dev
  obtain ⟨lb, hlb, hlb0⟩ := bus_visits_head f g bus
  refine ⟨?_, ?_, ⟨by rw [ed], by rw [eb]⟩, ?_, ?_, ?_, ?_, ?_⟩
  · intro h
    rw [ed, hld, hld0 h]
    by_cases hneg : f dev.ident < 0 <;> simp [h, until_negative, visit_code, hneg]
  · intro h
    rw [eb, hlb, hlb0 h]
    by_cases hneg : g bus.ident < 0 <;> simp [h, until_negative, visit_code, hneg]
  · intro v hv hneg
    rw [ed] at hv ⊢
    simp only at hv ⊢
    rw [hld] at hv ⊢
    exact walk_result_of_negative rfl hld0 hv hneg
  · intro v hv hneg
    rw [eb] at hv ⊢
    simp only at hv ⊢
    rw [hlb] at hv ⊢
    exact walk_result_of_negative rfl hlb0 hv hneg
  · intro h0 hall
    rw [ed]
    exact walk_result_nonneg h0 hall
  · intro h0 hall
    rw [eb]
    exact walk_result_nonneg h0 hall
  · intro hf hg
    have ef : f = fun _ => 0 := funext hf
    have eg : g = fun _ => 0 := funext hg
    subst ef
    subst eg
    have hd : ∀ l : List Visit, ∀ v ∈ l, 0 ≤ visit_code (fun _ => 0) (fun _ => 0) v := by
      intro l v _
      cases v <;> simp [visit_code]
    refine ⟨?_, ?_⟩
    · rw [qdev_walk_visits, ← dev_visits_zero]
      exact walk_result_nonneg rfl (hd _)
    · rw [qbus_walk_visits, ← bus_visits_zero]
      exact walk_result_nonneg rfl (hd _)

/-- The walk of the sample tree when the visitor returns 1 on device 2 and -3 on
device 7: the subtree of device 2 is skipped, device 5 is still visited, and
the walk ends at device 7 with -3. -/
theorem walker_abort_sample :
    qdev_walk_children
        (some (visit_dev (fun i => if i = 2 then 1 else if i = 7 then -3 else 0)))
        (some (visit_bus (fun _ => 0))) walk_tree =
      (-3, [Visit.dev 0, Visit.bus 1, Visit.dev 2, Visit.dev 5, Visit.bus 6, Visit.dev 7]) ∧
    qdev_walk_children (some (visit_dev (fun i => if i = 2 then 1 else 0)))
        (some (visit_bus (fun _ => 0))) walk_tree =
      (0, [Visit.dev 0, Visit.bus 1, Visit.dev 2, Visit.dev 5, Visit.bus 6, Visit.dev 7]) := by
  decide

end QdevTree

/-! # Find by id -/

namespace QdevFind

theorem DeviceState.id_mk (i : Option Str) (c : List BusState) : (DeviceState.mk i c).id = i := rfl

mutual
theorem qdev_find_recursive_find (bus : BusState) (id : Str) :
    qdev_find_recursive bus id = (bus_devices bus).find? (fun d => d.id = some id) := by
  match bus with
  | .mk name children =>
    simp only [qdev_find_recursive, bus_devices]
    exact find_children_find children id
theorem find_children_find (devs : List DeviceState) (id : Str) :
    find_children devs id = (children_devices devs).find? (fun d => d.id = some id) := by
  match devs with
  | [] => rfl
  | .mk dev_id child_bus :: rest =>
    simp only [find_children, children_devices, List.find?_cons, DeviceState.id_mk,
      List.find?_append]
    by_cases h : dev_id = some id
    · simp [h]
    · simp only [h, if_false, decide_False]
      rw [find_child_bus_find child_bus id, find_children_find rest id]
      generalize List.find? (fun d => decide (d.id = some id)) (child_bus_devices child_bus) = a
      cases a <;> rfl
theorem find_child_bus_find (buses : List BusState) (id : Str) :
    find_child_bus buses id = (child_bus_devices buses).find? (fun d => d.id = some id) := by
  match buses with
  | [] => rfl
  | child :: rest =>
    simp only [find_child_bus, child_bus_devices, List.find?_append]
    rw [qdev_find_recursive_find child id, find_child_bus_find rest id]
    generalize List.find? (fun d => decide (d.id = some id)) (bus_devices child) = a
    cases a <;> rfl
end

/-- C33: `qdev_find_recursive(bus, id)` is a total function of the finite tree.
It returns the first device, in the order parent before descendants and
earlier sibling first, of the subtree below `bus` whose id is `id`.  So it
returns a device iff some device of the subtree has the id `id`; a device it
returns lies in the subtree and has the id `id`; and a device without an id is
never returned. -/
theorem qdev_find_recursive_spec (bus : BusState) (id : Str) :
    qdev_find_recursive bus id = (bus_devices bus).find? (fun d => d.id = some id) ∧
    ((qdev_find_recursive bus id).isSome = true ↔ ∃ d ∈ bus_devices bus, d.id = some id) ∧
    (∀ d, qdev_find_recursive bus id = some d →
      d ∈ bus_devices bus ∧ d.id = some id ∧ d.id ≠ none) ∧
    ((∀ d ∈ bus_devices bus, d.id = none) → qdev_find_recursive bus id = none) := by
  have e := qdev_find_recursive_find bus id
  refine ⟨e, ?_, ?_, ?_⟩
  · rw [e, List.find?_isSome]
    simp
  · intro d hd
    rw [e] at hd
    have h1 := List.mem_of_find?_eq_some hd
    have h2 := List.find?_some hd
    simp only [decide_eq_true_eq] at h2
    exact ⟨h1, h2, by rw [h2]; simp⟩
  · intro hall
    rw [e, List.find?_eq_none]
    intro d hd
    simp [hall d hd]

/-- The first device with id `b` of the sample tree is the one on the child bus
of device `a`, not the later sibling of `a`. -/
theorem qdev_find_recursive_sample :
    qdev_find_recursive find_tree "b".toList =
      some (.mk (some "b".toList) [.mk "x".toList []]) ∧
    qdev_find_recursive find_tree "c".toList = none :=
  ⟨rfl, rfl⟩

end QdevFind
